import Mathlib

/-!
# Privacy mapper of lightning-terminal (package firewalldb)

A shallow embedding of `firewalldb/privacy_mapper.go`: the per-session
real/pseudo key-value store kept in bbolt buckets, the pseudonym generators
and the Hide/Reveal field transformers, followed by the properties proved
about them.

Conventions of the embedding.
* A Go `string` is a Lean `String` (the strings that are valid UTF-8, as the
  string fields of the rewritten messages are); Go's `len(s)` is the UTF-8 byte
  count `String.utf8ByteSize`. The functions of encoding/hex, strings and
  strconv read characters where Go reads bytes: every character they accept is
  ASCII, and a character outside ASCII is refused like each of its bytes.
* A Go `[]byte` is a `List Byte`; the `nil` slice is kept apart from the empty
  one only where the source tests for it (`RevealBytes`).
* `uint64` and `uint32` values are natural numbers, truncated explicitly
  with `% 2 ^ 64` and `% 2 ^ 32` where the source converts.
* A Go call ends in one of three ways: it returns a value, it returns an
  error, or it panics (`Res`).
* The transaction handle is mutable in Go; here every writing function
  returns the state of the transaction after the call.
* `crypto/rand` is an input: every call is given what the reader yields
  during that call (`Rand`).

Two further parts follow the definitions of package firewalldb: the account
service of package accounts (namespace `Accounts`) and the fuzzed primitives
`hideAmount` and `hideTimestamp` of package firewall (namespace `Firewall`).
The sources hold their tests but not their implementation, so both are
modelled from the specification; amounts are natural numbers, balances and
instants are integers, and a relative variation is a rational number.
-/

namespace Firewalldb

/-! ## Results and errors -/

/-- The error values that the embedded code can return. -/
inductive GoError where
  /-- The value `ErrNoSuchKeyFound` of package firewalldb. -/
  | ErrNoSuchKeyFound
  /-- The error of `getBucket` when the top-level bucket is missing. -/
  | ErrBucketNotFound
  /-- The bbolt error `ErrTxNotWritable`. -/
  | ErrTxNotWritable
  /-- The bbolt error `ErrKeyRequired` (empty key). -/
  | ErrKeyRequired
  /-- The bbolt error `ErrKeyTooLarge`. -/
  | ErrKeyTooLarge
  /-- The bbolt error `ErrValueTooLarge`. -/
  | ErrValueTooLarge
  /-- A failed read of `crypto/rand.Reader`. -/
  | ErrRandRead
  /-- The value `hex.ErrLength` (odd number of hex digits). -/
  | ErrLength
  /-- A `hex.InvalidByteError`. -/
  | InvalidByteError
  /-- The error "bad channel point encoding" of `decodeChannelPoint`. -/
  | ErrBadChanPoint
  /-- A `strconv.NumError` wrapping `strconv.ErrSyntax`. -/
  | ErrSyntax
  /-- A `strconv.NumError` wrapping `strconv.ErrRange`. -/
  | ErrRange
  deriving DecidableEq

/-- How a Go call ends: with a value, with an error, or with a run-time panic. -/
inductive Res (α : Type) where
  | ok (v : α)
  | err (e : GoError)
  | panic
  deriving DecidableEq

/-- A byte. -/
abbrev Byte := Fin 256

/-- The conversion `byte(n)` of an unsigned integer: the low eight bits. -/
def toByte (n : Nat) : Byte := ⟨n % 256, Nat.mod_lt _ (by decide)⟩

/-! ## The random source -/

/-- What `crypto/rand` yields during one call of a Hide function.
`Int i` is the outcome of the `i`-th call `rand.Int(rand.Reader, 16)`: a read
error (`none`) or an index below the bound 16. `Read i` is the `i`-th byte that
`rand.Read` leaves in its buffer (its error is discarded by the callers). -/
structure Rand where
  Int : Nat → Option (Fin 16)
  Read : Nat → Byte

/-! ## Package encoding/hex and encoding/binary -/

/-- The table `hextable` of encoding/hex. -/
def hextable : List Char := "0123456789abcdef".data

/-- The two hex digits of one byte: `hextable[v>>4]`, `hextable[v&0x0f]`. -/
def encodeByte (v : Byte) : List Char :=
  [hextable.getD (v.val / 16) '0', hextable.getD (v.val % 16) '0']

/-- The digits written by `hex.Encode`. -/
def hexEncode : List Byte → List Char
  | [] => []
  | v :: rest => encodeByte v ++ hexEncode rest

/-- The function `hex.EncodeToString`. -/
def EncodeToString (src : List Byte) : String := String.mk (hexEncode src)

/-- The value of one hex digit (`reverseHexTable` of encoding/hex); `none` for
a character that is no hex digit. -/
def fromHexChar (c : Char) : Option Nat :=
  if '0'.toNat ≤ c.toNat ∧ c.toNat ≤ '9'.toNat then some (c.toNat - '0'.toNat)
  else if 'a'.toNat ≤ c.toNat ∧ c.toNat ≤ 'f'.toNat then some (c.toNat - 'a'.toNat + 10)
  else if 'A'.toNat ≤ c.toNat ∧ c.toNat ≤ 'F'.toNat then some (c.toNat - 'A'.toNat + 10)
  else none

/-- The loop of `hex.Decode`: two digits give one byte `(a << 4) | b`; an
invalid digit is reported before a bad length. -/
def hexDecode : List Char → Res (List Byte)
  | [] => .ok []
  | [p] =>
    match fromHexChar p with
    | none => .err .InvalidByteError
    | some _ => .err .ErrLength
  | p :: q :: rest =>
    match fromHexChar p, fromHexChar q with
    | some a, some b =>
      match hexDecode rest with
      | .ok bs => .ok (toByte (a * 16 + b) :: bs)
      | .err e => .err e
      | .panic => .panic
    | _, _ => .err .InvalidByteError

/-- The function `hex.DecodeString`. -/
def DecodeString (s : String) : Res (List Byte) := hexDecode s.data

/-- The function `binary.BigEndian.PutUint64` on a fresh 8-byte buffer. -/
def PutUint64 (v : Nat) : List Byte :=
  [toByte (v / 2 ^ 56), toByte (v / 2 ^ 48), toByte (v / 2 ^ 40), toByte (v / 2 ^ 32),
   toByte (v / 2 ^ 24), toByte (v / 2 ^ 16), toByte (v / 2 ^ 8), toByte v]

/-- The big-endian value `b7 | b6<<8 | ... | b0<<56` of eight bytes. The shifted
bytes occupy disjoint bits, so their bitwise or is their sum. -/
def be64 (b0 b1 b2 b3 b4 b5 b6 b7 : Byte) : Nat :=
  b7.val + b6.val * 2 ^ 8 + b5.val * 2 ^ 16 + b4.val * 2 ^ 24 + b3.val * 2 ^ 32
    + b2.val * 2 ^ 40 + b1.val * 2 ^ 48 + b0.val * 2 ^ 56

/-- The big-endian value `b3 | b2<<8 | b1<<16 | b0<<24` of four bytes. -/
def be32 (b0 b1 b2 b3 : Byte) : Nat :=
  b3.val + b2.val * 2 ^ 8 + b1.val * 2 ^ 16 + b0.val * 2 ^ 24

/-- The function `binary.BigEndian.Uint64`: it reads the first eight bytes and
panics (index out of range) on a shorter slice. -/
def Uint64 : List Byte → Res Nat
  | b0 :: b1 :: b2 :: b3 :: b4 :: b5 :: b6 :: b7 :: _ => .ok (be64 b0 b1 b2 b3 b4 b5 b6 b7)
  | _ => .panic

/-- The function `binary.BigEndian.Uint32`, same conventions. -/
def Uint32 : List Byte → Res Nat
  | b0 :: b1 :: b2 :: b3 :: _ => .ok (be32 b0 b1 b2 b3)
  | _ => .panic

/-! ## The bbolt store -/

/-- The constant `MaxKeySize` of bbolt. -/
def MaxKeySize : Nat := 32768

/-- The constant `MaxValueSize` of bbolt. -/
def MaxValueSize : Nat := 2 ^ 31 - 2

/-- A flat bbolt bucket: the value stored under each key, if any. -/
abbrev Bucket := String → Option String

/-- The empty bucket made by `CreateBucketIfNotExists`. -/
def Bucket.empty : Bucket := fun _ => none

/-- The method `Bucket.Get`: `nil` (here `none`) when the key is absent. -/
def Bucket.Get (b : Bucket) (key : String) : Option String := b key

/-- The method `Bucket.Put` in a writable transaction: a blank key, a key
longer than `MaxKeySize` and a value longer than `MaxValueSize` are refused;
otherwise the value is stored under the key, replacing what was there. -/
def Bucket.Put (b : Bucket) (key value : String) : Except GoError Bucket :=
  if key.utf8ByteSize = 0 then .error .ErrKeyRequired
  else if key.utf8ByteSize > MaxKeySize then .error .ErrKeyTooLarge
  else if value.utf8ByteSize > MaxValueSize then .error .ErrValueTooLarge
  else .ok (fun k => if k = key then some value else b k)

/-- The type `session.ID`, a 4-byte array, as the number its bytes spell. -/
abbrev SessionID := Fin (2 ^ 32)

/-- The bucket of one session: its sub-buckets "real-to-pseudo" and
"pseudo-to-real", each of which may not exist yet. -/
structure SessionBucket where
  realToPseudo : Option Bucket
  pseudoToReal : Option Bucket

/-- A bbolt transaction as `privacyMapTx` sees it: whether it is writable, and the
top-level bucket "privacy" (if it exists) with the session buckets under it. -/
structure BoltTx where
  writable : Bool
  privacy : Option (SessionID → Option SessionBucket)

/-- Modelled from the spec: `getBucket` is a helper of package firewalldb whose
source is not available. Following the storage layout
root → "privacy" → sessionID → ..., it returns the top-level bucket "privacy"
of the transaction, or an error when that bucket does not exist. -/
def getBucket (tx : BoltTx) : Except GoError (SessionID → Option SessionBucket) :=
  match tx.privacy with
  | none => .error .ErrBucketNotFound
  | some b => .ok b

/-! ## The transaction interface and its bbolt implementation -/

/-- The interface `PrivacyMapTx` over a transaction state `σ`. `NewPair` returns
the state after the call and the error, if any. -/
structure PrivacyMapTx (σ : Type) where
  NewPair : σ → String → String → σ × Option GoError
  PseudoToReal : σ → String → Res String
  RealToPseudo : σ → String → Res String

/-- Replaces the bucket of session `sid` under "privacy". -/
def setSession (priv : SessionID → Option SessionBucket) (sid : SessionID)
    (sb : SessionBucket) : SessionID → Option SessionBucket :=
  fun i => if i = sid then some sb else priv i

/-- The method `privacyMapTx.NewPair`. The three `CreateBucketIfNotExists`
calls fail in a read-only transaction and otherwise return the existing
bucket or a new empty one; then the pair is put in both directions, the
second `Put` only after the first succeeded. -/
def privacyMapTx.NewPair (sid : SessionID) (tx : BoltTx) (real pseudo : String) :
    BoltTx × Option GoError :=
  match getBucket tx with
  | .error e => (tx, some e)
  | .ok privacyBucket =>
    if tx.writable = false then (tx, some .ErrTxNotWritable) else
    let sessBucket := (privacyBucket sid).getD ⟨none, none⟩
    let realToPseudoBucket := sessBucket.realToPseudo.getD Bucket.empty
    let pseudoToRealBucket := sessBucket.pseudoToReal.getD Bucket.empty
    match realToPseudoBucket.Put real pseudo with
    | .error e =>
      ({ tx with privacy := some (setSession privacyBucket sid
          ⟨some realToPseudoBucket, some pseudoToRealBucket⟩) }, some e)
    | .ok r2p =>
      match pseudoToRealBucket.Put pseudo real with
      | .error e =>
        ({ tx with privacy := some (setSession privacyBucket sid
            ⟨some r2p, some pseudoToRealBucket⟩) }, some e)
      | .ok p2r =>
        ({ tx with privacy := some (setSession privacyBucket sid ⟨some r2p, some p2r⟩) }, none)

/-- The method `privacyMapTx.PseudoToReal`. -/
def privacyMapTx.PseudoToReal (sid : SessionID) (tx : BoltTx) (pseudo : String) :
    Res String :=
  match getBucket tx with
  | .error e => .err e
  | .ok privacyBucket =>
    match privacyBucket sid with
    | none => .err .ErrNoSuchKeyFound
    | some sessBucket =>
      match sessBucket.pseudoToReal with
      | none => .err .ErrNoSuchKeyFound
      | some pseudoToRealBucket =>
        match pseudoToRealBucket.Get pseudo with
        | none => .err .ErrNoSuchKeyFound
        | some real =>
          if real.utf8ByteSize = 0 then .err .ErrNoSuchKeyFound else .ok real

/-- The method `privacyMapTx.RealToPseudo`. -/
def privacyMapTx.RealToPseudo (sid : SessionID) (tx : BoltTx) (real : String) :
    Res String :=
  match getBucket tx with
  | .error e => .err e
  | .ok privacyBucket =>
    match privacyBucket sid with
    | none => .err .ErrNoSuchKeyFound
    | some sessBucket =>
      match sessBucket.realToPseudo with
      | none => .err .ErrNoSuchKeyFound
      | some realToPseudoBucket =>
        match realToPseudoBucket.Get real with
        | none => .err .ErrNoSuchKeyFound
        | some pseudo =>
          if pseudo.utf8ByteSize = 0 then .err .ErrNoSuchKeyFound else .ok pseudo

/-- The type `privacyMapTx` as an implementation of `PrivacyMapTx`, for the
session `sid` of its `privacyMapDB`. -/
def privacyMapTx (sid : SessionID) : PrivacyMapTx BoltTx where
  NewPair := privacyMapTx.NewPair sid
  PseudoToReal := privacyMapTx.PseudoToReal sid
  RealToPseudo := privacyMapTx.RealToPseudo sid

/-! ## Pseudonym generators and field transformers -/

/-- The alphabet `pseudoStrAlphabet`. -/
def pseudoStrAlphabet : List Char := "abcdef0123456789".data

/-- The length `pseudoStrAlphabetLen`. -/
def pseudoStrAlphabetLen : Nat := pseudoStrAlphabet.length

/-- The constant `txidStringLen`. -/
def txidStringLen : Nat := 64

/-- The loop of `NewPseudoStr`: position `i` of the buffer gets
`pseudoStrAlphabet[index]` for the index drawn by the `i`-th `rand.Int`; the
first failing draw ends the function with its error. `n` positions remain. -/
def NewPseudoStr.fill (rnd : Rand) : Nat → Nat → Res (List Char)
  | _, 0 => .ok []
  | i, n + 1 =>
    match rnd.Int i with
    | none => .err .ErrRandRead
    | some index =>
      match NewPseudoStr.fill rnd (i + 1) n with
      | .ok b => .ok (pseudoStrAlphabet.getD index.val 'a' :: b)
      | .err e => .err e
      | .panic => .panic

/-- The function `NewPseudoStr`. -/
def NewPseudoStr (rnd : Rand) (n : Nat) : Res String :=
  match NewPseudoStr.fill rnd 0 n with
  | .ok b => .ok (String.mk b)
  | .err e => .err e
  | .panic => .panic

/-- The function `HideString`. -/
def HideString {σ : Type} (tx : PrivacyMapTx σ) (s : σ) (rnd : Rand) (real : String) :
    Res String × σ :=
  match tx.RealToPseudo s real with
  | .panic => (.panic, s)
  | .ok pseudo => (.ok pseudo, s)
  | .err e =>
    if e ≠ .ErrNoSuchKeyFound then (.err e, s) else
    match NewPseudoStr rnd real.utf8ByteSize with
    | .panic => (.panic, s)
    | .err e => (.err e, s)
    | .ok pseudo =>
      match tx.NewPair s real pseudo with
      | (s1, some e) => (.err e, s1)
      | (s1, none) => (.ok pseudo, s1)

/-- The function `RevealString`. -/
def RevealString {σ : Type} (tx : PrivacyMapTx σ) (s : σ) (pseudo : String) : Res String :=
  if pseudo = "" then .ok pseudo else tx.PseudoToReal s pseudo

/-- The function `Uint64ToStr`. -/
def Uint64ToStr (i : Nat) : String := EncodeToString (PutUint64 i)

/-- The function `StrToUint64`. -/
def StrToUint64 (s : String) : Res Nat :=
  match DecodeString s with
  | .err e => .err e
  | .panic => .panic
  | .ok b => Uint64 b

/-- The function `NewPseudoUint64`: the big-endian value and the hex string of
the eight bytes that `rand.Read` leaves in the buffer. The buffer has exactly
eight bytes, so `binary.BigEndian.Uint64` cannot panic here. -/
def NewPseudoUint64 (rnd : Rand) : Nat × String :=
  let i := be64 (rnd.Read 0) (rnd.Read 1) (rnd.Read 2) (rnd.Read 3)
    (rnd.Read 4) (rnd.Read 5) (rnd.Read 6) (rnd.Read 7)
  (i, EncodeToString [rnd.Read 0, rnd.Read 1, rnd.Read 2, rnd.Read 3,
    rnd.Read 4, rnd.Read 5, rnd.Read 6, rnd.Read 7])

/-- The function `NewPseudoUint32`: the big-endian value of four random bytes. -/
def NewPseudoUint32 (rnd : Rand) : Nat :=
  be32 (rnd.Read 0) (rnd.Read 1) (rnd.Read 2) (rnd.Read 3)

/-- The function `HideUint64`. -/
def HideUint64 {σ : Type} (tx : PrivacyMapTx σ) (s : σ) (rnd : Rand) (real : Nat) :
    Res Nat × σ :=
  let str := Uint64ToStr real
  match tx.RealToPseudo s str with
  | .panic => (.panic, s)
  | .ok pseudo => (StrToUint64 pseudo, s)
  | .err e =>
    if e ≠ .ErrNoSuchKeyFound then (.err e, s) else
    let (pseudoUint64, pseudoUint64Str) := NewPseudoUint64 rnd
    match tx.NewPair s str pseudoUint64Str with
    | (s1, some e) => (.err e, s1)
    | (s1, none) => (.ok pseudoUint64, s1)

/-- The function `RevealUint64`. -/
def RevealUint64 {σ : Type} (tx : PrivacyMapTx σ) (s : σ) (pseudo : Nat) : Res Nat :=
  if pseudo = 0 then .ok 0 else
  match tx.PseudoToReal s (Uint64ToStr pseudo) with
  | .panic => .panic
  | .err e => .err e
  | .ok real => StrToUint64 real

/-! ## Channel points -/

/-- The parts of `strings.Split(s, sep)` for a separator of one character:
the text between the separators, so one part more than there are separators. -/
def splitChars (sep : Char) : List Char → List (List Char)
  | [] => [[]]
  | c :: cs =>
    if c = sep then [] :: splitChars sep cs
    else
      match splitChars sep cs with
      | [] => [[c]]
      | part :: parts => (c :: part) :: parts

/-- The call `strings.Split(s, ":")`. -/
def Split (s : String) : List String := (splitChars ':' s.data).map String.mk

/-- The digit loop of `strconv.ParseUint(s, 10, 64)` with the value `n` read so
far: a character that is no decimal digit is a syntax error, a value that
leaves the uint64 range a range error; the first of them ends the loop. -/
def parseUintLoop : List Char → Nat → Res Nat
  | [], n => .ok n
  | c :: cs, n =>
    if '0'.toNat ≤ c.toNat ∧ c.toNat ≤ '9'.toNat then
      let d := c.toNat - '0'.toNat
      if n ≥ (2 ^ 64 - 1) / 10 + 1 then .err .ErrRange
      else if n * 10 + d > 2 ^ 64 - 1 then .err .ErrRange
      else parseUintLoop cs (n * 10 + d)
    else .err .ErrSyntax

/-- The call `strconv.ParseUint(s, 10, 64)`. -/
def ParseUint (s : List Char) : Res Nat :=
  match s with
  | [] => .err .ErrSyntax
  | _ => parseUintLoop s 0

/-- The call `strconv.ParseInt(s, 10, 64)`: an optional sign, then
`ParseUint`; the magnitude must fit an int64. -/
def ParseInt (s : String) : Res Int :=
  match s.data with
  | [] => .err .ErrSyntax
  | c :: cs =>
    let neg := decide (c = '-')
    let digits := if c = '+' ∨ c = '-' then cs else c :: cs
    match ParseUint digits with
    | .panic => .panic
    | .err e => .err e
    | .ok un =>
      if neg = false ∧ un ≥ 2 ^ 63 then .err .ErrRange
      else if neg = true ∧ un > 2 ^ 63 then .err .ErrRange
      else .ok (if neg then -(un : Int) else (un : Int))

/-- The conversion `uint32(i)` of an int64: the value modulo 2^32. -/
def toUint32 (i : Int) : Nat := (i % 2 ^ 32).toNat

/-- The call `fmt.Sprintf("%s:%d", txid, index)` for an unsigned index. -/
def Sprintf (txid : String) (index : Nat) : String := txid ++ ":" ++ Nat.repr index

/-- The function `decodeChannelPoint`. -/
def decodeChannelPoint (cp : String) : Res (String × Nat) :=
  match Split cp with
  | [part0, part1] =>
    match ParseInt part1 with
    | .panic => .panic
    | .err e => .err e
    | .ok index => .ok (part0, toUint32 index)
  | _ => .err .ErrBadChanPoint

/-- The function `NewPseudoChanPoint`. -/
def NewPseudoChanPoint (rnd : Rand) : Res String :=
  match NewPseudoStr rnd txidStringLen with
  | .panic => .panic
  | .err e => .err e
  | .ok pseudoTXID => .ok (Sprintf pseudoTXID (NewPseudoUint32 rnd))

/-- The function `HideChanPoint`. -/
def HideChanPoint {σ : Type} (tx : PrivacyMapTx σ) (s : σ) (rnd : Rand) (txid : String)
    (index : Nat) : Res (String × Nat) × σ :=
  let cp := Sprintf txid index
  match tx.RealToPseudo s cp with
  | .panic => (.panic, s)
  | .ok pseudo => (decodeChannelPoint pseudo, s)
  | .err e =>
    if e ≠ .ErrNoSuchKeyFound then (.err e, s) else
    match NewPseudoChanPoint rnd with
    | .panic => (.panic, s)
    | .err e => (.err e, s)
    | .ok newCp =>
      match tx.NewPair s cp newCp with
      | (s1, some e) => (.err e, s1)
      | (s1, none) => (decodeChannelPoint newCp, s1)

/-- The function `RevealChanPoint`. -/
def RevealChanPoint {σ : Type} (tx : PrivacyMapTx σ) (s : σ) (txid : String) (index : Nat) :
    Res (String × Nat) :=
  let fakePoint := Sprintf txid index
  match tx.PseudoToReal s fakePoint with
  | .panic => .panic
  | .err e => .err e
  | .ok real => decodeChannelPoint real

/-- The function `HideChanPointStr`. -/
def HideChanPointStr {σ : Type} (tx : PrivacyMapTx σ) (s : σ) (rnd : Rand) (cp : String) :
    Res String × σ :=
  match decodeChannelPoint cp with
  | .panic => (.panic, s)
  | .err e => (.err e, s)
  | .ok (txid, index) =>
    match HideChanPoint tx s rnd txid index with
    | (.panic, s1) => (.panic, s1)
    | (.err e, s1) => (.err e, s1)
    | (.ok (newTxid, newIndex), s1) => (.ok (Sprintf newTxid newIndex), s1)

/-! ## Byte slices -/

/-- A Go byte slice: `none` is the nil slice, `some []` an empty one. -/
abbrev Slice := Option (List Byte)

/-- The bytes of a slice; a nil slice has none. -/
def Slice.content (b : Slice) : List Byte := b.getD []

/-- The function `HideBytes`. `hex.DecodeString` returns a slice of the bytes
of its argument, which is never nil. -/
def HideBytes {σ : Type} (tx : PrivacyMapTx σ) (s : σ) (rnd : Rand) (realBytes : Slice) :
    Res Slice × σ :=
  let real := EncodeToString realBytes.content
  match HideString tx s rnd real with
  | (.panic, s1) => (.panic, s1)
  | (.err e, s1) => (.err e, s1)
  | (.ok pseudo, s1) =>
    match DecodeString pseudo with
    | .panic => (.panic, s1)
    | .err e => (.err e, s1)
    | .ok b => (.ok (some b), s1)

/-- The function `RevealBytes`. -/
def RevealBytes {σ : Type} (tx : PrivacyMapTx σ) (s : σ) (pseudoBytes : Slice) : Res Slice :=
  match pseudoBytes with
  | none => .ok none
  | some b =>
    match RevealString tx s (EncodeToString b) with
    | .panic => .panic
    | .err e => .err e
    | .ok pseudo =>
      match DecodeString pseudo with
      | .panic => .panic
      | .err e => .err e
      | .ok real => .ok (some real)

/-! ## The store of the tests -/

/-- The type `mockPrivacyMapDB` of the tests: two Go maps. -/
structure mockPrivacyMapDB where
  r2p : String → Option String
  p2r : String → Option String

/-- The constructor `newMockPrivacyMapDB`. -/
def newMockPrivacyMapDB : mockPrivacyMapDB := ⟨fun _ => none, fun _ => none⟩

/-- The methods of `mockPrivacyMapDB` as an implementation of `PrivacyMapTx`. -/
def mockTx : PrivacyMapTx mockPrivacyMapDB where
  NewPair := fun m real pseudo =>
    (⟨fun k => if k = real then some pseudo else m.r2p k,
      fun k => if k = pseudo then some real else m.p2r k⟩, none)
  PseudoToReal := fun m pseudo =>
    match m.p2r pseudo with
    | none => .err .ErrNoSuchKeyFound
    | some r => .ok r
  RealToPseudo := fun m real =>
    match m.r2p real with
    | none => .err .ErrNoSuchKeyFound
    | some p => .ok p

/-! ## Auxiliary definitions for the statements -/

/-- The "real-to-pseudo" bucket of session `sid` as lookups see it: a bucket
that does not exist yet reads like an empty one. -/
def r2pView (sid : SessionID) (tx : BoltTx) : Bucket :=
  match tx.privacy with
  | none => Bucket.empty
  | some priv =>
    match priv sid with
    | none => Bucket.empty
    | some sb => sb.realToPseudo.getD Bucket.empty

/-- The "pseudo-to-real" bucket of session `sid` as lookups see it. -/
def p2rView (sid : SessionID) (tx : BoltTx) : Bucket :=
  match tx.privacy with
  | none => Bucket.empty
  | some priv =>
    match priv sid with
    | none => Bucket.empty
    | some sb => sb.pseudoToReal.getD Bucket.empty

/-- The answer of a lookup from what the bucket holds under the key. -/
def lookupRes (exists_ : Bool) (v : Option String) : Res String :=
  if exists_ = false then .err .ErrBucketNotFound else
  match v with
  | none => .err .ErrNoSuchKeyFound
  | some w => if w.utf8ByteSize = 0 then .err .ErrNoSuchKeyFound else .ok w

/-- The state with a writable transaction and an empty top-level bucket. -/
def emptyTx : BoltTx := ⟨true, some (fun _ => none)⟩

/-- A random source whose every draw is the index 0 and every byte 0. -/
def zeroRand : Rand := ⟨fun _ => some 0, fun _ => 0⟩

/-- A random source whose every draw `rand.Int` fails with a read error. -/
def failingRand : Rand := ⟨fun _ => none, fun _ => 0⟩

/-- The decimal digits. -/
def decDigits : List Char := "0123456789".data

/-- The number that a run of decimal digits spells after the value `acc`. -/
def decVal (l : List Char) (acc : Nat) : Nat :=
  l.foldl (fun a c => a * 10 + (c.toNat - '0'.toNat)) acc

/-- The value that a run of hex digits spells, most significant digit first,
after the value `acc`: the big-endian integer value of the text. -/
def hexValue (l : List Char) (acc : Nat) : Nat :=
  l.foldl (fun a c => a * 16 + (fromHexChar c).getD 0) acc

/-- The big-endian value of a run of bytes after the value `acc`. -/
def bytesValue (bs : List Byte) (acc : Nat) : Nat :=
  bs.foldl (fun a b => a * 256 + b.val) acc

/-- The map `mapPreloadRealToPseudo` of `TestPrivacyMapper`. -/
def mapPreloadRealToPseudo : List (String × String) :=
  [("Tinker Bell\x27s pub key", "a44ef01c3bff970ef495c"),
   ("000000000000007b", "47deb774fc605c56"),
   ("0000000000000141", "2fd42e84b9ffaaeb"),
   ("00000000000002a6", "7859bf41241787c2"),
   ("000000000000036c", "1320e5d25b7b5973"),
   ("abcdefabcdefabcdefabcdefabcdefabcdefabcdefabcdefabcdefabcdefabcd:0",
    "097ef666a61919ff3413b3b701eae3a5cbac08f70c0ca567806e1fa6acbfe384:2161781494"),
   ("abcdefabcdefabcdefabcdefabcdefabcdefabcdefabcdefabcdefabcdefabcd:1",
    "45ec471bfccb0b7b9a8bc4008248931c59ad994903e07b54f54821ea3ef5cc5c62:1642614131"),
   ("01020304", "c8134495")]

/-- The store that `newMockDB` returns for the session of the test: every
preloaded pair inserted with `NewPair`. Go ranges over the map in no fixed
order; the reals and the pseudonyms are pairwise distinct, so every order
gives this store. -/
def newMockDB : mockPrivacyMapDB :=
  mapPreloadRealToPseudo.foldl (fun m rp => (mockTx.NewPair m rp.1 rp.2).1) newMockPrivacyMapDB

/-- The store after `NewPair("01", "AB")` on the empty one: the hex string of
the byte 1 mapped, in both directions, to a pseudonym in upper-case hex. -/
def upperCaseTx : BoltTx := ((privacyMapTx 7).NewPair emptyTx "01" "AB").1

/-! ## Sessions: sequences of Hide calls -/

/-- A call of one of the Hide functions, with its argument. -/
inductive HideCall where
  | string (real : String)
  | uint64 (real : Nat)
  | chanPoint (txid : String) (index : Nat)
  | chanPointStr (cp : String)
  | bytes (realBytes : Slice)

/-- What a Hide function returns: the pseudonym, in the shape of the call. -/
inductive HideVal where
  | string (pseudo : String)
  | uint64 (pseudo : Nat)
  | chanPoint (txid : String) (index : Nat)
  | chanPointStr (cp : String)
  | bytes (pseudoBytes : Slice)
  deriving DecidableEq

/-- Wraps the value of a result. -/
def Res.map {α β : Type} (f : α → β) : Res α → Res β
  | .ok v => .ok (f v)
  | .err e => .err e
  | .panic => .panic

/-- Runs one Hide call: its result and the state it leaves. -/
def runHide {σ : Type} (tx : PrivacyMapTx σ) (s : σ) (rnd : Rand) : HideCall → Res HideVal × σ
  | .string real => ((HideString tx s rnd real).1.map .string, (HideString tx s rnd real).2)
  | .uint64 real => ((HideUint64 tx s rnd real).1.map .uint64, (HideUint64 tx s rnd real).2)
  | .chanPoint txid index =>
    ((HideChanPoint tx s rnd txid index).1.map (fun r => .chanPoint r.1 r.2),
      (HideChanPoint tx s rnd txid index).2)
  | .chanPointStr cp =>
    ((HideChanPointStr tx s rnd cp).1.map .chanPointStr, (HideChanPointStr tx s rnd cp).2)
  | .bytes realBytes =>
    ((HideBytes tx s rnd realBytes).1.map .bytes, (HideBytes tx s rnd realBytes).2)

/-- The state after a sequence of Hide calls, each with what the random source
yields during it. A call that fails leaves the state it leaves; the sequence
goes on. -/
def runAll {σ : Type} (tx : PrivacyMapTx σ) : σ → List (HideCall × Rand) → σ
  | s, [] => s
  | s, (c, rnd) :: rest => runAll tx (runHide tx s rnd c).2 rest

/-- The key under which a Hide call looks its argument up in real-to-pseudo;
`HideChanPointStr` has none when its argument does not decode. -/
def HideCall.key : HideCall → Option String
  | .string real => some real
  | .uint64 real => some (Uint64ToStr real)
  | .chanPoint txid index => some (Sprintf txid index)
  | .chanPointStr cp =>
    match decodeChannelPoint cp with
    | .ok (txid, index) => some (Sprintf txid index)
    | _ => none
  | .bytes realBytes => some (EncodeToString realBytes.content)

/-- The pseudonym string that a Hide call draws, and inserts, on a miss. -/
def HideCall.drawn (rnd : Rand) : HideCall → Res String
  | .string real => NewPseudoStr rnd real.utf8ByteSize
  | .uint64 _ => .ok (NewPseudoUint64 rnd).2
  | .chanPoint _ _ => NewPseudoChanPoint rnd
  | .chanPointStr _ => NewPseudoChanPoint rnd
  | .bytes realBytes => NewPseudoStr rnd (EncodeToString realBytes.content).utf8ByteSize

/-- The two directions of the map of session `sid` are mutually inverse on the
stored real values: a pseudonym found for a real value maps back to it. -/
def Consistent (sid : SessionID) (s : BoltTx) : Prop :=
  ∀ x p, (privacyMapTx sid).RealToPseudo s x = .ok p →
    (privacyMapTx sid).PseudoToReal s p = .ok x

/-- The pseudonym `q` is not stored yet: `PseudoToReal` does not find it. -/
def Unused (sid : SessionID) (s : BoltTx) (q : String) : Prop :=
  (privacyMapTx sid).PseudoToReal s q = .err .ErrNoSuchKeyFound

/-- The call draws no pseudonym that is in use: when its key is unmapped, the
pseudonym it draws is not stored yet. -/
def FreshDraw (sid : SessionID) (s : BoltTx) (c : HideCall) (rnd : Rand) : Prop :=
  ∀ k q, c.key = some k → (privacyMapTx sid).RealToPseudo s k = .err .ErrNoSuchKeyFound →
    c.drawn rnd = .ok q → Unused sid s q

/-- Every call of the sequence, run from `s`, draws no pseudonym in use. -/
def FreshSession (sid : SessionID) : BoltTx → List (HideCall × Rand) → Prop
  | _, [] => True
  | s, (c, rnd) :: rest =>
    FreshDraw sid s c rnd ∧ FreshSession sid (runHide (privacyMapTx sid) s rnd c).2 rest

/-- The pseudonym that a Hide call returns when its key maps to the stored
string `p`. -/
def HideCall.decode (p : String) : HideCall → Res HideVal
  | .string _ => .ok (.string p)
  | .uint64 _ => (StrToUint64 p).map .uint64
  | .chanPoint _ _ => (decodeChannelPoint p).map (fun r => .chanPoint r.1 r.2)
  | .chanPointStr _ => (decodeChannelPoint p).map (fun r => .chanPointStr (Sprintf r.1 r.2))
  | .bytes _ => (DecodeString p).map (fun b => .bytes (some b))

/-- The pattern that the Hide functions share: look the key up; on a hit
return the stored string decoded; on a miss draw a pseudonym string, store the
pair and return the drawn string decoded. -/
def hideGeneric {σ α : Type} (tx : PrivacyMapTx σ) (s : σ) (k : String) (drawn : Res String)
    (dec : String → Res α) : Res α × σ :=
  match tx.RealToPseudo s k with
  | .panic => (.panic, s)
  | .ok p => (dec p, s)
  | .err e =>
    if e ≠ .ErrNoSuchKeyFound then (.err e, s) else
    match drawn with
    | .panic => (.panic, s)
    | .err e => (.err e, s)
    | .ok q =>
      match tx.NewPair s k q with
      | (s1, some e) => (.err e, s1)
      | (s1, none) => (dec q, s1)

/-- Every real-to-pseudo entry that session `sid` holds in `s` is the same in `s1`. -/
def KeepsRealToPseudo (sid : SessionID) (s s1 : BoltTx) : Prop :=
  ∀ x p, (privacyMapTx sid).RealToPseudo s x = .ok p →
    (privacyMapTx sid).RealToPseudo s1 x = .ok p

/-- Every pseudo-to-real entry that session `sid` holds in `s` is the same in `s1`. -/
def KeepsPseudoToReal (sid : SessionID) (s s1 : BoltTx) : Prop :=
  ∀ q r, (privacyMapTx sid).PseudoToReal s q = .ok r →
    (privacyMapTx sid).PseudoToReal s1 q = .ok r

/-- The store after `HideString("xyz")` on the empty one, which draws "aaa". -/
def oneEntryTx : BoltTx := (HideString (privacyMapTx 7) emptyTx zeroRand "xyz").2

/-! ## The database: Update and View -/

/-- The bbolt database behind `privacyMapDB`, as far as the privacy mapper reads
and writes it: the committed top-level bucket "privacy", if it exists. -/
structure DB where
  privacy : Option (SessionID → Option SessionBucket)

/-- What bbolt answers to the transaction calls of one `Update` or `View`: the
error of `Begin` (for example on a closed database), of `Commit` (a failed
write, after which bbolt has rolled the transaction back) and of `Rollback`;
`none` when the call succeeds. -/
structure BoltCalls where
  Begin : Option GoError
  Commit : Option GoError
  Rollback : Option GoError

/-- A function `f func(tx PrivacyMapTx) error` handed to `Update` or `View`: how
it ends on a transaction (with no error, with an error or in a panic) and the
state in which it leaves the transaction. -/
abbrev TxFunc := BoltTx → Res Unit × BoltTx

/-- The method `privacyMapDB.beginTx`: the transaction starts on the committed
content. -/
def privacyMapDB.beginTx (db : DB) (bolt : BoltCalls) (writable : Bool) :
    Except GoError BoltTx :=
  match bolt.Begin with
  | some e => .error e
  | none => .ok ⟨writable, db.privacy⟩

/-- The method `privacyMapDB.Update`: the result and the database after the
call. An error of `f` rolls the transaction back (the error of `Rollback` is
dropped), a panic of `f` does so in the deferred call; otherwise the
transaction is committed and the result of `Commit` returned. -/
def privacyMapDB.Update (db : DB) (bolt : BoltCalls) (f : TxFunc) : Res Unit × DB :=
  match privacyMapDB.beginTx db bolt true with
  | .error e => (.err e, db)
  | .ok tx =>
    match f tx with
    | (.panic, _) => (.panic, db)
    | (.err e, _) => (.err e, db)
    | (.ok _, tx1) =>
      match bolt.Commit with
      | some e => (.err e, db)
      | none => (.ok (), ⟨tx1.privacy⟩)

/-- The method `privacyMapDB.View`: the transaction is read-only and is rolled
back after `f`; the error of `f` goes before the error of `Rollback`. -/
def privacyMapDB.View (db : DB) (bolt : BoltCalls) (f : TxFunc) : Res Unit × DB :=
  match privacyMapDB.beginTx db bolt false with
  | .error e => (.err e, db)
  | .ok tx =>
    match f tx with
    | (.panic, _) => (.panic, db)
    | (.err e, _) => (.err e, db)
    | (.ok _, _) =>
      match bolt.Rollback with
      | some e => (.err e, db)
      | none => (.ok (), db)

/-- The store after the failed `NewPair("a", "")` on the empty one: the first
`Put` stored "a" with the empty value, the second refused the blank key. -/
def emptyValueTx : BoltTx := ((privacyMapTx 7).NewPair emptyTx "a" "").1

/-- A function for `Update` that inserts the pair ("a", "b") in session 7 and
then fails: its second `NewPair` has a blank key. -/
def insertThenFail : TxFunc := fun tx =>
  match (privacyMapTx 7).NewPair tx "a" "b" with
  | (tx1, some e) => (.err e, tx1)
  | (tx1, none) =>
    match (privacyMapTx 7).NewPair tx1 "" "" with
    | (tx2, some e) => (.err e, tx2)
    | (tx2, none) => (.ok (), tx2)

/-- A function for `Update` that inserts the pair ("a", "b") in session 7. -/
def insertPair : TxFunc := fun tx =>
  match (privacyMapTx 7).NewPair tx "a" "b" with
  | (tx1, some e) => (.err e, tx1)
  | (tx1, none) => (.ok (), tx1)

/-- The database with the top-level bucket "privacy" and no session in it. -/
def emptyDB : DB := ⟨some (fun _ => none)⟩

/-! ## Auxiliary definitions on the text of an integer -/

/-- The sign and the digits of a written integer: a leading `-` or `+` is the
sign, the rest are the digits. -/
def signedDigits : List Char → Bool × List Char
  | [] => (false, [])
  | c :: cs => if c = '-' then (true, cs) else if c = '+' then (false, cs) else (false, c :: cs)

/-- A text is a base-10 integer when it is an optional sign followed by one
decimal digit or more. -/
def isIntText (l : List Char) : Bool :=
  !(signedDigits l).2.isEmpty && (signedDigits l).2.all (fun c => decide (c ∈ decDigits))

/-- The integer that a base-10 text spells. -/
def intVal (l : List Char) : Int :=
  if (signedDigits l).1 then -((decVal (signedDigits l).2 0 : Nat) : Int)
  else ((decVal (signedDigits l).2 0 : Nat) : Int)

/-- A store in which `NewPair` has mapped the key of the uint64 123 to the short
hex string "00". -/
def shortPseudoTx : BoltTx := ((privacyMapTx 7).NewPair emptyTx (Uint64ToStr 123) "00").1

/-- A store in which `NewPair` has mapped the short hex string "00" to the key
of the uint64 123, so that the pseudonym 123 reveals to "00". -/
def shortRealTx : BoltTx := ((privacyMapTx 7).NewPair emptyTx "00" (Uint64ToStr 123)).1

/-- The store after `HideChanPoint` on the blank store with the txid "a:b" and
the index 1. -/
def colonTxidTx : BoltTx := (HideChanPoint (privacyMapTx 7) emptyTx zeroRand "a:b" 1).2

end Firewalldb

/-! # The account service (package accounts)

Of package `accounts` the sources hold the tests of the service only. The
service they exercise is modelled here from its specification: the account
store, the two in-memory indexes, `CheckBalance`, and the handlers of payment
and invoice events. -/

namespace Accounts

/-- Modelled from the spec: the type `AccountID`, the opaque identifier of an
account; the package declares it outside the files at hand. -/
abbrev AccountID := Nat

/-- Modelled from the spec: the type `lntypes.Hash` of a payment hash, declared
outside the files at hand; an opaque value that names a payment or an
invoice. -/
abbrev Hash := Nat

/-- Modelled from the spec: the errors of the account service that the balance
check can return; their declarations are missing from the sources. -/
inductive AccountError where
  | ErrAccBalanceInsufficient
  | ErrAccountNotFound
  deriving DecidableEq

/-- Modelled from the spec: the states of a payment, Unknown, InFlight, Succeeded
and Failed; the type comes from the node client, which is missing. -/
inductive PaymentState where
  | Unknown
  | InFlight
  | Succeeded
  | Failed
  deriving DecidableEq

/-- Modelled from the spec: the type `PaymentEntry` of the account service, the
status of a payment and the debit reserved for it, fees included, in
milli-satoshi. -/
structure PaymentEntry where
  Status : PaymentState
  FullAmount : Nat
  deriving DecidableEq

/-- Modelled from the spec: the type `OffChainBalanceAccount` of the account
service, as far as the balance arithmetic reads it: the identifier, the
current balance (a signed integer, in milli-satoshi), the set of invoice
hashes and the mapping from payment hash to entry. The mapping is a list of
pairs in which a hash is looked up from the front. -/
structure OffChainBalanceAccount where
  ID : AccountID
  CurrentBalance : Int
  Invoices : List Hash
  Payments : List (Hash × PaymentEntry)
  deriving DecidableEq

/-- Modelled from the spec: a payment is in flight, and its reservation counts,
while its status is Unknown or InFlight. The helper `inflightState` is part
of the missing service. -/
def inflightState : PaymentState → Bool
  | .Unknown => true
  | .InFlight => true
  | _ => false

/-- Modelled from the spec: the reserved amount of the missing `CheckBalance`,
the sum of `FullAmount` over the payments whose status is in flight. -/
def inFlightAmt : List (Hash × PaymentEntry) → Nat
  | [] => 0
  | (_, entry) :: rest =>
    if inflightState entry.Status then entry.FullAmount + inFlightAmt rest else inFlightAmt rest

/-- Modelled from the spec: the available balance, the current balance less the
reservations; the service that computes it is missing. -/
def availableAmount (account : OffChainBalanceAccount) : Int :=
  account.CurrentBalance - (inFlightAmt account.Payments : Nat)

/-- Modelled from the spec: the assignment `account.Payments[hash] = entry` of the
missing service, which replaces the entry of the hash or adds one. -/
def setPayment (hash : Hash) (entry : PaymentEntry) :
    List (Hash × PaymentEntry) → List (Hash × PaymentEntry)
  | [] => [(hash, entry)]
  | (k, v) :: rest =>
    if k = hash then (hash, entry) :: rest else (k, v) :: setPayment hash entry rest

/-- Modelled from the spec: the state of the missing `InterceptorService`: the
account store (a mapping from identifier to account), the persisted index
cursor `(lastAddIndex, lastSettleIndex)`, the in-memory index
`invoiceToAccount` and the set `pendingPayments` with the account of each
pending hash. -/
structure InterceptorService where
  accounts : AccountID → Option OffChainBalanceAccount
  lastIndexes : Nat × Nat
  invoiceToAccount : Hash → Option AccountID
  pendingPayments : Hash → Option AccountID

/-- Modelled from the spec: step 1 of the startup of the missing service. It loads
the accounts, maps every hash of an invoice set to its account, and makes
pending every payment whose entry is in flight; the cursor is the stored
one. -/
def Start (stored : List OffChainBalanceAccount) (indexes : Nat × Nat) : InterceptorService where
  accounts := fun id => stored.find? (fun a => decide (a.ID = id))
  lastIndexes := indexes
  invoiceToAccount := fun hash =>
    (stored.find? (fun a => decide (hash ∈ a.Invoices))).map (fun a => a.ID)
  pendingPayments := fun hash =>
    (stored.find? (fun a =>
      match a.Payments.lookup hash with
      | some entry => inflightState entry.Status
      | none => false)).map (fun a => a.ID)

/-- Modelled from the spec: the call `UpdateAccount` of the missing store, which
replaces the stored account of that identifier. -/
def UpdateAccount (accounts : AccountID → Option OffChainBalanceAccount)
    (account : OffChainBalanceAccount) : AccountID → Option OffChainBalanceAccount :=
  fun id => if id = account.ID then some account else accounts id

/-- Modelled from the spec: the removal of a hash from one of the in-memory
indexes of the missing service. -/
def deleteKey (index : Hash → Option AccountID) (hash : Hash) : Hash → Option AccountID :=
  fun h => if h = hash then none else index h

/-- Modelled from the spec: the method `CheckBalance` of the missing service. It
reads the account, subtracts the reservations from the current balance and
compares the rest with the amount; `none` is the nil error. -/
def CheckBalance (s : InterceptorService) (id : AccountID) (requiredBalance : Nat) :
    Option AccountError :=
  match s.accounts id with
  | none => some .ErrAccountNotFound
  | some account =>
    if availableAmount account < (requiredBalance : Int) then some .ErrAccBalanceInsufficient
    else none

/-- Modelled from the spec: a status update of the per-payment stream
(`PaymentStatus`), a type of the node client that is missing: the state and,
for a terminal state, the fee and the value in milli-satoshi. -/
structure PaymentStatus where
  State : PaymentState
  Fee : Nat
  Value : Nat
  deriving DecidableEq

/-- Modelled from the spec: the state machine of the missing payment tracker, one
update for the hash applied to the service. Only a pending hash whose entry
is not terminal receives updates; an entry that is absent counts as Unknown
with nothing reserved. InFlight marks the entry in flight and keeps its
reservation; Succeeded debits value plus fee from the current balance, marks
the entry and removes the hash from the pending set; Failed marks the entry
and removes the hash from the pending set. -/
def paymentUpdate (s : InterceptorService) (hash : Hash) (status : PaymentStatus) :
    InterceptorService :=
  match s.pendingPayments hash with
  | none => s
  | some id =>
    match s.accounts id with
    | none => s
    | some account =>
      let entry := (account.Payments.lookup hash).getD ⟨.Unknown, 0⟩
      if inflightState entry.Status = false then s else
      match status.State with
      | .Unknown => s
      | .InFlight =>
        let account1 : OffChainBalanceAccount :=
          { account with
            Payments := setPayment hash ⟨.InFlight, entry.FullAmount⟩ account.Payments }
        { s with accounts := UpdateAccount s.accounts account1 }
      | .Succeeded =>
        let account1 : OffChainBalanceAccount :=
          { account with
            CurrentBalance := account.CurrentBalance - ((status.Value + status.Fee : Nat) : Int)
            Payments := setPayment hash ⟨.Succeeded, entry.FullAmount⟩ account.Payments }
        { s with
          accounts := UpdateAccount s.accounts account1
          pendingPayments := deleteKey s.pendingPayments hash }
      | .Failed =>
        let account1 : OffChainBalanceAccount :=
          { account with
            Payments := setPayment hash ⟨.Failed, entry.FullAmount⟩ account.Payments }
        { s with
          accounts := UpdateAccount s.accounts account1
          pendingPayments := deleteKey s.pendingPayments hash }

/-- Modelled from the spec: the states of an invoice, as the invoice subscription
reports them; the type comes from the node client, which is missing. -/
inductive InvoiceState where
  | Open
  | Settled
  | Cancelled
  | Accepted
  deriving DecidableEq

/-- Modelled from the spec: an event of the invoice subscription (`Invoice`), a
type of the node client that is missing. -/
structure Invoice where
  AddIndex : Nat
  SettleIndex : Nat
  Hash : Hash
  AmountPaid : Nat
  State : InvoiceState
  deriving DecidableEq

/-- Modelled from the spec: the index cursor after an invoice event; each index is
replaced only when the event shows a strictly larger one. The code that
stores the cursor is missing. -/
def advanceIndexes (stored : Nat × Nat) (invoice : Invoice) : Nat × Nat :=
  (if invoice.AddIndex > stored.1 then invoice.AddIndex else stored.1,
   if invoice.SettleIndex > stored.2 then invoice.SettleIndex else stored.2)

/-- Modelled from the spec: the missing invoice tracker, one event applied to the
service. The cursor is advanced and stored. A settled invoice whose hash the
index `invoiceToAccount` maps to an account credits the paid amount to that
account and is dropped from the index, so that a later settle event for the
hash is ignored; the hash stays in the invoice set of the account. -/
def invoiceUpdate (s : InterceptorService) (invoice : Invoice) : InterceptorService :=
  let s1 := { s with lastIndexes := advanceIndexes s.lastIndexes invoice }
  if invoice.State ≠ .Settled then s1 else
  match s.invoiceToAccount invoice.Hash with
  | none => s1
  | some id =>
    match s.accounts id with
    | none => s1
    | some account =>
      let account1 : OffChainBalanceAccount :=
        { account with CurrentBalance := account.CurrentBalance + (invoice.AmountPaid : Int) }
      { s1 with
        accounts := UpdateAccount s.accounts account1
        invoiceToAccount := deleteKey s.invoiceToAccount invoice.Hash }

/-- The account identifier `testID` of the tests, as a number. -/
def testID : AccountID := 778899

/-- The payment hash `testHash` of the tests, as a number. -/
def testHash : Hash := 12345

/-- The payment hash `testHash2` of the tests, as a number. -/
def testHash2 : Hash := 998877

/-- The account of the test "startup track in-flight payments". -/
def trackedAccount : OffChainBalanceAccount :=
  ⟨testID, 1234, [testHash], [(testHash, ⟨.InFlight, 1234⟩), (testHash2, ⟨.Unknown, 3456⟩)]⟩

/-- The account of the test "in-flight payments". -/
def inFlightAccount : OffChainBalanceAccount :=
  ⟨testID, 5000, [testHash], [(testHash, ⟨.InFlight, 2000⟩), (testHash2, ⟨.InFlight, 1000⟩)]⟩

end Accounts

/-! # The fuzzed primitives (package firewall)

Of the functions `hideAmount` and `hideTimestamp` the sources hold the tests
only; both are modelled here from their specification. -/

namespace Firewall

/-- Modelled from the spec: the function `hideAmount` of package firewall, whose
implementation is missing. With the relative variation `r` and the amount
`amt`, the interval has the width `w = 2 * floor (r * amt)`; the injected
random function is asked for a number `k` in `[0, w]` and the result is
`amt - floor (r * amt) + k`. The amount 0 gives 0 and an amount below
`floor (1 / r)` is returned as it is. -/
def hideAmount (randIntn : Nat → Firewalldb.Res Nat) (relativeVariation : ℚ) (amount : Nat) :
    Firewalldb.Res Nat :=
  if amount = 0 then .ok 0
  else if amount < ⌊1 / relativeVariation⌋₊ then .ok amount
  else
    let fuzzInterval := ⌊relativeVariation * amount⌋₊
    match randIntn (2 * fuzzInterval) with
    | .panic => .panic
    | .err e => .err e
    | .ok k => .ok (amount - fuzzInterval + k)

/-- Modelled from the spec: a timestamp, the argument of the missing
`hideTimestamp` (`time.Time`): the zero timestamp, or an instant given in
nanoseconds since the Unix epoch. -/
inductive Time where
  | zero
  | unixNano (ns : Int)
  deriving DecidableEq

/-- Modelled from the spec: the function `hideTimestamp` of package firewall, whose
implementation is missing. It works as `hideAmount` does, with the absolute
variation `d` (a duration in nanoseconds) for the half width: the random
function is asked for a number `k` in `[0, 2 * d]` and the result is the
instant `t - d + k`. The zero timestamp is returned as it is. -/
def hideTimestamp (randIntn : Nat → Firewalldb.Res Nat) (absoluteVariation : Nat)
    (timestamp : Time) : Firewalldb.Res Time :=
  match timestamp with
  | .zero => .ok .zero
  | .unixNano t =>
    match randIntn (2 * absoluteVariation) with
    | .panic => .panic
    | .err e => .err e
    | .ok k => .ok (.unixNano (t - (absoluteVariation : Int) + (k : Int)))

end Firewall

namespace Firewalldb

/-! # Lemmas

## Lemmas on hex and decimal text -/

theorem fromHexChar_hextable : ∀ n, n < 16 → fromHexChar (hextable.getD n '0') = some n := by
  decide

theorem hextable_mem : ∀ c ∈ hextable,
    ∃ n, n < 16 ∧ fromHexChar c = some n ∧ hextable.getD n '0' = c := by
  decide

theorem fromHexChar_lt {c : Char} {n : Nat} (h : fromHexChar c = some n) : n < 16 := by
  have h0 : '0'.toNat = 48 := rfl
  have h9 : '9'.toNat = 57 := rfl
  have ha : 'a'.toNat = 97 := rfl
  have hf : 'f'.toNat = 102 := rfl
  have hA : 'A'.toNat = 65 := rfl
  have hF : 'F'.toNat = 70 := rfl
  unfold fromHexChar at h
  rw [h0, h9, ha, hf, hA, hF] at h
  split_ifs at h <;> simp only [Option.some.injEq, reduceCtorEq] at h <;> omega

theorem toByte_nibbles (v : Byte) : toByte (v.val / 16 * 16 + v.val % 16) = v := by
  apply Fin.ext
  simp only [toByte]
  have := v.isLt
  omega

theorem hexDecode_hexEncode (bs : List Byte) : hexDecode (hexEncode bs) = .ok bs := by
  induction bs with
  | nil => rfl
  | cons v rest ih =>
    have h1 := fromHexChar_hextable (v.val / 16) (by have := v.isLt; omega)
    have h2 := fromHexChar_hextable (v.val % 16) (by omega)
    show hexDecode (_ :: _ :: hexEncode rest) = _
    simp only [hexDecode, h1, h2, ih, toByte_nibbles]

theorem hexEncode_length (bs : List Byte) : (hexEncode bs).length = 2 * bs.length := by
  induction bs with
  | nil => rfl
  | cons v rest ih => simp [hexEncode, encodeByte, ih]; omega

theorem hexEncode_mem (bs : List Byte) : ∀ c ∈ hexEncode bs, c ∈ hextable := by
  induction bs with
  | nil => simp [hexEncode]
  | cons v rest ih =>
    have h : ∀ n, n < 16 → hextable.getD n '0' ∈ hextable := by decide
    intro c hc
    simp only [hexEncode, encodeByte, List.cons_append, List.nil_append, List.mem_cons] at hc
    rcases hc with rfl | rfl | hc
    · exact h _ (by have := v.isLt; omega)
    · exact h _ (by omega)
    · exact ih c hc

/-- Decoding lowercase digits and encoding the bytes again gives the digits back. -/
theorem hexEncode_hexDecode : ∀ (l : List Char) (bs : List Byte),
    (∀ c ∈ l, c ∈ hextable) → hexDecode l = .ok bs → hexEncode bs = l
  | [], bs, _, h => by
    simp only [hexDecode, Res.ok.injEq] at h
    subst h; rfl
  | [p], bs, _, h => by
    simp only [hexDecode] at h
    cases hp : fromHexChar p <;> simp [hp] at h
  | p :: q :: rest, bs, hl, h => by
    obtain ⟨a, ha, hpa, hta⟩ := hextable_mem p (hl p (by simp))
    obtain ⟨b, hb, hqb, htb⟩ := hextable_mem q (hl q (by simp))
    simp only [hexDecode, hpa, hqb] at h
    cases hr : hexDecode rest with
    | panic => simp [hr] at h
    | err e => simp [hr] at h
    | ok cs =>
      simp only [hr, Res.ok.injEq] at h
      subst h
      have ih := hexEncode_hexDecode rest cs (fun c hc => hl c (by simp [hc])) hr
      have e1 : (toByte (a * 16 + b)).val / 16 = a := by simp only [toByte]; omega
      have e2 : (toByte (a * 16 + b)).val % 16 = b := by simp only [toByte]; omega
      simp only [hexEncode, encodeByte, e1, e2, hta, htb, ih, List.cons_append, List.nil_append]

/-- A string of an even number of hex digits decodes, to half as many bytes. -/
theorem hexDecode_ok : ∀ (n : Nat) (l : List Char),
    l.length = 2 * n → (∀ c ∈ l, (fromHexChar c).isSome = true) →
      ∃ bs, hexDecode l = .ok bs ∧ bs.length = n
  | 0, l, hlen, _ => by
    have : l = [] := List.length_eq_zero.mp (by omega)
    subst this
    exact ⟨[], rfl, rfl⟩
  | n + 1, l, hlen, hl => by
    match l, hlen, hl with
    | p :: q :: rest, hlen, hl =>
      obtain ⟨a, ha⟩ := Option.isSome_iff_exists.mp (hl p (by simp))
      obtain ⟨b, hb⟩ := Option.isSome_iff_exists.mp (hl q (by simp))
      obtain ⟨bs, hbs, hn⟩ := hexDecode_ok n rest (by simp at hlen; omega)
        (fun c hc => hl c (by simp [hc]))
      exact ⟨toByte (a * 16 + b) :: bs, by simp [hexDecode, ha, hb, hbs], by simp [hn]⟩
    | [], hlen, _ => simp at hlen
    | [p], hlen, _ => simp at hlen; omega

theorem utf8ByteSize_ascii : ∀ (l : List Char), (∀ c ∈ l, c.utf8Size = 1) →
    (String.mk l).utf8ByteSize = l.length
  | [], _ => rfl
  | c :: cs, h => by
    have ih := utf8ByteSize_ascii cs (fun d hd => h d (by simp [hd]))
    simp only [String.utf8ByteSize, String.utf8ByteSize.go] at ih ⊢
    rw [ih, h c (by simp)]
    simp

theorem digitChar_mem : ∀ d, d < 10 →
    Nat.digitChar d ∈ decDigits ∧ (Nat.digitChar d).toNat - '0'.toNat = d := by
  decide

theorem decDigits_facts : ∀ c ∈ decDigits,
    ('0'.toNat ≤ c.toNat ∧ c.toNat ≤ '9'.toNat) ∧ c ≠ ':' ∧ c ≠ '+' ∧ c ≠ '-' ∧
      c.utf8Size = 1 ∧ c.toNat - '0'.toNat < 10 := by
  decide

theorem decVal_append (l m : List Char) (acc : Nat) :
    decVal (l ++ m) acc = decVal m (decVal l acc) := by
  simp [decVal, List.foldl_append]

theorem toDigitsCore_spec : ∀ (fuel n : Nat) (ds : List Char), n < fuel →
    ∃ l, Nat.toDigitsCore 10 fuel n ds = l ++ ds ∧ l ≠ [] ∧ (∀ c ∈ l, c ∈ decDigits) ∧
      (∀ acc, decVal l acc = acc * 10 ^ l.length + n) ∧
      (l.length = 1 ∨ 10 ^ (l.length - 1) ≤ n)
  | 0, n, ds, h => by omega
  | fuel + 1, n, ds, h => by
    obtain ⟨hm, hv⟩ := digitChar_mem (n % 10) (Nat.mod_lt _ (by decide))
    by_cases h0 : n / 10 = 0
    · refine ⟨[Nat.digitChar (n % 10)], ?_, by simp, ?_, ?_, Or.inl rfl⟩
      · simp [Nat.toDigitsCore, h0]
      · intro c hc
        simp only [List.mem_singleton] at hc
        subst hc
        exact hm
      · intro acc
        simp only [decVal, List.foldl_cons, List.foldl_nil, hv, List.length_singleton, pow_one]
        omega
    · obtain ⟨l, hl, hne, hmem, hval, hlen⟩ :=
        toDigitsCore_spec fuel (n / 10) (Nat.digitChar (n % 10) :: ds) (by omega)
      refine ⟨l ++ [Nat.digitChar (n % 10)], ?_, by simp, ?_, ?_, Or.inr ?_⟩
      · simp [Nat.toDigitsCore, h0, hl]
      · intro c hc
        rcases List.mem_append.mp hc with hc | hc
        · exact hmem c hc
        · simp only [List.mem_singleton] at hc
          subst hc
          exact hm
      · intro acc
        rw [decVal_append, hval]
        simp only [decVal, List.foldl_cons, List.foldl_nil, hv, List.length_append,
          List.length_singleton, pow_succ]
        have := Nat.div_add_mod n 10
        nlinarith [Nat.div_add_mod n 10]
      · simp only [List.length_append, List.length_singleton, Nat.add_sub_cancel]
        have hl0 : 0 < l.length := List.length_pos.mpr hne
        rcases hlen with h1 | h1
        · rw [h1]; omega
        · have : 10 ^ l.length = 10 ^ (l.length - 1) * 10 := by
            rw [← pow_succ]; congr 1; omega
          rw [this]
          omega

theorem decVal_ge (l : List Char) (acc : Nat) : acc ≤ decVal l acc := by
  induction l generalizing acc with
  | nil => simp [decVal]
  | cons c cs ih =>
    have := ih (acc * 10 + (c.toNat - '0'.toNat))
    simp only [decVal, List.foldl_cons] at this ⊢
    omega

theorem parseUintLoop_digits : ∀ (l : List Char) (acc : Nat), (∀ c ∈ l, c ∈ decDigits) →
    decVal l acc ≤ 2 ^ 64 - 1 → parseUintLoop l acc = .ok (decVal l acc)
  | [], acc, _, _ => rfl
  | c :: cs, acc, hl, hv => by
    obtain ⟨hr, -⟩ := decDigits_facts c (hl c (by simp))
    have hge := decVal_ge cs (acc * 10 + (c.toNat - '0'.toNat))
    have hv1 : decVal cs (acc * 10 + (c.toNat - '0'.toNat)) ≤ 2 ^ 64 - 1 := hv
    have ih := parseUintLoop_digits cs (acc * 10 + (c.toNat - '0'.toNat))
      (fun d hd => hl d (by simp [hd])) hv1
    have e : decVal (c :: cs) acc = decVal cs (acc * 10 + (c.toNat - '0'.toNat)) := rfl
    rw [e, ← ih]
    have c1 : ¬ acc ≥ (2 ^ 64 - 1) / 10 + 1 := by omega
    have c2 : ¬ acc * 10 + (c.toNat - '0'.toNat) > 2 ^ 64 - 1 := by omega
    simp only [parseUintLoop, hr, and_self, if_true, c1, c2, if_false]

/-- The digits of `n` as `fmt` prints them are read back by `ParseInt`. -/
theorem ParseInt_repr (n : Nat) (h : n < 2 ^ 63) : ParseInt (Nat.repr n) = .ok (n : Int) := by
  obtain ⟨l, hl, hne, hmem, hval, -⟩ := toDigitsCore_spec (n + 1) n [] (by omega)
  have hd : (Nat.repr n).data = l := by
    simp [Nat.repr, Nat.toDigits, hl, List.asString]
  cases l with
  | nil => exact absurd rfl hne
  | cons c cs =>
    obtain ⟨-, -, hplus, hminus, -⟩ := decDigits_facts c (hmem c (by simp))
    have hv := hval 0
    simp only [Nat.zero_mul, Nat.zero_add] at hv
    have hp := parseUintLoop_digits (c :: cs) 0 hmem (by rw [hv]; omega)
    rw [hv] at hp
    have c1 : n < 9223372036854775808 := by omega
    simp [ParseInt, hd, hplus, hminus, ParseUint, hp, c1]

theorem splitChars_no_sep (sep : Char) : ∀ (l : List Char), sep ∉ l → splitChars sep l = [l]
  | [], _ => rfl
  | c :: cs, h => by
    have hc : ¬ c = sep := fun e => h (by simp [e])
    have ih := splitChars_no_sep sep cs (fun m => h (by simp [m]))
    simp [splitChars, hc, ih]

theorem splitChars_one_sep (sep : Char) : ∀ (a b : List Char), sep ∉ a → sep ∉ b →
    splitChars sep (a ++ sep :: b) = [a, b]
  | [], b, _, hb => by simp [splitChars, splitChars_no_sep sep b hb]
  | c :: cs, b, ha, hb => by
    have hc : ¬ c = sep := fun e => ha (by simp [e])
    have ih := splitChars_one_sep sep cs b (fun m => ha (by simp [m])) hb
    simp [splitChars, hc, ih]

theorem repr_data_mem (n : Nat) : ∀ c ∈ (Nat.repr n).data, c ∈ decDigits := by
  obtain ⟨l, hl, -, hmem, -, -⟩ := toDigitsCore_spec (n + 1) n [] (by omega)
  have hd : (Nat.repr n).data = l := by
    simp [Nat.repr, Nat.toDigits, hl, List.asString]
  rw [hd]
  exact hmem

theorem toUint32_ofNat (n : Nat) (h : n < 2 ^ 32) : toUint32 (n : Int) = n := by
  unfold toUint32
  omega

/-- A channel point printed from a colon-free txid and a uint32 index is decoded
to that txid and index. -/
theorem decodeChannelPoint_Sprintf (txid : String) (index : Nat) (ht : ':' ∉ txid.data)
    (hi : index < 2 ^ 32) : decodeChannelPoint (Sprintf txid index) = .ok (txid, index) := by
  have hnc : ':' ∉ (Nat.repr index).data := fun hm =>
    (decDigits_facts _ (repr_data_mem index _ hm)).2.1 rfl
  have hs : Split (Sprintf txid index) = [txid, Nat.repr index] := by
    have hd : (Sprintf txid index).data = txid.data ++ ':' :: (Nat.repr index).data := by
      simp [Sprintf, String.data_append]
    simp [Split, hd, splitChars_one_sep ':' _ _ ht hnc]
  simp [decodeChannelPoint, hs, ParseInt_repr index (by omega), toUint32_ofNat index hi]

/-! ## Lemmas on the bbolt transaction -/

theorem RealToPseudo_eq (sid : SessionID) (tx : BoltTx) (k : String) :
    (privacyMapTx sid).RealToPseudo tx k = lookupRes tx.privacy.isSome (r2pView sid tx k) := by
  simp only [privacyMapTx, privacyMapTx.RealToPseudo, getBucket, r2pView, lookupRes, Bucket.Get]
  cases hp : tx.privacy with
  | none => simp
  | some priv =>
    simp only [Option.isSome_some]
    cases hs : priv sid with
    | none => simp [Bucket.empty]
    | some sb =>
      obtain ⟨r, q⟩ := sb
      cases r with
      | none => simp [Bucket.empty]
      | some b => simp

theorem PseudoToReal_eq (sid : SessionID) (tx : BoltTx) (k : String) :
    (privacyMapTx sid).PseudoToReal tx k = lookupRes tx.privacy.isSome (p2rView sid tx k) := by
  simp only [privacyMapTx, privacyMapTx.PseudoToReal, getBucket, p2rView, lookupRes, Bucket.Get]
  cases hp : tx.privacy with
  | none => simp
  | some priv =>
    simp only [Option.isSome_some]
    cases hs : priv sid with
    | none => simp [Bucket.empty]
    | some sb =>
      obtain ⟨r, q⟩ := sb
      cases q with
      | none => simp [Bucket.empty]
      | some b => simp

theorem lookupRes_ok {e : Bool} {v : Option String} {w : String}
    (h : lookupRes e v = .ok w) : e = true ∧ v = some w ∧ w.utf8ByteSize ≠ 0 := by
  unfold lookupRes at h
  cases e with
  | false => simp at h
  | true =>
    cases v with
    | none => simp at h
    | some u =>
      by_cases hu : u.utf8ByteSize = 0
      · simp [hu] at h
      · simp [hu] at h
        subst h
        exact ⟨rfl, rfl, hu⟩

theorem lookupRes_some {w : String} (h : w.utf8ByteSize ≠ 0) :
    lookupRes true (some w) = .ok w := by
  simp [lookupRes, h]

theorem Put_ok {b b1 : Bucket} {key value : String} (h : b.Put key value = .ok b1) :
    key.utf8ByteSize ≠ 0 ∧ key.utf8ByteSize ≤ MaxKeySize ∧
      b1 = fun k => if k = key then some value else b k := by
  unfold Bucket.Put at h
  split_ifs at h with h1 h2 h3
  simp only [Except.ok.injEq] at h
  exact ⟨h1, by omega, h.symm⟩

/-- A successful `NewPair`: the transaction was writable with its top-level
bucket present, both keys are non-empty, and afterwards each of the two buckets
holds the new entry on top of what it held. -/
theorem NewPair_ok {sid : SessionID} {tx tx1 : BoltTx} {real pseudo : String}
    (h : (privacyMapTx sid).NewPair tx real pseudo = (tx1, none)) :
    real.utf8ByteSize ≠ 0 ∧ pseudo.utf8ByteSize ≠ 0 ∧ tx1.privacy.isSome = true ∧
      tx1.writable = tx.writable ∧
      r2pView sid tx1 = (fun k => if k = real then some pseudo else r2pView sid tx k) ∧
      p2rView sid tx1 = (fun k => if k = pseudo then some real else p2rView sid tx k) := by
  simp only [privacyMapTx, privacyMapTx.NewPair, getBucket] at h
  cases hp : tx.privacy with
  | none => simp [hp] at h
  | some priv =>
    simp only [hp] at h
    cases hw : tx.writable with
    | false => simp [hw] at h
    | true =>
      simp only [hw, Bool.true_eq_false, if_false] at h
      generalize hA : ((priv sid).getD ⟨none, none⟩).realToPseudo.getD Bucket.empty = A at h
      generalize hB : ((priv sid).getD ⟨none, none⟩).pseudoToReal.getD Bucket.empty = B at h
      have hAv : r2pView sid tx = A := by
        rw [← hA]; unfold r2pView; rw [hp]
        cases hs : priv sid <;> simp [hs]
      have hBv : p2rView sid tx = B := by
        rw [← hB]; unfold p2rView; rw [hp]
        cases hs : priv sid <;> simp [hs]
      cases h1 : Bucket.Put A real pseudo with
      | error e => simp [h1] at h
      | ok A1 =>
        simp only [h1] at h
        cases h2 : Bucket.Put B pseudo real with
        | error e => simp [h2] at h
        | ok B1 =>
          simp only [h2, Prod.mk.injEq, and_true] at h
          obtain ⟨k1, _, e1⟩ := Put_ok h1
          obtain ⟨k2, _, e2⟩ := Put_ok h2
          subst h
          refine ⟨k1, k2, rfl, rfl, ?_, ?_⟩
          · rw [hAv, ← e1]; simp [r2pView, setSession]
          · rw [hBv, ← e2]; simp [p2rView, setSession]

/-! ## How a successful Hide call came about -/

/-- A successful `HideString` is either a hit, which returns the stored
pseudonym and writes nothing, or a miss, which stores the pseudonym it drew. -/
theorem HideString_ok {σ : Type} {tx : PrivacyMapTx σ} {s s1 : σ} {rnd : Rand}
    {real p : String} (h : HideString tx s rnd real = (.ok p, s1)) :
    (tx.RealToPseudo s real = .ok p ∧ s1 = s) ∨
      (tx.RealToPseudo s real = .err .ErrNoSuchKeyFound ∧
        NewPseudoStr rnd real.utf8ByteSize = .ok p ∧ tx.NewPair s real p = (s1, none)) := by
  unfold HideString at h
  cases hr : tx.RealToPseudo s real with
  | panic => simp [hr] at h
  | ok q =>
    simp only [hr, Prod.mk.injEq, Res.ok.injEq] at h
    exact Or.inl ⟨by rw [h.1], h.2.symm⟩
  | err e =>
    simp only [hr] at h
    by_cases he : e = .ErrNoSuchKeyFound
    · subst he
      simp only [ne_eq, not_true_eq_false, if_false] at h
      cases hn : NewPseudoStr rnd real.utf8ByteSize with
      | panic => simp [hn] at h
      | err e => simp [hn] at h
      | ok q =>
        simp only [hn] at h
        rcases hq : tx.NewPair s real q with ⟨s2, _ | e⟩
        · simp only [hq, Prod.mk.injEq, Res.ok.injEq] at h
          obtain ⟨rfl, rfl⟩ := h
          exact Or.inr ⟨rfl, rfl, hq⟩
        · simp [hq] at h
    · simp [he] at h

theorem utf8ByteSize_ne_zero {p : String} (h : p.utf8ByteSize ≠ 0) : p ≠ "" := by
  rintro rfl
  exact h rfl

/-! ## Lemmas on the generators -/

theorem alphabet_facts : ∀ c ∈ pseudoStrAlphabet,
    c ∈ hextable ∧ c.utf8Size = 1 ∧ c ≠ ':' ∧ (fromHexChar c).isSome = true := by
  decide

theorem hextable_facts : ∀ c ∈ hextable,
    c.utf8Size = 1 ∧ c ≠ ':' ∧ (fromHexChar c).isSome = true := by
  decide

theorem alphabet_getD_mem : ∀ n, n < 16 → pseudoStrAlphabet.getD n 'a' ∈ pseudoStrAlphabet := by
  decide

theorem fill_ok (rnd : Rand) : ∀ (n i : Nat) (l : List Char),
    NewPseudoStr.fill rnd i n = .ok l → l.length = n ∧ ∀ c ∈ l, c ∈ pseudoStrAlphabet
  | 0, i, l, h => by
    simp only [NewPseudoStr.fill, Res.ok.injEq] at h
    subst h
    simp
  | n + 1, i, l, h => by
    simp only [NewPseudoStr.fill] at h
    cases hd : rnd.Int i with
    | none => simp [hd] at h
    | some index =>
      simp only [hd] at h
      cases hf : NewPseudoStr.fill rnd (i + 1) n with
      | panic => simp [hf] at h
      | err e => simp [hf] at h
      | ok b =>
        simp only [hf, Res.ok.injEq] at h
        subst h
        obtain ⟨hlen, hmem⟩ := fill_ok rnd n (i + 1) b hf
        refine ⟨by simp [hlen], ?_⟩
        intro c hc
        rcases List.mem_cons.mp hc with rfl | hc
        · exact alphabet_getD_mem _ index.isLt
        · exact hmem c hc

/-- While the draws succeed the loop of `NewPseudoStr` returns a buffer. -/
theorem fill_total (rnd : Rand) : ∀ (n i : Nat),
    (∀ j, j < n → (rnd.Int (i + j)).isSome = true) → ∃ l, NewPseudoStr.fill rnd i n = .ok l
  | 0, i, _ => ⟨[], rfl⟩
  | n + 1, i, h => by
    obtain ⟨index, hd⟩ := Option.isSome_iff_exists.mp (h 0 (by omega))
    obtain ⟨l, hl⟩ := fill_total rnd n (i + 1) (fun j hj => by
      have := h (j + 1) (by omega)
      rwa [show i + (j + 1) = i + 1 + j by omega] at this)
    rw [Nat.add_zero] at hd
    exact ⟨pseudoStrAlphabet.getD index.val 'a' :: l, by simp only [NewPseudoStr.fill, hd, hl]⟩

theorem fill_fail (rnd : Rand) : ∀ (n i : Nat),
    (∃ j, j < n ∧ rnd.Int (i + j) = none) → NewPseudoStr.fill rnd i n = .err .ErrRandRead
  | 0, i, h => by
    obtain ⟨j, hj, -⟩ := h
    omega
  | n + 1, i, h => by
    obtain ⟨j, hj, hn⟩ := h
    cases hd : rnd.Int i with
    | none => simp only [NewPseudoStr.fill, hd]
    | some index =>
      have hj0 : j ≠ 0 := by
        intro e
        rw [e, Nat.add_zero, hd] at hn
        cases hn
      have ih := fill_fail rnd n (i + 1) ⟨j - 1, by omega, by
        rw [show i + 1 + (j - 1) = i + j by omega]
        exact hn⟩
      simp only [NewPseudoStr.fill, hd, ih]

/-- A string returned by `NewPseudoStr(n)` has `n` characters, all of the
alphabet, and takes `n` bytes. -/
theorem NewPseudoStr_ok {rnd : Rand} {n : Nat} {p : String} (h : NewPseudoStr rnd n = .ok p) :
    p.length = n ∧ (∀ c ∈ p.data, c ∈ pseudoStrAlphabet) ∧ p.utf8ByteSize = n := by
  unfold NewPseudoStr at h
  cases hf : NewPseudoStr.fill rnd 0 n with
  | panic => simp [hf] at h
  | err e => simp [hf] at h
  | ok b =>
    simp only [hf, Res.ok.injEq] at h
    subst h
    obtain ⟨hlen, hmem⟩ := fill_ok rnd n 0 b hf
    refine ⟨hlen, hmem, ?_⟩
    rw [utf8ByteSize_ascii b (fun c hc => (alphabet_facts c (hmem c hc)).2.1), hlen]

theorem EncodeToString_size (bs : List Byte) :
    (EncodeToString bs).utf8ByteSize = 2 * bs.length := by
  unfold EncodeToString
  rw [utf8ByteSize_ascii _ (fun c hc => (hextable_facts c (hexEncode_mem bs c hc)).1),
    hexEncode_length]

theorem StrToUint64_EncodeToString (bs : List Byte) :
    StrToUint64 (EncodeToString bs) = Uint64 bs := by
  simp [StrToUint64, DecodeString, EncodeToString, hexDecode_hexEncode]

theorem PutUint64_be64 (b0 b1 b2 b3 b4 b5 b6 b7 : Byte) :
    PutUint64 (be64 b0 b1 b2 b3 b4 b5 b6 b7) = [b0, b1, b2, b3, b4, b5, b6, b7] := by
  have h0 := b0.isLt
  have h1 := b1.isLt
  have h2 := b2.isLt
  have h3 := b3.isLt
  have h4 := b4.isLt
  have h5 := b5.isLt
  have h6 := b6.isLt
  have h7 := b7.isLt
  simp only [PutUint64, be64, toByte, List.cons.injEq, and_true]
  refine ⟨?_, ?_, ?_, ?_, ?_, ?_, ?_, ?_⟩ <;> apply Fin.ext <;> simp only [] <;> omega

theorem Uint64_PutUint64 (x : Nat) (h : x < 2 ^ 64) : Uint64 (PutUint64 x) = .ok x := by
  simp only [PutUint64, Uint64, be64, toByte, Res.ok.injEq]
  omega

theorem StrToUint64_Uint64ToStr (x : Nat) (h : x < 2 ^ 64) :
    StrToUint64 (Uint64ToStr x) = .ok x := by
  rw [Uint64ToStr, StrToUint64_EncodeToString, Uint64_PutUint64 x h]

theorem NewPseudoUint64_str (rnd : Rand) :
    Uint64ToStr (NewPseudoUint64 rnd).1 = (NewPseudoUint64 rnd).2 := by
  simp only [NewPseudoUint64, Uint64ToStr, PutUint64_be64]

theorem HideUint64_ok {σ : Type} {tx : PrivacyMapTx σ} {s s1 : σ} {rnd : Rand}
    {real p : Nat} (h : HideUint64 tx s rnd real = (.ok p, s1)) :
    (∃ q, tx.RealToPseudo s (Uint64ToStr real) = .ok q ∧ StrToUint64 q = .ok p ∧ s1 = s) ∨
      (tx.RealToPseudo s (Uint64ToStr real) = .err .ErrNoSuchKeyFound ∧
        p = (NewPseudoUint64 rnd).1 ∧
        tx.NewPair s (Uint64ToStr real) (NewPseudoUint64 rnd).2 = (s1, none)) := by
  unfold HideUint64 at h
  simp only [] at h
  cases hr : tx.RealToPseudo s (Uint64ToStr real) with
  | panic => simp [hr] at h
  | ok q =>
    simp only [hr, Prod.mk.injEq] at h
    exact Or.inl ⟨q, rfl, h.1, h.2.symm⟩
  | err e =>
    simp only [hr] at h
    by_cases he : e = .ErrNoSuchKeyFound
    · subst he
      simp only [ne_eq, not_true_eq_false, if_false] at h
      rcases hq : tx.NewPair s (Uint64ToStr real) (NewPseudoUint64 rnd).2 with ⟨s2, _ | e⟩
      · simp only [hq, Prod.mk.injEq, Res.ok.injEq] at h
        obtain ⟨rfl, rfl⟩ := h
        exact Or.inr ⟨rfl, rfl, rfl⟩
      · simp [hq] at h
    · simp [he] at h

theorem Put_total (b : Bucket) (key value : String) (h0 : key.utf8ByteSize ≠ 0)
    (h1 : key.utf8ByteSize ≤ MaxKeySize) (h2 : value.utf8ByteSize ≤ MaxKeySize) :
    b.Put key value = .ok (fun k => if k = key then some value else b k) := by
  have h3 : ¬ value.utf8ByteSize > MaxValueSize := by
    simp only [MaxKeySize] at h2
    simp only [MaxValueSize]
    omega
  have h4 : ¬ key.utf8ByteSize > MaxKeySize := by omega
  simp only [Bucket.Put, h0, h3, h4, if_false]

/-- In a writable transaction whose top-level bucket exists, `NewPair` succeeds
for two non-empty strings of at most `MaxKeySize` bytes. -/
theorem NewPair_total (sid : SessionID) (tx : BoltTx) (real pseudo : String)
    (hw : tx.writable = true) (hp : tx.privacy.isSome = true)
    (hr0 : real.utf8ByteSize ≠ 0) (hr1 : real.utf8ByteSize ≤ MaxKeySize)
    (hq0 : pseudo.utf8ByteSize ≠ 0) (hq1 : pseudo.utf8ByteSize ≤ MaxKeySize) :
    ∃ tx1, (privacyMapTx sid).NewPair tx real pseudo = (tx1, none) := by
  obtain ⟨priv, hpriv⟩ := Option.isSome_iff_exists.mp hp
  simp only [privacyMapTx, privacyMapTx.NewPair, getBucket, hpriv, hw, Bool.true_eq_false,
    if_false, Put_total _ real pseudo hr0 hr1 hq1, Put_total _ pseudo real hq0 hq1 hr1]
  exact ⟨_, rfl⟩

theorem hexDecode_value : ∀ (l : List Char) (bs : List Byte), hexDecode l = .ok bs →
    ∀ acc, bytesValue bs acc = hexValue l acc
  | [], bs, h, acc => by
    simp only [hexDecode, Res.ok.injEq] at h
    subst h; rfl
  | [p], bs, h, acc => by
    simp only [hexDecode] at h
    cases hp : fromHexChar p <;> simp [hp] at h
  | p :: q :: rest, bs, h, acc => by
    simp only [hexDecode] at h
    cases hp : fromHexChar p with
    | none => simp [hp] at h
    | some a =>
      cases hq : fromHexChar q with
      | none => simp [hp, hq] at h
      | some b =>
        simp only [hp, hq] at h
        cases hr : hexDecode rest with
        | panic => simp [hr] at h
        | err e => simp [hr] at h
        | ok cs =>
          simp only [hr, Res.ok.injEq] at h
          subst h
          have ih := hexDecode_value rest cs hr (acc * 256 + (a * 16 + b))
          have ha := fromHexChar_lt hp
          have hb := fromHexChar_lt hq
          have hv : (toByte (a * 16 + b)).val = a * 16 + b := by
            simp only [toByte]; omega
          simp only [bytesValue, hexValue, List.foldl_cons, hv, hp, hq, Option.getD_some] at ih ⊢
          rw [ih]
          congr 1
          ring

theorem Uint64_eight (bs : List Byte) (h : bs.length = 8) :
    Uint64 bs = .ok (bytesValue bs 0) := by
  rcases bs with _ | ⟨b0, _ | ⟨b1, _ | ⟨b2, _ | ⟨b3, _ | ⟨b4, _ | ⟨b5, _ | ⟨b6, _ | ⟨b7, _ | ⟨b8, t⟩⟩⟩⟩⟩⟩⟩⟩⟩ <;>
    simp at h
  simp only [Uint64, be64, bytesValue, List.foldl_cons, List.foldl_nil, Res.ok.injEq]
  ring

/-- A string of sixteen hex digits, in either case, is read by `StrToUint64` as
the number it spells. -/
theorem StrToUint64_hex16 (str : String) (hlen : str.length = 16)
    (hhex : ∀ c ∈ str.data, (fromHexChar c).isSome = true) :
    StrToUint64 str = .ok (hexValue str.data 0) := by
  obtain ⟨bs, hbs, hn⟩ := hexDecode_ok 8 str.data hlen hhex
  simp only [StrToUint64, DecodeString, hbs, Uint64_eight bs hn, hexDecode_value _ _ hbs]

theorem HideChanPoint_ok {σ : Type} {tx : PrivacyMapTx σ} {s s1 : σ} {rnd : Rand}
    {txid : String} {index : Nat} {r : String × Nat}
    (h : HideChanPoint tx s rnd txid index = (.ok r, s1)) :
    (∃ q, tx.RealToPseudo s (Sprintf txid index) = .ok q ∧ decodeChannelPoint q = .ok r ∧
        s1 = s) ∨
      (∃ newCp, tx.RealToPseudo s (Sprintf txid index) = .err .ErrNoSuchKeyFound ∧
        NewPseudoChanPoint rnd = .ok newCp ∧
        tx.NewPair s (Sprintf txid index) newCp = (s1, none) ∧
        decodeChannelPoint newCp = .ok r) := by
  unfold HideChanPoint at h
  simp only [] at h
  cases hr : tx.RealToPseudo s (Sprintf txid index) with
  | panic => simp [hr] at h
  | ok q =>
    simp only [hr, Prod.mk.injEq] at h
    exact Or.inl ⟨q, rfl, h.1, h.2.symm⟩
  | err e =>
    simp only [hr] at h
    by_cases he : e = .ErrNoSuchKeyFound
    · subst he
      simp only [ne_eq, not_true_eq_false, if_false] at h
      cases hn : NewPseudoChanPoint rnd with
      | panic => simp [hn] at h
      | err e => simp [hn] at h
      | ok newCp =>
        simp only [hn] at h
        rcases hq : tx.NewPair s (Sprintf txid index) newCp with ⟨s2, _ | e⟩
        · simp only [hq, Prod.mk.injEq] at h
          obtain ⟨h1, rfl⟩ := h
          exact Or.inr ⟨newCp, rfl, rfl, hq, h1⟩
        · simp [hq] at h
    · simp [he] at h

theorem NewPseudoUint32_lt (rnd : Rand) : NewPseudoUint32 rnd < 2 ^ 32 := by
  have h0 := (rnd.Read 0).isLt
  have h1 := (rnd.Read 1).isLt
  have h2 := (rnd.Read 2).isLt
  have h3 := (rnd.Read 3).isLt
  simp only [NewPseudoUint32, be32]
  omega

/-- A pseudo channel point is printed from 64 characters of the alphabet and
a uint32, and is decoded to them. -/
theorem NewPseudoChanPoint_ok {rnd : Rand} {newCp : String}
    (h : NewPseudoChanPoint rnd = .ok newCp) :
    ∃ pseudoTXID, NewPseudoStr rnd txidStringLen = .ok pseudoTXID ∧
      newCp = Sprintf pseudoTXID (NewPseudoUint32 rnd) ∧
      decodeChannelPoint newCp = .ok (pseudoTXID, NewPseudoUint32 rnd) := by
  unfold NewPseudoChanPoint at h
  cases hn : NewPseudoStr rnd txidStringLen with
  | panic => simp [hn] at h
  | err e => simp [hn] at h
  | ok p =>
    simp only [hn, Res.ok.injEq] at h
    subst h
    obtain ⟨_, hmem, _⟩ := NewPseudoStr_ok hn
    have hc : ':' ∉ p.data := fun hm => (alphabet_facts _ (hmem _ hm)).2.2.1 rfl
    exact ⟨p, rfl, rfl, decodeChannelPoint_Sprintf p _ hc (NewPseudoUint32_lt rnd)⟩

theorem HideBytes_ok {σ : Type} {tx : PrivacyMapTx σ} {s s1 : σ} {rnd : Rand}
    {realBytes q : Slice} (h : HideBytes tx s rnd realBytes = (.ok q, s1)) :
    ∃ pseudo b, HideString tx s rnd (EncodeToString realBytes.content) = (.ok pseudo, s1) ∧
      DecodeString pseudo = .ok b ∧ q = some b := by
  unfold HideBytes at h
  simp only [] at h
  rcases hh : HideString tx s rnd (EncodeToString realBytes.content) with ⟨_ | _ | _, s2⟩
  · rename_i pseudo
    simp only [hh] at h
    cases hd : DecodeString pseudo with
    | panic => simp [hd] at h
    | err e => simp [hd] at h
    | ok b =>
      simp only [hd, Prod.mk.injEq, Res.ok.injEq] at h
      obtain ⟨rfl, rfl⟩ := h
      exact ⟨pseudo, b, rfl, hd, rfl⟩
  · simp [hh] at h
  · simp [hh] at h

theorem DecodeString_EncodeToString (bs : List Byte) :
    DecodeString (EncodeToString bs) = .ok bs := by
  simp [DecodeString, EncodeToString, hexDecode_hexEncode]

/-! ## The Hide functions follow one pattern -/

theorem Uint64_be64 (b0 b1 b2 b3 b4 b5 b6 b7 : Byte) :
    Uint64 [b0, b1, b2, b3, b4, b5, b6, b7] = .ok (be64 b0 b1 b2 b3 b4 b5 b6 b7) := rfl

theorem StrToUint64_NewPseudoUint64 (rnd : Rand) :
    StrToUint64 (NewPseudoUint64 rnd).2 = .ok (NewPseudoUint64 rnd).1 := by
  simp only [NewPseudoUint64, StrToUint64_EncodeToString, Uint64_be64]

theorem HideString_eq {σ : Type} (tx : PrivacyMapTx σ) (s : σ) (rnd : Rand) (real : String) :
    HideString tx s rnd real
      = hideGeneric tx s real (NewPseudoStr rnd real.utf8ByteSize) .ok := rfl

theorem HideUint64_eq {σ : Type} (tx : PrivacyMapTx σ) (s : σ) (rnd : Rand) (real : Nat) :
    HideUint64 tx s rnd real
      = hideGeneric tx s (Uint64ToStr real) (.ok (NewPseudoUint64 rnd).2) StrToUint64 := by
  unfold HideUint64 hideGeneric
  dsimp only
  cases tx.RealToPseudo s (Uint64ToStr real) with
  | panic => rfl
  | ok p => rfl
  | err e =>
    by_cases he : e = .ErrNoSuchKeyFound
    · subst he
      simp only [ne_eq, not_true_eq_false, if_false]
      generalize tx.NewPair s (Uint64ToStr real) (NewPseudoUint64 rnd).2 = r
      rcases r with ⟨s1, _ | e⟩
      · simp only [StrToUint64_NewPseudoUint64]
      · rfl
    · simp only [ne_eq, he, not_false_eq_true, if_true]

theorem HideChanPoint_eq {σ : Type} (tx : PrivacyMapTx σ) (s : σ) (rnd : Rand) (txid : String)
    (index : Nat) :
    HideChanPoint tx s rnd txid index
      = hideGeneric tx s (Sprintf txid index) (NewPseudoChanPoint rnd) decodeChannelPoint := rfl

/-- Mapping the result of the pattern is the pattern with the mapped decoder. -/
theorem hideGeneric_map {σ α β : Type} (tx : PrivacyMapTx σ) (s : σ) (k : String)
    (drawn : Res String) (dec : String → Res α) (f : α → β) :
    ((hideGeneric tx s k drawn dec).1.map f, (hideGeneric tx s k drawn dec).2)
      = hideGeneric tx s k drawn (fun p => (dec p).map f) := by
  unfold hideGeneric
  cases tx.RealToPseudo s k with
  | panic => rfl
  | ok p => rfl
  | err e =>
    by_cases he : e = .ErrNoSuchKeyFound
    · subst he
      simp only [ne_eq, not_true_eq_false, if_false]
      cases drawn with
      | panic => rfl
      | err e => rfl
      | ok q =>
        dsimp only
        generalize tx.NewPair s k q = r
        rcases r with ⟨s1, _ | e⟩ <;> rfl
    · simp only [ne_eq, he, not_false_eq_true, if_true, Res.map]

theorem Res.map_map {α β γ : Type} (r : Res α) (g : α → β) (f : β → γ) :
    (r.map g).map f = r.map (fun a => f (g a)) := by
  cases r <;> rfl

theorem HideChanPointStr_eq {σ : Type} (tx : PrivacyMapTx σ) (s : σ) (rnd : Rand)
    (cp txid : String) (index : Nat) (hd : decodeChannelPoint cp = .ok (txid, index)) :
    HideChanPointStr tx s rnd cp
      = ((HideChanPoint tx s rnd txid index).1.map (fun r => Sprintf r.1 r.2),
          (HideChanPoint tx s rnd txid index).2) := by
  simp only [HideChanPointStr, hd]
  generalize HideChanPoint tx s rnd txid index = r
  rcases r with ⟨_ | _ | _, s1⟩ <;> rfl

theorem HideBytes_eq {σ : Type} (tx : PrivacyMapTx σ) (s : σ) (rnd : Rand) (realBytes : Slice) :
    HideBytes tx s rnd realBytes
      = ((hideGeneric tx s (EncodeToString realBytes.content)
            (NewPseudoStr rnd (EncodeToString realBytes.content).utf8ByteSize)
            DecodeString).1.map some,
          (hideGeneric tx s (EncodeToString realBytes.content)
            (NewPseudoStr rnd (EncodeToString realBytes.content).utf8ByteSize)
            DecodeString).2) := by
  simp only [HideBytes, HideString_eq]
  unfold hideGeneric
  cases tx.RealToPseudo s (EncodeToString realBytes.content) with
  | panic => rfl
  | ok p => dsimp only; cases DecodeString p <;> rfl
  | err e =>
    by_cases he : e = .ErrNoSuchKeyFound
    · subst he
      simp only [ne_eq, not_true_eq_false, if_false]
      cases NewPseudoStr rnd (EncodeToString realBytes.content).utf8ByteSize with
      | panic => rfl
      | err e => rfl
      | ok q =>
        dsimp only
        generalize tx.NewPair s (EncodeToString realBytes.content) q = r
        rcases r with ⟨s1, _ | e⟩
        · dsimp only; cases DecodeString q <;> rfl
        · rfl
    · simp only [ne_eq, he, not_false_eq_true, if_true, Res.map]

/-- Every Hide call with a key is an instance of the pattern. -/
theorem runHide_eq {σ : Type} (tx : PrivacyMapTx σ) (s : σ) (rnd : Rand) (c : HideCall)
    (k : String) (hk : c.key = some k) :
    runHide tx s rnd c = hideGeneric tx s k (c.drawn rnd) (fun p => c.decode p) := by
  cases c with
  | string real =>
    simp only [HideCall.key, Option.some.injEq] at hk
    subst hk
    exact hideGeneric_map tx s real _ .ok HideVal.string
  | uint64 real =>
    simp only [HideCall.key, Option.some.injEq] at hk
    subst hk
    simp only [runHide, HideUint64_eq]
    exact hideGeneric_map tx s _ _ StrToUint64 HideVal.uint64
  | chanPoint txid index =>
    simp only [HideCall.key, Option.some.injEq] at hk
    subst hk
    exact hideGeneric_map tx s _ _ decodeChannelPoint (fun r => HideVal.chanPoint r.1 r.2)
  | chanPointStr cp =>
    simp only [HideCall.key] at hk
    cases hd : decodeChannelPoint cp with
    | panic => simp [hd] at hk
    | err e => simp [hd] at hk
    | ok r =>
      obtain ⟨txid, index⟩ := r
      simp only [hd, Option.some.injEq] at hk
      subst hk
      simp only [runHide, HideChanPointStr_eq tx s rnd cp txid index hd, Res.map_map]
      exact hideGeneric_map tx s _ _ decodeChannelPoint
        (fun r => HideVal.chanPointStr (Sprintf r.1 r.2))
  | bytes realBytes =>
    simp only [HideCall.key, Option.some.injEq] at hk
    subst hk
    simp only [runHide, HideBytes_eq, Res.map_map]
    exact hideGeneric_map tx s _ _ DecodeString (fun b => HideVal.bytes (some b))

/-- A Hide call without a key (a channel point string that does not decode)
fails and leaves the state as it was. -/
theorem runHide_no_key {σ : Type} (tx : PrivacyMapTx σ) (s : σ) (rnd : Rand) (c : HideCall)
    (hk : c.key = none) :
    (runHide tx s rnd c).2 = s ∧ ∀ v, (runHide tx s rnd c).1 ≠ .ok v := by
  cases c with
  | string real => simp [HideCall.key] at hk
  | uint64 real => simp [HideCall.key] at hk
  | chanPoint txid index => simp [HideCall.key] at hk
  | bytes realBytes => simp [HideCall.key] at hk
  | chanPointStr cp =>
    simp only [HideCall.key] at hk
    cases hd : decodeChannelPoint cp with
    | panic => simp [runHide, HideChanPointStr, hd, Res.map]
    | err e => simp [runHide, HideChanPointStr, hd, Res.map]
    | ok r => simp [hd] at hk

theorem hideGeneric_hit {σ α : Type} (tx : PrivacyMapTx σ) (s : σ) (k : String)
    (drawn : Res String) (dec : String → Res α) (p : String)
    (h : tx.RealToPseudo s k = .ok p) : hideGeneric tx s k drawn dec = (dec p, s) := by
  simp only [hideGeneric, h]

theorem hideGeneric_ok {σ α : Type} {tx : PrivacyMapTx σ} {s s1 : σ} {k : String}
    {drawn : Res String} {dec : String → Res α} {v : α}
    (h : hideGeneric tx s k drawn dec = (.ok v, s1)) :
    (∃ p, tx.RealToPseudo s k = .ok p ∧ dec p = .ok v ∧ s1 = s) ∨
      (∃ q, tx.RealToPseudo s k = .err .ErrNoSuchKeyFound ∧ drawn = .ok q ∧
        tx.NewPair s k q = (s1, none) ∧ dec q = .ok v) := by
  unfold hideGeneric at h
  cases hr : tx.RealToPseudo s k with
  | panic => simp [hr] at h
  | ok p =>
    simp only [hr, Prod.mk.injEq] at h
    exact Or.inl ⟨p, rfl, h.1, h.2.symm⟩
  | err e =>
    simp only [hr] at h
    by_cases he : e = .ErrNoSuchKeyFound
    · subst he
      simp only [ne_eq, not_true_eq_false, if_false] at h
      cases hd : drawn with
      | panic => simp [hd] at h
      | err e => simp [hd] at h
      | ok q =>
        simp only [hd] at h
        rcases hq : tx.NewPair s k q with ⟨s2, _ | e⟩
        · simp only [hq, Prod.mk.injEq] at h
          obtain ⟨h1, rfl⟩ := h
          exact Or.inr ⟨q, rfl, rfl, hq, h1⟩
        · simp [hq] at h
    · simp [he] at h

theorem hideGeneric_state {σ α : Type} (tx : PrivacyMapTx σ) (s : σ) (k : String)
    (drawn : Res String) (dec : String → Res α) :
    (hideGeneric tx s k drawn dec).2 = s ∨
      ∃ q, tx.RealToPseudo s k = .err .ErrNoSuchKeyFound ∧ drawn = .ok q ∧
        (hideGeneric tx s k drawn dec).2 = (tx.NewPair s k q).1 := by
  cases hr : tx.RealToPseudo s k with
  | panic => exact Or.inl (by simp only [hideGeneric, hr])
  | ok p => exact Or.inl (by simp only [hideGeneric, hr])
  | err e =>
    by_cases he : e = .ErrNoSuchKeyFound
    · subst he
      cases hd : drawn with
      | panic => exact Or.inl (by simp [hideGeneric, hr])
      | err e => exact Or.inl (by simp [hideGeneric, hr])
      | ok q =>
        refine Or.inr ⟨q, rfl, rfl, ?_⟩
        simp only [hideGeneric, hr, ne_eq, not_true_eq_false, if_false]
        generalize tx.NewPair s k q = r
        rcases r with ⟨s1, _ | e⟩ <;> rfl
    · exact Or.inl (by simp [hideGeneric, hr, he])

/-! ## What a call changes in the bbolt store -/

/-- The lookups of session `sid` answer the same in `s1` as in `s`. -/
theorem lookups_eq_of_views {sid : SessionID} {s s1 : BoltTx}
    (h1 : r2pView sid s1 = r2pView sid s) (h2 : p2rView sid s1 = p2rView sid s)
    (h3 : s1.privacy.isSome = s.privacy.isSome) (k : String) :
    (privacyMapTx sid).RealToPseudo s1 k = (privacyMapTx sid).RealToPseudo s k ∧
      (privacyMapTx sid).PseudoToReal s1 k = (privacyMapTx sid).PseudoToReal s k := by
  simp only [RealToPseudo_eq, PseudoToReal_eq, h1, h2, h3, and_self]

/-- A failing `NewPair` leaves the lookups as they were, unless its second
`Put` fails after the first; that needs a pseudonym that is blank or longer
than `MaxKeySize`. -/
theorem NewPair_err {sid : SessionID} {tx tx1 : BoltTx} {real pseudo : String} {e : GoError}
    (h : (privacyMapTx sid).NewPair tx real pseudo = (tx1, some e))
    (hq : real.utf8ByteSize ≠ 0 → real.utf8ByteSize ≤ MaxKeySize →
      pseudo.utf8ByteSize ≠ 0 ∧ pseudo.utf8ByteSize ≤ MaxKeySize) :
    r2pView sid tx1 = r2pView sid tx ∧ p2rView sid tx1 = p2rView sid tx ∧
      tx1.privacy.isSome = tx.privacy.isSome := by
  simp only [privacyMapTx, privacyMapTx.NewPair, getBucket] at h
  cases hp : tx.privacy with
  | none =>
    simp only [hp, Prod.mk.injEq] at h
    rw [← h.1]
    exact ⟨rfl, rfl, hp.symm ▸ rfl⟩
  | some priv =>
    simp only [hp] at h
    cases hw : tx.writable with
    | false =>
      simp only [hw, if_true, Prod.mk.injEq] at h
      rw [← h.1]
      exact ⟨rfl, rfl, hp.symm ▸ rfl⟩
    | true =>
      simp only [hw, Bool.true_eq_false, if_false] at h
      generalize hA : ((priv sid).getD ⟨none, none⟩).realToPseudo.getD Bucket.empty = A at h
      generalize hB : ((priv sid).getD ⟨none, none⟩).pseudoToReal.getD Bucket.empty = B at h
      have hAv : r2pView sid tx = A := by
        rw [← hA]; unfold r2pView; rw [hp]
        cases hs : priv sid <;> simp [hs]
      have hBv : p2rView sid tx = B := by
        rw [← hB]; unfold p2rView; rw [hp]
        cases hs : priv sid <;> simp [hs]
      cases h1 : Bucket.Put A real pseudo with
      | error e1 =>
        simp only [h1, Prod.mk.injEq] at h
        rw [← h.1, hAv, hBv]
        simp [r2pView, p2rView, setSession]
      | ok A1 =>
        obtain ⟨k1, k2, _⟩ := Put_ok h1
        obtain ⟨q0, q1⟩ := hq k1 k2
        have h2 := Put_total B pseudo real q0 q1 k2
        simp [h1, h2] at h

theorem utf8ByteSize_go_append (l m : List Char) :
    String.utf8ByteSize.go (l ++ m) = String.utf8ByteSize.go l + String.utf8ByteSize.go m := by
  induction l with
  | nil => simp [String.utf8ByteSize.go]
  | cons c cs ih =>
    show String.utf8ByteSize.go (cs ++ m) + c.utf8Size
      = String.utf8ByteSize.go cs + c.utf8Size + String.utf8ByteSize.go m
    rw [ih]; omega

theorem utf8ByteSize_append (a b : String) :
    (a ++ b).utf8ByteSize = a.utf8ByteSize + b.utf8ByteSize := by
  obtain ⟨l⟩ := a
  obtain ⟨m⟩ := b
  exact utf8ByteSize_go_append l m

theorem repr_size_le (n : Nat) (h : n < 2 ^ 32) : (Nat.repr n).utf8ByteSize ≤ 10 := by
  obtain ⟨l, hl, -, hmem, -, hlen⟩ := toDigitsCore_spec (n + 1) n [] (by omega)
  have hd : Nat.repr n = String.mk l := by
    simp [Nat.repr, Nat.toDigits, hl, List.asString]
  rw [hd, utf8ByteSize_ascii l (fun c hc => (decDigits_facts c (hmem c hc)).2.2.2.2.1)]
  rcases hlen with h1 | h1
  · omega
  · by_contra hc
    have h10 : 10 ^ 10 ≤ 10 ^ (l.length - 1) :=
      Nat.pow_le_pow_right (by decide) (by omega)
    have : (10 : Nat) ^ 10 ≤ n := le_trans h10 h1
    omega

/-- The pseudonym that a Hide call draws fits as a bbolt key when the key of
the call does. -/
theorem drawn_size {rnd : Rand} {c : HideCall} {k q : String} (hk : c.key = some k)
    (hd : c.drawn rnd = .ok q) (h0 : k.utf8ByteSize ≠ 0) (h1 : k.utf8ByteSize ≤ MaxKeySize) :
    q.utf8ByteSize ≠ 0 ∧ q.utf8ByteSize ≤ MaxKeySize := by
  have hcp : ∀ newCp, NewPseudoChanPoint rnd = .ok newCp →
      newCp.utf8ByteSize ≠ 0 ∧ newCp.utf8ByteSize ≤ MaxKeySize := by
    intro newCp hn
    obtain ⟨p, hp, rfl, -⟩ := NewPseudoChanPoint_ok hn
    obtain ⟨-, -, hsize⟩ := NewPseudoStr_ok hp
    have hr := repr_size_le _ (NewPseudoUint32_lt rnd)
    have hc : (":" : String).utf8ByteSize = 1 := rfl
    simp only [Sprintf, utf8ByteSize_append, hsize, hc, txidStringLen, MaxKeySize]
    omega
  cases c with
  | string real =>
    simp only [HideCall.key, Option.some.injEq] at hk
    subst hk
    obtain ⟨-, -, hsize⟩ := NewPseudoStr_ok hd
    omega
  | uint64 real =>
    simp only [HideCall.drawn, Res.ok.injEq] at hd
    subst hd
    simp only [NewPseudoUint64, EncodeToString_size, MaxKeySize, List.length_cons,
      List.length_nil]
    omega
  | chanPoint txid index => exact hcp q hd
  | chanPointStr cp => exact hcp q hd
  | bytes realBytes =>
    simp only [HideCall.key, Option.some.injEq] at hk
    subst hk
    obtain ⟨-, -, hsize⟩ := NewPseudoStr_ok hd
    omega

/-- What a Hide call does to the bbolt store: either every lookup answers as
before, or the key was unmapped and the pair of the key and the drawn
pseudonym was stored by a successful `NewPair`. -/
theorem runHide_effect (sid : SessionID) (s : BoltTx) (rnd : Rand) (c : HideCall) :
    (r2pView sid (runHide (privacyMapTx sid) s rnd c).2 = r2pView sid s ∧
      p2rView sid (runHide (privacyMapTx sid) s rnd c).2 = p2rView sid s ∧
      (runHide (privacyMapTx sid) s rnd c).2.privacy.isSome = s.privacy.isSome) ∨
    ∃ k q, c.key = some k ∧ c.drawn rnd = .ok q ∧
      (privacyMapTx sid).RealToPseudo s k = .err .ErrNoSuchKeyFound ∧
      (privacyMapTx sid).NewPair s k q = ((runHide (privacyMapTx sid) s rnd c).2, none) := by
  cases hk : c.key with
  | none =>
    rw [(runHide_no_key _ s rnd c hk).1]
    exact Or.inl ⟨rfl, rfl, rfl⟩
  | some k =>
    rw [runHide_eq _ s rnd c k hk]
    rcases hideGeneric_state (privacyMapTx sid) s k (c.drawn rnd) (fun p => c.decode p) with
      h | ⟨q, hmiss, hd, hst⟩
    · rw [h]
      exact Or.inl ⟨rfl, rfl, rfl⟩
    · rw [hst]
      rcases hn : (privacyMapTx sid).NewPair s k q with ⟨s1, _ | e⟩
      · exact Or.inr ⟨k, q, rfl, hd, hmiss, hn⟩
      · exact Or.inl (NewPair_err hn (fun h0 h1 => drawn_size hk hd h0 h1))

theorem NewPair_isSome {sid : SessionID} {tx tx1 : BoltTx} {real pseudo : String}
    (h : (privacyMapTx sid).NewPair tx real pseudo = (tx1, none)) :
    tx.privacy.isSome = true := by
  simp only [privacyMapTx, privacyMapTx.NewPair, getBucket] at h
  cases hp : tx.privacy with
  | none => simp [hp] at h
  | some priv => rfl

/-- Read-your-writes for a successful `NewPair`: the lookups of the new pair
answer with it, every other lookup answers as before. -/
theorem NewPair_lookup {sid : SessionID} {tx tx1 : BoltTx} {real pseudo : String}
    (h : (privacyMapTx sid).NewPair tx real pseudo = (tx1, none)) :
    (∀ x, (privacyMapTx sid).RealToPseudo tx1 x
        = if x = real then .ok pseudo else (privacyMapTx sid).RealToPseudo tx x) ∧
      (∀ y, (privacyMapTx sid).PseudoToReal tx1 y
        = if y = pseudo then .ok real else (privacyMapTx sid).PseudoToReal tx y) := by
  obtain ⟨hr, hq, hsome, -, hr2p, hp2r⟩ := NewPair_ok h
  have hs := NewPair_isSome h
  constructor
  · intro x
    rw [RealToPseudo_eq, RealToPseudo_eq, hr2p, hsome, hs]
    by_cases hx : x = real
    · simp only [hx, if_true, lookupRes_some hq]
    · simp only [hx, if_false]
  · intro y
    rw [PseudoToReal_eq, PseudoToReal_eq, hp2r, hsome, hs]
    by_cases hy : y = pseudo
    · simp only [hy, if_true, lookupRes_some hr]
    · simp only [hy, if_false]

/-- A Hide call leaves every stored real-to-pseudo entry as it was. -/
theorem runHide_keeps_r2p (sid : SessionID) (s : BoltTx) (rnd : Rand) (c : HideCall)
    (x p : String) (h : (privacyMapTx sid).RealToPseudo s x = .ok p) :
    (privacyMapTx sid).RealToPseudo (runHide (privacyMapTx sid) s rnd c).2 x = .ok p := by
  rcases runHide_effect sid s rnd c with ⟨h1, h2, h3⟩ | ⟨k, q, -, -, hmiss, hnew⟩
  · rw [(lookups_eq_of_views h1 h2 h3 x).1, h]
  · rw [(NewPair_lookup hnew).1 x]
    have hx : x ≠ k := by
      rintro rfl
      rw [h] at hmiss
      cases hmiss
    simp only [hx, if_false, h]

/-- A Hide call that draws no pseudonym in use leaves every stored
pseudo-to-real entry as it was. -/
theorem runHide_keeps_p2r (sid : SessionID) (s : BoltTx) (rnd : Rand) (c : HideCall)
    (hf : FreshDraw sid s c rnd) (y r : String)
    (h : (privacyMapTx sid).PseudoToReal s y = .ok r) :
    (privacyMapTx sid).PseudoToReal (runHide (privacyMapTx sid) s rnd c).2 y = .ok r := by
  rcases runHide_effect sid s rnd c with ⟨h1, h2, h3⟩ | ⟨k, q, hk, hd, hmiss, hnew⟩
  · rw [(lookups_eq_of_views h1 h2 h3 y).2, h]
  · rw [(NewPair_lookup hnew).2 y]
    have hy : y ≠ q := by
      rintro rfl
      have hu := hf k y hk hmiss hd
      rw [Unused, h] at hu
      cases hu
    simp only [hy, if_false, h]

/-- A Hide call that draws no pseudonym in use keeps the two directions
mutually inverse. -/
theorem runHide_keeps_consistent (sid : SessionID) (s : BoltTx) (rnd : Rand) (c : HideCall)
    (hf : FreshDraw sid s c rnd) (hc : Consistent sid s) :
    Consistent sid (runHide (privacyMapTx sid) s rnd c).2 := by
  intro x p hx
  rcases runHide_effect sid s rnd c with ⟨h1, h2, h3⟩ | ⟨k, q, hk, hd, hmiss, hnew⟩
  · rw [(lookups_eq_of_views h1 h2 h3 x).1] at hx
    rw [(lookups_eq_of_views h1 h2 h3 p).2]
    exact hc x p hx
  · rw [(NewPair_lookup hnew).1 x] at hx
    by_cases hxk : x = k
    · simp only [hxk, if_true, Res.ok.injEq] at hx
      subst hx
      rw [(NewPair_lookup hnew).2 q, hxk]
      simp only [if_true]
    · simp only [hxk, if_false] at hx
      exact runHide_keeps_p2r sid s rnd c hf p x (hc x p hx)

theorem runAll_append {σ : Type} (tx : PrivacyMapTx σ) (s : σ) (a b : List (HideCall × Rand)) :
    runAll tx s (a ++ b) = runAll tx (runAll tx s a) b := by
  induction a generalizing s with
  | nil => rfl
  | cons c rest ih =>
    obtain ⟨c, rnd⟩ := c
    exact ih (runHide tx s rnd c).2

theorem FreshSession_append (sid : SessionID) (s : BoltTx) (a b : List (HideCall × Rand)) :
    FreshSession sid s (a ++ b) ↔
      FreshSession sid s a ∧ FreshSession sid (runAll (privacyMapTx sid) s a) b := by
  induction a generalizing s with
  | nil => simp [FreshSession, runAll]
  | cons c rest ih =>
    obtain ⟨c, rnd⟩ := c
    have h := ih (runHide (privacyMapTx sid) s rnd c).2
    show FreshDraw sid s c rnd ∧ FreshSession sid _ (rest ++ b) ↔ _
    rw [h]
    simp only [FreshSession, runAll, and_assoc]

theorem runAll_keeps_r2p (sid : SessionID) (calls : List (HideCall × Rand)) (s : BoltTx)
    (x p : String) (h : (privacyMapTx sid).RealToPseudo s x = .ok p) :
    (privacyMapTx sid).RealToPseudo (runAll (privacyMapTx sid) s calls) x = .ok p := by
  induction calls generalizing s with
  | nil => exact h
  | cons c rest ih =>
    obtain ⟨c, rnd⟩ := c
    exact ih _ (runHide_keeps_r2p sid s rnd c x p h)

theorem runAll_keeps (sid : SessionID) (calls : List (HideCall × Rand)) (s : BoltTx)
    (hf : FreshSession sid s calls) (hc : Consistent sid s) :
    Consistent sid (runAll (privacyMapTx sid) s calls) ∧
      ∀ y r, (privacyMapTx sid).PseudoToReal s y = .ok r →
        (privacyMapTx sid).PseudoToReal (runAll (privacyMapTx sid) s calls) y = .ok r := by
  induction calls generalizing s with
  | nil => exact ⟨hc, fun _ _ h => h⟩
  | cons c rest ih =>
    obtain ⟨c, rnd⟩ := c
    obtain ⟨hf1, hf2⟩ := hf
    obtain ⟨h1, h2⟩ := ih _ hf2 (runHide_keeps_consistent sid s rnd c hf1 hc)
    exact ⟨h1, fun y r h => h2 y r (runHide_keeps_p2r sid s rnd c hf1 y r h)⟩

/-- After a Hide call has returned a pseudonym, its key maps to a stored string
that decodes to that pseudonym. -/
theorem runHide_ok_stored (sid : SessionID) {s s1 : BoltTx} {rnd : Rand} {c : HideCall}
    {v : HideVal} (h : runHide (privacyMapTx sid) s rnd c = (.ok v, s1)) :
    ∃ k p, c.key = some k ∧ (privacyMapTx sid).RealToPseudo s1 k = .ok p ∧
      c.decode p = .ok v := by
  cases hk : c.key with
  | none =>
    have := (runHide_no_key (privacyMapTx sid) s rnd c hk).2 v
    rw [h] at this
    exact absurd rfl this
  | some k =>
    rw [runHide_eq _ s rnd c k hk] at h
    rcases hideGeneric_ok h with ⟨p, hp, hdec, rfl⟩ | ⟨q, -, -, hnew, hdec⟩
    · exact ⟨k, p, rfl, hp, hdec⟩
    · refine ⟨k, q, rfl, ?_, hdec⟩
      rw [(NewPair_lookup hnew).1 k]
      simp only [if_true]

/-- Stability of every Hide call on the bbolt store: once a call has returned
a pseudonym, the same call returns it again after any further Hide calls, and
writes nothing. -/
theorem runHide_stable (sid : SessionID) {s s1 : BoltTx} {rnd : Rand} {c : HideCall}
    {v : HideVal} (h : runHide (privacyMapTx sid) s rnd c = (.ok v, s1))
    (calls : List (HideCall × Rand)) (rnd1 : Rand) :
    runHide (privacyMapTx sid) (runAll (privacyMapTx sid) s1 calls) rnd1 c
      = (.ok v, runAll (privacyMapTx sid) s1 calls) := by
  obtain ⟨k, p, hk, hp, hdec⟩ := runHide_ok_stored sid h
  rw [runHide_eq _ _ rnd1 c k hk,
    hideGeneric_hit _ _ k _ _ p (runAll_keeps_r2p sid calls s1 k p hp), hdec]

theorem map_ok_inj {σ α β : Type} (f : α → β) (hf : Function.Injective f) (r : Res α × σ)
    (v : α) (s : σ) (h : (r.1.map f, r.2) = (Res.ok (f v), s)) : r = (.ok v, s) := by
  obtain ⟨r1, r2⟩ := r
  simp only [Prod.mk.injEq] at h
  obtain ⟨h1, rfl⟩ := h
  cases r1 with
  | ok w =>
    simp only [Res.map, Res.ok.injEq] at h1
    rw [hf h1]
  | err e => simp [Res.map] at h1
  | panic => simp [Res.map] at h1

theorem Consistent_emptyTx (sid : SessionID) : Consistent sid emptyTx := by
  intro x p h
  simp [privacyMapTx, privacyMapTx.RealToPseudo, getBucket, emptyTx] at h

theorem Unused_emptyTx (sid : SessionID) (q : String) : Unused sid emptyTx q := by
  simp [Unused, privacyMapTx, privacyMapTx.PseudoToReal, getBucket, emptyTx]

theorem FreshDraw_emptyTx (sid : SessionID) (c : HideCall) (rnd : Rand) :
    FreshDraw sid emptyTx c rnd :=
  fun _ q _ _ _ => Unused_emptyTx sid q

theorem Consistent_oneEntryTx : Consistent 7 oneEntryTx :=
  runHide_keeps_consistent 7 emptyTx zeroRand (.string "xyz")
    (FreshDraw_emptyTx 7 _ _) (Consistent_emptyTx 7)

/-! ## Lemmas on lookups -/

theorem utf8ByteSize_go_eq_zero : ∀ (l : List Char), String.utf8ByteSize.go l = 0 → l = []
  | [], _ => rfl
  | c :: cs, h => by
    have hc := Char.utf8Size_pos c
    have : String.utf8ByteSize.go cs + c.utf8Size = 0 := h
    omega

theorem utf8ByteSize_eq_zero_iff (w : String) : w.utf8ByteSize = 0 ↔ w = "" := by
  constructor
  · intro h
    obtain ⟨l⟩ := w
    have := utf8ByteSize_go_eq_zero l h
    subst this
    rfl
  · rintro rfl
    rfl

/-- The answer of a lookup is `ErrNoSuchKeyFound` exactly when the top-level
bucket exists and the bucket holds nothing, or the empty value, under the key. -/
theorem lookupRes_miss_iff (e : Bool) (v : Option String) :
    lookupRes e v = .err .ErrNoSuchKeyFound ↔ e = true ∧ (v = none ∨ v = some "") := by
  unfold lookupRes
  cases e with
  | false => simp
  | true =>
    cases v with
    | none => simp
    | some w =>
      by_cases hw : w.utf8ByteSize = 0
      · have := (utf8ByteSize_eq_zero_iff w).mp hw
        subst this
        simp [hw]
      · have : w ≠ "" := fun h => hw ((utf8ByteSize_eq_zero_iff w).mpr h)
        simp [hw, this]

/-! ## Lemmas on other sessions -/

/-- Whatever `NewPair` does in session `sid`, the buckets of another session
read as before. -/
theorem NewPair_other_session (sid sid1 : SessionID) (hne : sid ≠ sid1) (tx : BoltTx)
    (real pseudo : String) :
    r2pView sid1 ((privacyMapTx sid).NewPair tx real pseudo).1 = r2pView sid1 tx ∧
      p2rView sid1 ((privacyMapTx sid).NewPair tx real pseudo).1 = p2rView sid1 tx ∧
      ((privacyMapTx sid).NewPair tx real pseudo).1.privacy.isSome = tx.privacy.isSome := by
  have hs : ∀ (priv : SessionID → Option SessionBucket) (sb : SessionBucket),
      setSession priv sid sb sid1 = priv sid1 := by
    intro priv sb
    simp only [setSession, Ne.symm hne, if_false]
  simp only [privacyMapTx, privacyMapTx.NewPair, getBucket]
  cases hp : tx.privacy with
  | none => simp only [hp, and_self]
  | some priv =>
    dsimp only
    cases hw : tx.writable with
    | false => simp only [if_true, hp, and_self]
    | true =>
      simp only [Bool.true_eq_false, if_false]
      generalize ((priv sid).getD ⟨none, none⟩).realToPseudo.getD Bucket.empty = A
      generalize ((priv sid).getD ⟨none, none⟩).pseudoToReal.getD Bucket.empty = B
      cases Bucket.Put A real pseudo with
      | error e => simp only [r2pView, p2rView, hs, hp, Option.isSome_some, and_self]
      | ok A1 =>
        dsimp only
        cases Bucket.Put B pseudo real with
        | error e => simp only [r2pView, p2rView, hs, hp, Option.isSome_some, and_self]
        | ok B1 => simp only [r2pView, p2rView, hs, hp, Option.isSome_some, and_self]

/-- The state that a Hide call leaves is the state before it or the state that
a `NewPair` of the same transaction left. -/
theorem runHide_state {σ : Type} (tx : PrivacyMapTx σ) (s : σ) (rnd : Rand) (c : HideCall) :
    (runHide tx s rnd c).2 = s ∨ ∃ k q, (runHide tx s rnd c).2 = (tx.NewPair s k q).1 := by
  cases hk : c.key with
  | none => exact Or.inl (runHide_no_key tx s rnd c hk).1
  | some k =>
    rw [runHide_eq tx s rnd c k hk]
    rcases hideGeneric_state tx s k (c.drawn rnd) (fun p => c.decode p) with h | ⟨q, -, -, h⟩
    · exact Or.inl h
    · exact Or.inr ⟨k, q, h⟩

/-! ## Lemmas on misses and on the shape of pseudonyms -/

/-- On a miss, in a writable transaction, for a key that bbolt accepts and with
no read error of the random source, `HideString` returns the string that
`NewPseudoStr` draws. -/
theorem HideString_miss_ok (sid : SessionID) (tx : BoltTx) (rnd : Rand) (x : String)
    (hmiss : (privacyMapTx sid).RealToPseudo tx x = .err .ErrNoSuchKeyFound)
    (hx0 : x.utf8ByteSize ≠ 0) (hx1 : x.utf8ByteSize ≤ MaxKeySize)
    (hw : tx.writable = true)
    (hrnd : ∀ i, i < x.utf8ByteSize → (rnd.Int i).isSome = true) :
    ∃ p tx1, HideString (privacyMapTx sid) tx rnd x = (.ok p, tx1) ∧
      NewPseudoStr rnd x.utf8ByteSize = .ok p := by
  obtain ⟨l, hl⟩ := fill_total rnd x.utf8ByteSize 0 (fun j hj => by simpa using hrnd j hj)
  have hnew : NewPseudoStr rnd x.utf8ByteSize = .ok (String.mk l) := by
    simp only [NewPseudoStr, hl]
  obtain ⟨-, -, hsize⟩ := NewPseudoStr_ok hnew
  have hsome : tx.privacy.isSome = true := by
    rw [RealToPseudo_eq] at hmiss
    cases hp : tx.privacy.isSome with
    | true => rfl
    | false => simp [lookupRes, hp] at hmiss
  obtain ⟨tx1, hpair⟩ := NewPair_total sid tx x (String.mk l) hw hsome hx0 hx1
    (by omega) (by omega)
  exact ⟨String.mk l, tx1,
    by simp only [HideString, hmiss, ne_eq, not_true_eq_false, if_false, hnew, hpair], hnew⟩

theorem repr_decVal (n : Nat) : decVal (Nat.repr n).data 0 = n := by
  obtain ⟨l, hl, -, -, hval, -⟩ := toDigitsCore_spec (n + 1) n [] (by omega)
  have hd : (Nat.repr n).data = l := by
    simp [Nat.repr, Nat.toDigits, hl, List.asString]
  rw [hd, hval 0]
  omega

theorem Sprintf_count (txid : String) (index : Nat) (ht : ':' ∉ txid.data) :
    (Sprintf txid index).data.count ':' = 1 := by
  have hnc : ':' ∉ (Nat.repr index).data := fun hm =>
    (decDigits_facts _ (repr_data_mem index _ hm)).2.1 rfl
  have hd : (Sprintf txid index).data = txid.data ++ ':' :: (Nat.repr index).data := by
    simp [Sprintf, String.data_append]
  rw [hd, List.count_append, List.count_cons_self, List.count_eq_zero_of_not_mem ht,
    List.count_eq_zero_of_not_mem hnc]

/-! ## Lemmas on the text of an integer -/

theorem digit_of_range (c : Char) (h : '0'.toNat ≤ c.toNat ∧ c.toNat ≤ '9'.toNat) :
    c ∈ decDigits := by
  have h0 : '0'.toNat = 48 := rfl
  have h9 : '9'.toNat = 57 := rfl
  rw [h0, h9] at h
  have hc : c = Char.ofNat c.toNat := (Char.ofNat_toNat c).symm
  obtain ⟨h1, h2⟩ := h
  rw [hc]
  generalize c.toNat = n at h1 h2
  interval_cases n <;> decide

theorem parseUintLoop_ok : ∀ (l : List Char) (acc v : Nat), parseUintLoop l acc = .ok v →
    (∀ c ∈ l, c ∈ decDigits) ∧ v = decVal l acc
  | [], acc, v, h => by
    simp only [parseUintLoop, Res.ok.injEq] at h
    simp [decVal, h]
  | c :: cs, acc, v, h => by
    by_cases hr : '0'.toNat ≤ c.toNat ∧ c.toNat ≤ '9'.toNat
    · by_cases c1 : acc ≥ (2 ^ 64 - 1) / 10 + 1
      · simp only [parseUintLoop, hr, and_self, if_true, c1] at h
        cases h
      · by_cases c2 : acc * 10 + (c.toNat - '0'.toNat) > 2 ^ 64 - 1
        · simp only [parseUintLoop, hr, and_self, if_true, c1, c2, if_false] at h
          cases h
        · simp only [parseUintLoop, hr, and_self, if_true, c1, c2, if_false] at h
          obtain ⟨hm, hv⟩ := parseUintLoop_ok cs _ v h
          refine ⟨?_, hv⟩
          intro d hd
          rcases List.mem_cons.mp hd with e | e
          · rw [e]; exact digit_of_range c hr
          · exact hm d e
    · simp only [parseUintLoop, hr, if_false] at h
      cases h

theorem parseUintLoop_no_panic : ∀ (l : List Char) (acc : Nat), parseUintLoop l acc ≠ .panic
  | [], acc => by simp [parseUintLoop]
  | c :: cs, acc => by
    have ih := parseUintLoop_no_panic cs (acc * 10 + (c.toNat - '0'.toNat))
    unfold parseUintLoop
    dsimp only
    split_ifs
    · exact fun e => Res.noConfusion e
    · exact fun e => Res.noConfusion e
    · exact ih
    · exact fun e => Res.noConfusion e

theorem ParseUint_no_panic (l : List Char) : ParseUint l ≠ .panic := by
  cases l with
  | nil => simp [ParseUint]
  | cons c cs => exact parseUintLoop_no_panic (c :: cs) 0

theorem ParseInt_digits (s : String) :
    ParseInt s = match s.data with
      | [] => .err .ErrSyntax
      | _ :: _ =>
        match ParseUint (signedDigits s.data).2 with
        | .panic => .panic
        | .err e => .err e
        | .ok un =>
          if (signedDigits s.data).1 = false ∧ un ≥ 2 ^ 63 then .err .ErrRange
          else if (signedDigits s.data).1 = true ∧ un > 2 ^ 63 then .err .ErrRange
          else .ok (if (signedDigits s.data).1 then -(un : Int) else (un : Int)) := by
  unfold ParseInt
  cases hd : s.data with
  | nil => rfl
  | cons c cs =>
    by_cases hm : c = '-'
    · subst hm
      simp [signedDigits]
    · by_cases hp : c = '+'
      · subst hp
        simp [signedDigits]
      · simp [signedDigits, hm, hp]

theorem ParseInt_no_panic (s : String) : ParseInt s ≠ .panic := by
  rw [ParseInt_digits]
  cases hd : s.data with
  | nil => simp
  | cons c cs =>
    have hn := ParseUint_no_panic (signedDigits (c :: cs)).2
    dsimp only
    generalize ParseUint (signedDigits (c :: cs)).2 = r at hn
    cases r with
    | panic => exact absurd rfl hn
    | err e => simp
    | ok un =>
      dsimp only
      split_ifs <;> simp

/-- What `ParseInt` accepts is the text of an integer, and it returns the
integer that the text spells. -/
theorem ParseInt_ok {s : String} {v : Int} (h : ParseInt s = .ok v) :
    isIntText s.data = true ∧ v = intVal s.data := by
  rw [ParseInt_digits] at h
  cases hd : s.data with
  | nil => simp [hd] at h
  | cons c cs =>
    rw [hd] at h
    dsimp only at h
    cases hu : ParseUint (signedDigits (c :: cs)).2 with
    | panic => simp [hu] at h
    | err e => simp [hu] at h
    | ok un =>
      rw [hu] at h
      dsimp only at h
      have hne : (signedDigits (c :: cs)).2 ≠ [] := by
        intro e
        rw [e] at hu
        simp [ParseUint] at hu
      have hl : parseUintLoop (signedDigits (c :: cs)).2 0 = .ok un := by
        unfold ParseUint at hu
        split at hu
        · rename_i e; exact absurd e hne
        · exact hu
      obtain ⟨hm, hv⟩ := parseUintLoop_ok _ _ _ hl
      constructor
      · simp only [isIntText, Bool.and_eq_true, Bool.not_eq_true', List.isEmpty_eq_false,
          List.all_eq_true, decide_eq_true_eq]
        refine ⟨?_, hm⟩
        exact hne
      · by_cases hA : (signedDigits (c :: cs)).1 = false ∧ un ≥ 2 ^ 63
        · rw [if_pos hA] at h
          cases h
        · rw [if_neg hA] at h
          by_cases hB : (signedDigits (c :: cs)).1 = true ∧ un > 2 ^ 63
          · rw [if_pos hB] at h
            cases h
          · rw [if_neg hB] at h
            simp only [Res.ok.injEq] at h
            rw [← h, intVal, hv]

/-- The text of an integer that fits an int64 is read by `ParseInt` as the
integer it spells. -/
theorem ParseInt_intText (l : List Char) (ht : isIntText l = true)
    (hlo : -(2 : Int) ^ 63 ≤ intVal l) (hhi : intVal l < (2 : Int) ^ 63) :
    ParseInt (String.mk l) = .ok (intVal l) := by
  simp only [isIntText, Bool.and_eq_true, Bool.not_eq_true', List.isEmpty_eq_false,
    List.all_eq_true, decide_eq_true_eq] at ht
  obtain ⟨hne, hm⟩ := ht
  rw [ParseInt_digits]
  cases l with
  | nil => exact absurd rfl hne
  | cons c cs =>
    dsimp only
    have hb : decVal (signedDigits (c :: cs)).2 0 ≤ 2 ^ 64 - 1 := by
      unfold intVal at hlo hhi
      split_ifs at hlo hhi <;> omega
    have hp := parseUintLoop_digits _ 0 hm hb
    have hu : ParseUint (signedDigits (c :: cs)).2 =
        .ok (decVal (signedDigits (c :: cs)).2 0) := by
      unfold ParseUint
      split
      · rename_i e; exact absurd e hne
      · exact hp
    rw [hu]
    dsimp only
    unfold intVal at hlo hhi ⊢
    cases hs : (signedDigits (c :: cs)).1 with
    | true =>
      rw [hs] at hlo hhi
      simp only [if_true] at hlo hhi
      have c1 : decVal (signedDigits (c :: cs)).2 0 ≤ 9223372036854775808 := by omega
      simp [c1]
    | false =>
      rw [hs] at hlo hhi
      simp only [Bool.false_eq_true, if_false] at hlo hhi
      have c1 : decVal (signedDigits (c :: cs)).2 0 < 9223372036854775808 := by omega
      simp [c1]

theorem isIntText_no_colon (l : List Char) (ht : isIntText l = true) : ':' ∉ l := by
  simp only [isIntText, Bool.and_eq_true, Bool.not_eq_true', List.isEmpty_eq_false,
    List.all_eq_true, decide_eq_true_eq] at ht
  obtain ⟨-, hm⟩ := ht
  have hd : ':' ∉ decDigits := by decide
  cases l with
  | nil => simp
  | cons c cs =>
    by_cases h1 : c = '-'
    · subst h1
      simp only [signedDigits, if_true] at hm
      intro hc
      rcases List.mem_cons.mp hc with e | e
      · exact absurd e (by decide)
      · exact hd (hm _ e)
    · by_cases h2 : c = '+'
      · subst h2
        simp only [signedDigits, h1, if_false, if_true] at hm
        intro hc
        rcases List.mem_cons.mp hc with e | e
        · exact absurd e (by decide)
        · exact hd (hm _ e)
      · simp only [signedDigits, h1, h2, if_false] at hm
        exact fun hc => hd (hm _ hc)

theorem splitChars_ne_nil (sep : Char) : ∀ l : List Char, splitChars sep l ≠ []
  | [] => by simp [splitChars]
  | c :: cs => by
    have ih := splitChars_ne_nil sep cs
    unfold splitChars
    split_ifs
    · simp
    · split <;> simp

/-- The call `strings.Split` returns one part more than there are separators. -/
theorem splitChars_length (sep : Char) : ∀ l : List Char,
    (splitChars sep l).length = l.count sep + 1
  | [] => by simp [splitChars]
  | c :: cs => by
    have ih := splitChars_length sep cs
    have hne := splitChars_ne_nil sep cs
    by_cases hc : c = sep
    · subst hc
      simp [splitChars, ih]
    · have hc2 : ¬ (c == sep) = true := by simpa using hc
      rw [List.count_cons, if_neg hc2]
      unfold splitChars
      rw [if_neg hc]
      cases hq : splitChars sep cs with
      | nil => exact absurd hq hne
      | cons a b =>
        rw [hq] at ih
        simpa using ih

/-- A colon-free txid, a colon and the text of an int64 decode to the txid and
the integer reduced to a uint32. -/
theorem decodeChannelPoint_intText (txid : String) (n : List Char) (ht : ':' ∉ txid.data)
    (hn : isIntText n = true) (hlo : -(2 : Int) ^ 63 ≤ intVal n)
    (hhi : intVal n < (2 : Int) ^ 63) :
    decodeChannelPoint (txid ++ ":" ++ String.mk n) = .ok (txid, toUint32 (intVal n)) := by
  have hs : Split (txid ++ ":" ++ String.mk n) = [txid, String.mk n] := by
    have hd : (txid ++ ":" ++ String.mk n).data = txid.data ++ ':' :: n := by
      simp [String.data_append]
    simp [Split, hd, splitChars_one_sep ':' _ _ ht (isIntText_no_colon n hn)]
  simp [decodeChannelPoint, hs, ParseInt_intText n hn hlo hhi]

theorem toUint32_lt (i : Int) : toUint32 i < 2 ^ 32 := by
  unfold toUint32
  omega

end Firewalldb

namespace Accounts

/-! ## Lemmas on the account service -/

theorem lookup_setPayment (hash : Hash) (entry : PaymentEntry) :
    ∀ l : List (Hash × PaymentEntry), (setPayment hash entry l).lookup hash = some entry
  | [] => by simp [setPayment, List.lookup]
  | (k, v) :: rest => by
    by_cases hk : k = hash
    · simp [setPayment, hk, List.lookup]
    · have hb : (hash == k) = false := by
        simpa using fun e => hk e.symm
      simp only [setPayment, hk, if_false, List.lookup, hb]
      exact lookup_setPayment hash entry rest

theorem inflightState_iff (st : PaymentState) :
    inflightState st = decide (st = .Unknown ∨ st = .InFlight) := by
  cases st <;> rfl

theorem inFlightAmt_sum : ∀ l : List (Hash × PaymentEntry),
    inFlightAmt l =
      ((l.filter (fun p => decide (p.2.Status = .Unknown ∨ p.2.Status = .InFlight))).map
        (fun p => p.2.FullAmount)).sum
  | [] => rfl
  | (k, v) :: rest => by
    have ih := inFlightAmt_sum rest
    rw [inFlightAmt, List.filter_cons, inflightState_iff, ih]
    by_cases h : v.Status = .Unknown ∨ v.Status = .InFlight
    · simp [h]
    · simp [h]

theorem inflightState_of {st : PaymentState} (h : st = .Unknown ∨ st = .InFlight) :
    inflightState st = true := by
  rcases h with h | h <;> rw [h] <;> rfl

end Accounts

namespace Firewall

/-! ## Lemmas on the fuzzed primitives -/

theorem floor_le_amount (r : ℚ) (amt : Nat) (hr0 : 0 < r) (hr1 : r < 1) :
    ((⌊r * amt⌋₊ : Nat) : ℚ) ≤ r * amt ∧ ⌊r * amt⌋₊ ≤ amt := by
  have ha : (0 : ℚ) ≤ amt := Nat.cast_nonneg amt
  have h0 : 0 ≤ r * amt := mul_nonneg hr0.le ha
  have h1 : ((⌊r * amt⌋₊ : Nat) : ℚ) ≤ r * amt := Nat.floor_le h0
  refine ⟨h1, ?_⟩
  have h2 : r * amt ≤ amt := by nlinarith
  exact_mod_cast h1.trans h2

theorem floor_zero_of_small (r : ℚ) (amt : Nat) (hr0 : 0 < r) (h : amt < ⌊1 / r⌋₊) :
    ⌊r * amt⌋₊ = 0 := by
  rw [Nat.floor_eq_zero]
  have h1 : ((⌊1 / r⌋₊ : Nat) : ℚ) ≤ 1 / r := Nat.floor_le (by positivity)
  have h2 : ((amt : Nat) : ℚ) + 1 ≤ ((⌊1 / r⌋₊ : Nat) : ℚ) := by exact_mod_cast h
  have h3 : (amt : ℚ) < 1 / r := by linarith
  have h4 : r * amt < r * (1 / r) := mul_lt_mul_of_pos_left h3 hr0
  have h5 : r * (1 / r) = 1 := by field_simp
  linarith

end Firewall

namespace Firewalldb

/-! # The claims -/

/-! ## C1: String round trip -/

/-- C1. String round trip on the bbolt store: in a state where the real string
`x` is unmapped, or mapped to a pseudonym that maps back to `x`, a pseudonym `p`
returned by `HideString` is revealed as `x`, without error, by `RevealString` on
the state that `HideString` left, whatever the random source produced. -/
theorem HideString_RevealString_roundtrip (sid : SessionID) (tx tx1 : BoltTx) (rnd : Rand)
    (x p : String)
    (hstate : (privacyMapTx sid).RealToPseudo tx x = .err .ErrNoSuchKeyFound ∨
      ∃ q, (privacyMapTx sid).RealToPseudo tx x = .ok q ∧
        (privacyMapTx sid).PseudoToReal tx q = .ok x)
    (h : HideString (privacyMapTx sid) tx rnd x = (.ok p, tx1)) :
    RevealString (privacyMapTx sid) tx1 p = .ok x := by
  rcases HideString_ok h with ⟨hhit, rfl⟩ | ⟨_, _, hnew⟩
  · rcases hstate with hmiss | ⟨q, hq, hback⟩
    · rw [hmiss] at hhit; cases hhit
    · rw [hq] at hhit
      cases hhit
      rw [RealToPseudo_eq] at hq
      have hp := utf8ByteSize_ne_zero (lookupRes_ok hq).2.2
      simp [RevealString, hp, hback]
  · obtain ⟨hx, hp, hsome, _, _, hp2r⟩ := NewPair_ok hnew
    simp only [RevealString, utf8ByteSize_ne_zero hp, if_false]
    rw [PseudoToReal_eq, hp2r, hsome]
    simp [lookupRes, hx]

theorem HideString_RevealString_roundtrip_witness :
    RevealString (privacyMapTx 7) (HideString (privacyMapTx 7) emptyTx zeroRand "xyz").2 "aaa"
      = .ok "xyz" :=
  HideString_RevealString_roundtrip 7 emptyTx _ zeroRand "xyz" "aaa" (Or.inl (by decide))
    (Prod.ext (by decide) rfl)

/-! ## C2: Bijection -/

/-- C2, as amended. Bijection on the bbolt store: in a session that starts
from a state whose two directions are mutually inverse (the empty store is
one) and consists of Hide calls none of which draws a pseudonym already in
use, if `HideString(x)` returns `p` and a later `HideString(y)` returns the
same `p`, then `x = y`. -/
theorem HideString_injective (sid : SessionID) (s0 sx sy : BoltTx)
    (pre mid : List (HideCall × Rand)) (rx ry : Rand) (x y p : String)
    (hcons : Consistent sid s0)
    (hfresh : FreshSession sid s0 (pre ++ (.string x, rx) :: (mid ++ [(.string y, ry)])))
    (hx : HideString (privacyMapTx sid) (runAll (privacyMapTx sid) s0 pre) rx x = (.ok p, sx))
    (hy : HideString (privacyMapTx sid) (runAll (privacyMapTx sid) sx mid) ry y = (.ok p, sy)) :
    x = y := by
  obtain ⟨hf0, hf1⟩ := (FreshSession_append sid s0 pre _).mp hfresh
  obtain ⟨hfx, hf2⟩ := hf1
  have hrun : runHide (privacyMapTx sid) (runAll (privacyMapTx sid) s0 pre) rx (.string x)
      = (.ok (.string p), sx) := by
    simp only [runHide, hx, Res.map]
  have hsx : (runHide (privacyMapTx sid) (runAll (privacyMapTx sid) s0 pre) rx (.string x)).2
      = sx := by rw [hrun]
  rw [hsx] at hf2
  obtain ⟨hf3, hfy, -⟩ := (FreshSession_append sid sx mid _).mp hf2
  have hc0 := (runAll_keeps sid pre s0 hf0 hcons).1
  have hcx : Consistent sid sx := by
    have := runHide_keeps_consistent sid _ rx (.string x) hfx hc0
    rwa [hsx] at this
  obtain ⟨k, q, hk, hq, hdec⟩ := runHide_ok_stored sid hrun
  simp only [HideCall.key, Option.some.injEq] at hk
  simp only [HideCall.decode, Res.ok.injEq, HideVal.string.injEq] at hdec
  subst hk hdec
  obtain ⟨-, hkeep⟩ := runAll_keeps sid mid sx hf3 hcx
  have hcm := (runAll_keeps sid mid sx hf3 hcx).1
  have hback := hkeep q x (hcx x q hq)
  rcases HideString_ok hy with ⟨hhit, -⟩ | ⟨hmiss, hnew, -⟩
  · have := hcm y q hhit
    rw [hback] at this
    cases this
    rfl
  · have hu := hfy y q rfl hmiss hnew
    rw [Unused, hback] at hu
    cases hu

/-- A session for the bijection property: from the empty store, `HideString` of
"xyz" (a miss that draws "aaa"), `HideUint64` of 5 (a miss that draws sixteen
zeros) and `HideString` of "xyz" again (a hit). -/
theorem HideString_injective_witness :
    Consistent 7 emptyTx ∧
      FreshSession 7 emptyTx
        [(.string "xyz", zeroRand), (.uint64 5, zeroRand), (.string "xyz", zeroRand)] ∧
      "xyz" = "xyz" :=
  have hfresh : FreshSession 7 emptyTx
      [(.string "xyz", zeroRand), (.uint64 5, zeroRand), (.string "xyz", zeroRand)] :=
    ⟨FreshDraw_emptyTx 7 _ _,
      fun _ q _ _ hd => by
        simp only [HideCall.drawn, Res.ok.injEq] at hd
        subst hd
        show (privacyMapTx 7).PseudoToReal _ _ = _
        decide,
      fun k _ hk hmiss _ => by
        simp only [HideCall.key, Option.some.injEq] at hk
        subst hk
        exact absurd hmiss (by decide),
      trivial⟩
  ⟨Consistent_emptyTx 7, hfresh,
    HideString_injective 7 emptyTx (HideString (privacyMapTx 7) emptyTx zeroRand "xyz").2
      (runAll (privacyMapTx 7) (HideString (privacyMapTx 7) emptyTx zeroRand "xyz").2
        [(.uint64 5, zeroRand)])
      [] [(.uint64 5, zeroRand)] zeroRand zeroRand "xyz" "xyz" "aaa" (Consistent_emptyTx 7)
      hfresh (Prod.ext (by decide) rfl) (Prod.ext (by decide) rfl)⟩

/-- C2, counterexample. From the empty store, with a random source that draws
the index 0 every time, `HideString("x")` returns "a" and `HideString("y")`
then returns "a" as well: two real values share a pseudonym. -/
theorem HideString_collision_counterexample :
    (HideString (privacyMapTx 7) emptyTx zeroRand "x").1 = .ok "a" ∧
      (HideString (privacyMapTx 7) (HideString (privacyMapTx 7) emptyTx zeroRand "x").2
        zeroRand "y").1 = .ok "a" ∧
      "x" ≠ "y" := by
  decide

/-! ## C3: Stability -/

/-- C3. Stability on the bbolt store: once `HideString(x)`, `HideUint64(x)` or
`HideChanPointStr(x)` has returned a pseudonym, a second call with the same
argument, after any sequence of Hide calls and whatever the random source
yields then, returns exactly that pseudonym and writes nothing. -/
theorem Hide_stable (sid : SessionID) (s s1 : BoltTx) (rnd rnd1 : Rand)
    (calls : List (HideCall × Rand)) :
    (∀ x p, HideString (privacyMapTx sid) s rnd x = (.ok p, s1) →
      HideString (privacyMapTx sid) (runAll (privacyMapTx sid) s1 calls) rnd1 x
        = (.ok p, runAll (privacyMapTx sid) s1 calls)) ∧
    (∀ x p, HideUint64 (privacyMapTx sid) s rnd x = (.ok p, s1) →
      HideUint64 (privacyMapTx sid) (runAll (privacyMapTx sid) s1 calls) rnd1 x
        = (.ok p, runAll (privacyMapTx sid) s1 calls)) ∧
    (∀ x p, HideChanPointStr (privacyMapTx sid) s rnd x = (.ok p, s1) →
      HideChanPointStr (privacyMapTx sid) (runAll (privacyMapTx sid) s1 calls) rnd1 x
        = (.ok p, runAll (privacyMapTx sid) s1 calls)) := by
  refine ⟨fun x p h => ?_, fun x p h => ?_, fun x p h => ?_⟩
  · have h1 : runHide (privacyMapTx sid) s rnd (.string x) = (.ok (.string p), s1) := by
      simp only [runHide, h, Res.map]
    exact map_ok_inj HideVal.string (fun a b e => by cases e; rfl) _ p _
      (runHide_stable sid h1 calls rnd1)
  · have h1 : runHide (privacyMapTx sid) s rnd (.uint64 x) = (.ok (.uint64 p), s1) := by
      simp only [runHide, h, Res.map]
    exact map_ok_inj HideVal.uint64 (fun a b e => by cases e; rfl) _ p _
      (runHide_stable sid h1 calls rnd1)
  · have h1 : runHide (privacyMapTx sid) s rnd (.chanPointStr x)
        = (.ok (.chanPointStr p), s1) := by
      simp only [runHide, h, Res.map]
    exact map_ok_inj HideVal.chanPointStr (fun a b e => by cases e; rfl) _ p _
      (runHide_stable sid h1 calls rnd1)

theorem Hide_stable_witness :
    HideUint64 (privacyMapTx 7)
        (runAll (privacyMapTx 7) (HideUint64 (privacyMapTx 7) emptyTx zeroRand 5).2
          [(.string "xyz", zeroRand), (.uint64 6, ⟨fun _ => none, fun _ => 1⟩)])
        ⟨fun _ => none, fun _ => 9⟩ 5
      = (.ok 0, runAll (privacyMapTx 7) (HideUint64 (privacyMapTx 7) emptyTx zeroRand 5).2
          [(.string "xyz", zeroRand), (.uint64 6, ⟨fun _ => none, fun _ => 1⟩)]) :=
  (Hide_stable 7 emptyTx _ zeroRand ⟨fun _ => none, fun _ => 9⟩
    [(.string "xyz", zeroRand), (.uint64 6, ⟨fun _ => none, fun _ => 1⟩)]).2.1 5 0
    (Prod.ext (by decide) rfl)

/-! ## C4: Map invariant -/

/-- C4, as amended. Map invariant on the bbolt store. A successful `NewPair` for
a real value without entry and a pseudonym not in use, and every call of
`HideString`, `HideUint64`, `HideChanPoint`, `HideChanPointStr` or `HideBytes`
that draws no pseudonym in use, leaves every stored real-to-pseudo and
pseudo-to-real entry unchanged and keeps the two directions mutually inverse;
the Hide calls leave the real-to-pseudo entries unchanged whatever they draw. -/
theorem map_invariant (sid : SessionID) (s : BoltTx) :
    (∀ real pseudo s1, (privacyMapTx sid).NewPair s real pseudo = (s1, none) →
      (privacyMapTx sid).RealToPseudo s real = .err .ErrNoSuchKeyFound →
      Unused sid s pseudo →
        KeepsRealToPseudo sid s s1 ∧ KeepsPseudoToReal sid s s1 ∧
          (Consistent sid s → Consistent sid s1)) ∧
    (∀ c rnd, KeepsRealToPseudo sid s (runHide (privacyMapTx sid) s rnd c).2 ∧
      (FreshDraw sid s c rnd →
        KeepsPseudoToReal sid s (runHide (privacyMapTx sid) s rnd c).2 ∧
          (Consistent sid s → Consistent sid (runHide (privacyMapTx sid) s rnd c).2))) := by
  constructor
  · intro real pseudo s1 hnew hmiss hun
    obtain ⟨hl1, hl2⟩ := NewPair_lookup hnew
    have keep2 : KeepsPseudoToReal sid s s1 := by
      intro q r h
      rw [hl2 q]
      have hq : q ≠ pseudo := by
        rintro rfl
        rw [Unused, h] at hun
        cases hun
      simp only [hq, if_false, h]
    refine ⟨?_, keep2, ?_⟩
    · intro x p h
      rw [hl1 x]
      have hx : x ≠ real := by
        rintro rfl
        rw [h] at hmiss
        cases hmiss
      simp only [hx, if_false, h]
    · intro hc x p hx
      rw [hl1 x] at hx
      by_cases hxr : x = real
      · simp only [hxr, if_true, Res.ok.injEq] at hx
        subst hx
        rw [hl2 pseudo, hxr]
        simp only [if_true]
      · simp only [hxr, if_false] at hx
        exact keep2 p x (hc x p hx)
  · intro c rnd
    exact ⟨fun x p h => runHide_keeps_r2p sid s rnd c x p h,
      fun hf => ⟨fun q r h => runHide_keeps_p2r sid s rnd c hf q r h,
        fun hc => runHide_keeps_consistent sid s rnd c hf hc⟩⟩

theorem map_invariant_witness :
    (privacyMapTx 7).RealToPseudo oneEntryTx "xyz" = .ok "aaa" ∧
      KeepsRealToPseudo 7 oneEntryTx
        (runHide (privacyMapTx 7) oneEntryTx zeroRand (.uint64 5)).2 ∧
      KeepsPseudoToReal 7 oneEntryTx
        (runHide (privacyMapTx 7) oneEntryTx zeroRand (.uint64 5)).2 ∧
      Consistent 7 (runHide (privacyMapTx 7) oneEntryTx zeroRand (.uint64 5)).2 :=
  have hf : FreshDraw 7 oneEntryTx (.uint64 5) zeroRand := by
    intro k q _ _ hd
    simp only [HideCall.drawn, Res.ok.injEq] at hd
    subst hd
    show (privacyMapTx 7).PseudoToReal oneEntryTx _ = _
    decide
  ⟨by decide, ((map_invariant 7 oneEntryTx).2 (.uint64 5) zeroRand).1,
    (((map_invariant 7 oneEntryTx).2 (.uint64 5) zeroRand).2 hf).1,
    (((map_invariant 7 oneEntryTx).2 (.uint64 5) zeroRand).2 hf).2 Consistent_oneEntryTx⟩

/-- C4, counterexample. From the empty store, with a random source that leaves
zero bytes every time, `HideUint64(5)` stores the pseudonym
"0000000000000000" for the key of 5, and `HideUint64(6)` then stores the same
pseudonym for the key of 6: the pseudo-to-real entry of that pseudonym is
replaced, and the pseudonym of 5 no longer maps back to 5. -/
theorem HideUint64_overwrite_counterexample :
    (privacyMapTx 7).PseudoToReal (HideUint64 (privacyMapTx 7) emptyTx zeroRand 5).2
        "0000000000000000" = .ok "0000000000000005" ∧
      (privacyMapTx 7).PseudoToReal
        (HideUint64 (privacyMapTx 7) (HideUint64 (privacyMapTx 7) emptyTx zeroRand 5).2
          zeroRand 6).2 "0000000000000000" = .ok "0000000000000006" ∧
      (privacyMapTx 7).RealToPseudo
        (HideUint64 (privacyMapTx 7) (HideUint64 (privacyMapTx 7) emptyTx zeroRand 5).2
          zeroRand 6).2 "0000000000000005" = .ok "0000000000000000" := by
  decide

/-! ## C5: Uint64 round trip -/

/-- C5, as amended. Uint64 round trip on the bbolt store: for a uint64 `x` whose
key `Uint64ToStr(x)` is unmapped, a pseudonym `p` returned by `HideUint64` is
revealed as `x`, without error, by `RevealUint64` on the resulting state,
provided `p` is not 0 (or `x` is 0 itself): `RevealUint64` passes 0 through. -/
theorem HideUint64_RevealUint64_roundtrip (sid : SessionID) (tx tx1 : BoltTx) (rnd : Rand)
    (x p : Nat) (hx : x < 2 ^ 64)
    (hmiss : (privacyMapTx sid).RealToPseudo tx (Uint64ToStr x) = .err .ErrNoSuchKeyFound)
    (h : HideUint64 (privacyMapTx sid) tx rnd x = (.ok p, tx1))
    (hp : p ≠ 0 ∨ x = 0) :
    RevealUint64 (privacyMapTx sid) tx1 p = .ok x := by
  rcases HideUint64_ok h with ⟨q, hq, _, _⟩ | ⟨_, hpv, hnew⟩
  · rw [hmiss] at hq; cases hq
  · by_cases h0 : p = 0
    · rcases hp with hp | hp
      · exact absurd h0 hp
      · simp [RevealUint64, h0, hp]
    · obtain ⟨hk, _, hsome, _, _, hp2r⟩ := NewPair_ok hnew
      have hkey : Uint64ToStr p = (NewPseudoUint64 rnd).2 := by
        rw [hpv]; exact NewPseudoUint64_str rnd
      simp only [RevealUint64, h0, if_false]
      rw [PseudoToReal_eq, hp2r, hsome, hkey]
      simp only [if_true, lookupRes_some hk]
      exact StrToUint64_Uint64ToStr x hx

theorem HideUint64_RevealUint64_roundtrip_witness :
    RevealUint64 (privacyMapTx 7)
      (HideUint64 (privacyMapTx 7) emptyTx ⟨fun _ => some 0, fun _ => 1⟩ 5).2
      72340172838076673 = .ok 5 :=
  HideUint64_RevealUint64_roundtrip 7 emptyTx _ ⟨fun _ => some 0, fun _ => 1⟩ 5
    72340172838076673 (by decide) (by decide) (Prod.ext (by decide) rfl) (Or.inl (by decide))

/-- C5, counterexample. In the empty store the key of 5 is unmapped; when the
random source leaves eight zero bytes `HideUint64(5)` returns the pseudonym 0,
and `RevealUint64(0)` on the resulting state returns 0, not 5. -/
theorem HideUint64_RevealUint64_zero_counterexample :
    (privacyMapTx 7).RealToPseudo emptyTx (Uint64ToStr 5) = .err .ErrNoSuchKeyFound ∧
      (HideUint64 (privacyMapTx 7) emptyTx zeroRand 5).1 = .ok 0 ∧
      RevealUint64 (privacyMapTx 7) (HideUint64 (privacyMapTx 7) emptyTx zeroRand 5).2 0 = .ok 0 ∧
      RevealUint64 (privacyMapTx 7) (HideUint64 (privacyMapTx 7) emptyTx zeroRand 5).2 0 ≠ .ok 5 := by
  refine ⟨by decide, by decide, rfl, ?_⟩
  simp [RevealUint64]

/-! ## C6: Bytes round trip -/

/-- C6, as amended. Bytes round trip on the bbolt store: in a state where
`hex(b)` is unmapped, or mapped to a pseudonym of lower-case hex digits that
maps back to `hex(b)`, a slice `q` returned by `HideBytes` is revealed, without
error, by `RevealBytes` on the resulting state as a slice with the bytes of
`b`. -/
theorem HideBytes_RevealBytes_roundtrip (sid : SessionID) (tx tx1 : BoltTx) (rnd : Rand)
    (b q : Slice)
    (hstate : (privacyMapTx sid).RealToPseudo tx (EncodeToString b.content)
        = .err .ErrNoSuchKeyFound ∨
      ∃ p, (privacyMapTx sid).RealToPseudo tx (EncodeToString b.content) = .ok p ∧
        (privacyMapTx sid).PseudoToReal tx p = .ok (EncodeToString b.content) ∧
        ∀ c ∈ p.data, c ∈ hextable)
    (h : HideBytes (privacyMapTx sid) tx rnd b = (.ok q, tx1)) :
    ∃ r, RevealBytes (privacyMapTx sid) tx1 q = .ok r ∧ r.content = b.content := by
  obtain ⟨pseudo, qs, hhide, hdec, rfl⟩ := HideBytes_ok h
  have key : (∀ c ∈ pseudo.data, c ∈ hextable) ∧ pseudo ≠ "" ∧
      (privacyMapTx sid).PseudoToReal tx1 pseudo = .ok (EncodeToString b.content) := by
    rcases HideString_ok hhide with ⟨hhit, rfl⟩ | ⟨_, hnew, hpair⟩
    · rcases hstate with hmiss | ⟨p, hp, hback, hlow⟩
      · rw [hmiss] at hhit; cases hhit
      · rw [hp] at hhit
        cases hhit
        rw [RealToPseudo_eq] at hp
        exact ⟨hlow, utf8ByteSize_ne_zero (lookupRes_ok hp).2.2, hback⟩
    · obtain ⟨_, hmem, _⟩ := NewPseudoStr_ok hnew
      obtain ⟨hk, hq0, hsome, _, _, hp2r⟩ := NewPair_ok hpair
      refine ⟨fun c hc => (alphabet_facts c (hmem c hc)).1, utf8ByteSize_ne_zero hq0, ?_⟩
      rw [PseudoToReal_eq, hp2r, hsome]
      simp only [if_true, lookupRes_some hk]
  obtain ⟨hlow, hne, hback⟩ := key
  have henc : EncodeToString qs = pseudo :=
    String.ext (hexEncode_hexDecode pseudo.data qs hlow hdec)
  refine ⟨some b.content, ?_, rfl⟩
  simp only [RevealBytes, henc, RevealString, hne, if_false, hback,
    DecodeString_EncodeToString]

theorem HideBytes_RevealBytes_roundtrip_witness :
    ∃ r, RevealBytes (privacyMapTx 7)
        (HideBytes (privacyMapTx 7) emptyTx zeroRand (some [1, 2])).2 (some [0xaa, 0xaa]) = .ok r ∧
      r.content = Slice.content (some [1, 2]) :=
  HideBytes_RevealBytes_roundtrip 7 emptyTx _ zeroRand (some [1, 2]) (some [0xaa, 0xaa])
    (Or.inl (by decide)) (Prod.ext (by decide) rfl)

/-- C6, counterexample. In the store that maps "01", the hex string of the
byte 1, to "AB" and back, `HideBytes` of that byte returns the byte 0xAB, and
`RevealBytes` of 0xAB looks up its lower-case encoding "ab", which is not a
key: it returns `ErrNoSuchKeyFound`. -/
theorem HideBytes_upper_case_counterexample :
    (privacyMapTx 7).RealToPseudo upperCaseTx (EncodeToString [1]) = .ok "AB" ∧
      (privacyMapTx 7).PseudoToReal upperCaseTx "AB" = .ok (EncodeToString [1]) ∧
      (HideBytes (privacyMapTx 7) upperCaseTx zeroRand (some [1])).1 = .ok (some [0xab]) ∧
      RevealBytes (privacyMapTx 7) (HideBytes (privacyMapTx 7) upperCaseTx zeroRand (some [1])).2
        (some [0xab]) = .err .ErrNoSuchKeyFound := by
  refine ⟨by decide, by decide, by decide, ?_⟩
  have hs : (HideBytes (privacyMapTx 7) upperCaseTx zeroRand (some [1])).2 = upperCaseTx := by
    have hhit : (privacyMapTx 7).RealToPseudo upperCaseTx (EncodeToString [1]) = .ok "AB" := by
      decide
    have hd : DecodeString "AB" = .ok [0xab] := by decide
    have hh : HideString (privacyMapTx 7) upperCaseTx zeroRand (EncodeToString [1])
        = (.ok "AB", upperCaseTx) := by
      simp only [HideString, hhit]
    simp only [HideBytes, Slice.content, Option.getD_some, hh, hd]
  rw [hs]
  decide

/-! ## C7: Channel point round trip -/

/-- C7. Channel point round trip on the bbolt store: for a txid without ':' and
a uint32 index whose channel point "txid:index" is unmapped, a pair
`(ptxid, pindex)` returned by `HideChanPoint` is revealed as `(txid, index)`,
without error, by `RevealChanPoint` on the resulting state. -/
theorem HideChanPoint_RevealChanPoint_roundtrip (sid : SessionID) (tx tx1 : BoltTx)
    (rnd : Rand) (txid : String) (index : Nat) (ptxid : String) (pindex : Nat)
    (ht : ':' ∉ txid.data) (hi : index < 2 ^ 32)
    (hmiss : (privacyMapTx sid).RealToPseudo tx (Sprintf txid index)
      = .err .ErrNoSuchKeyFound)
    (h : HideChanPoint (privacyMapTx sid) tx rnd txid index = (.ok (ptxid, pindex), tx1)) :
    RevealChanPoint (privacyMapTx sid) tx1 ptxid pindex = .ok (txid, index) := by
  rcases HideChanPoint_ok h with ⟨q, hq, _, _⟩ | ⟨newCp, _, hnew, hpair, hdec⟩
  · rw [hmiss] at hq; cases hq
  · obtain ⟨p, _, hcp, hdec2⟩ := NewPseudoChanPoint_ok hnew
    rw [hdec] at hdec2
    simp only [Res.ok.injEq, Prod.mk.injEq] at hdec2
    obtain ⟨rfl, rfl⟩ := hdec2
    obtain ⟨hk, _, hsome, _, _, hp2r⟩ := NewPair_ok hpair
    simp only [RevealChanPoint]
    rw [PseudoToReal_eq, hp2r, hsome, ← hcp]
    simp only [if_true, lookupRes_some hk]
    exact decodeChannelPoint_Sprintf txid index ht hi

theorem HideChanPoint_RevealChanPoint_roundtrip_witness :
    RevealChanPoint (privacyMapTx 7)
      (HideChanPoint (privacyMapTx 7) emptyTx zeroRand "ab" 3).2
      "aaaaaaaaaaaaaaaaaaaaaaaaaaaaaaaaaaaaaaaaaaaaaaaaaaaaaaaaaaaaaaaa" 0 = .ok ("ab", 3) :=
  HideChanPoint_RevealChanPoint_roundtrip 7 emptyTx _ zeroRand "ab" 3
    "aaaaaaaaaaaaaaaaaaaaaaaaaaaaaaaaaaaaaaaaaaaaaaaaaaaaaaaaaaaaaaaa" 0 (by decide) (by decide)
    (by decide) (Prod.ext (by decide) rfl)

/-! ## C8: Hide on a miss -/

/-- C8, as amended. Hide on a miss on the bbolt store: for a non-empty real
string `x` of at most `MaxKeySize` bytes with no real-to-pseudo entry, in a
writable transaction and with no read error of the random source,
`HideString` returns a pseudonym of exactly `len(x)` characters, each from the
alphabet "abcdef0123456789", and the resulting state holds `RealToPseudo(x) = p`
and `PseudoToReal(p) = x`. -/
theorem HideString_miss (sid : SessionID) (tx : BoltTx) (rnd : Rand) (x : String)
    (hmiss : (privacyMapTx sid).RealToPseudo tx x = .err .ErrNoSuchKeyFound)
    (hx0 : x.utf8ByteSize ≠ 0) (hx1 : x.utf8ByteSize ≤ MaxKeySize)
    (hw : tx.writable = true)
    (hrnd : ∀ i, i < x.utf8ByteSize → (rnd.Int i).isSome = true) :
    ∃ p tx1, HideString (privacyMapTx sid) tx rnd x = (.ok p, tx1) ∧
      p.length = x.utf8ByteSize ∧ (∀ c ∈ p.data, c ∈ pseudoStrAlphabet) ∧
      (privacyMapTx sid).RealToPseudo tx1 x = .ok p ∧
      (privacyMapTx sid).PseudoToReal tx1 p = .ok x := by
  obtain ⟨l, hl⟩ := fill_total rnd x.utf8ByteSize 0 (fun j hj => by simpa using hrnd j hj)
  have hnew : NewPseudoStr rnd x.utf8ByteSize = .ok (String.mk l) := by
    simp only [NewPseudoStr, hl]
  obtain ⟨hlen, hmem, hsize⟩ := NewPseudoStr_ok hnew
  have hsome : tx.privacy.isSome = true := by
    rw [RealToPseudo_eq] at hmiss
    cases hp : tx.privacy.isSome with
    | true => rfl
    | false => simp [lookupRes, hp] at hmiss
  obtain ⟨tx1, hpair⟩ := NewPair_total sid tx x (String.mk l) hw hsome hx0 hx1
    (by omega) (by omega)
  obtain ⟨_, hq0, hs1, _, hr2p, hp2r⟩ := NewPair_ok hpair
  refine ⟨String.mk l, tx1, ?_, hlen, hmem, ?_, ?_⟩
  · simp only [HideString, hmiss, ne_eq, not_true_eq_false, if_false, hnew, hpair]
  · rw [RealToPseudo_eq, hr2p, hs1]
    simp only [if_true, lookupRes_some hq0]
  · rw [PseudoToReal_eq, hp2r, hs1]
    simp only [if_true, lookupRes_some hx0]

theorem HideString_miss_witness :
    ∃ p tx1, HideString (privacyMapTx 7) emptyTx zeroRand "xyz" = (.ok p, tx1) ∧
      p.length = "xyz".utf8ByteSize ∧ (∀ c ∈ p.data, c ∈ pseudoStrAlphabet) ∧
      (privacyMapTx 7).RealToPseudo tx1 "xyz" = .ok p ∧
      (privacyMapTx 7).PseudoToReal tx1 p = .ok "xyz" :=
  HideString_miss 7 emptyTx zeroRand "xyz" (by decide) (by decide) (by decide) rfl
    (fun _ _ => rfl)

/-- C8, counterexample. The empty real string has no real-to-pseudo entry, yet
`HideString` returns no pseudonym for it on the bbolt store: `NewPair` puts it
as a key and bbolt refuses a blank key with `ErrKeyRequired`. -/
theorem HideString_empty_counterexample :
    (privacyMapTx 7).RealToPseudo emptyTx "" = .err .ErrNoSuchKeyFound ∧
      (HideString (privacyMapTx 7) emptyTx zeroRand "").1 = .err .ErrKeyRequired := by
  decide

/-! ## C9: Hide on a hit -/

/-- C9. Hide on a hit, for every implementation of the transaction interface:
in a state where `RealToPseudo(x)` returns `p`, `HideString` returns `p` and
leaves the state as it was, whatever the random source would yield (none of
it is drawn). -/
theorem HideString_hit {σ : Type} (tx : PrivacyMapTx σ) (s : σ) (rnd : Rand) (x p : String)
    (h : tx.RealToPseudo s x = .ok p) : HideString tx s rnd x = (.ok p, s) := by
  simp only [HideString, h]

theorem HideString_hit_witness :
    HideString mockTx newMockDB ⟨fun _ => none, fun _ => 0⟩ "Tinker Bell\x27s pub key"
      = (.ok "a44ef01c3bff970ef495c", newMockDB) :=
  HideString_hit mockTx newMockDB ⟨fun _ => none, fun _ => 0⟩ "Tinker Bell\x27s pub key"
    "a44ef01c3bff970ef495c" (by decide)

/-! ## C10: HideUint64 on a hit -/

/-- C10. HideUint64 on a hit, for every implementation of the transaction
interface: in a state where the key `Uint64ToStr(x)` maps to a string of
sixteen hex digits, `HideUint64` returns the big-endian integer value of that
string and leaves the state as it was, whatever the random source would
yield; so every invocation gives the same pseudonym. -/
theorem HideUint64_hit {σ : Type} (tx : PrivacyMapTx σ) (s : σ) (rnd : Rand) (x : Nat)
    (str : String) (h : tx.RealToPseudo s (Uint64ToStr x) = .ok str)
    (hlen : str.length = 16) (hhex : ∀ c ∈ str.data, (fromHexChar c).isSome = true) :
    HideUint64 tx s rnd x = (.ok (hexValue str.data 0), s) := by
  simp only [HideUint64, h, StrToUint64_hex16 str hlen hhex]

theorem HideUint64_hit_witness :
    Uint64ToStr 123 = "000000000000007b" ∧
      mockTx.RealToPseudo newMockDB "000000000000007b" = .ok "47deb774fc605c56" ∧
      HideUint64 mockTx newMockDB zeroRand 123 = (.ok 5178778334600911958, newMockDB) :=
  ⟨by decide, by decide,
    HideUint64_hit mockTx newMockDB zeroRand 123 "47deb774fc605c56" (by decide) (by decide)
      (by decide)⟩

/-! ## C11: Channel points on a preloaded pair -/

/-- C11. Channel points on a preloaded pair, for every implementation of the
transaction interface: in a state that maps the real channel point
"rt:ri" to the pseudo channel point "pt:pi" and back, with `rt` and `pt` free
of ':' and `ri`, `pi` uint32 values printed in decimal, `RevealChanPoint(pt, pi)`
returns `(rt, ri)`, `HideChanPoint(rt, ri)` returns `(pt, pi)` and
`HideChanPointStr("rt:ri")` returns "pt:pi", and the Hide calls leave the state
as it was. -/
theorem ChanPoint_preloaded {σ : Type} (tx : PrivacyMapTx σ) (s : σ) (rnd : Rand)
    (rt pt : String) (ridx pidx : Nat)
    (hrt : ':' ∉ rt.data) (hpt : ':' ∉ pt.data) (hri : ridx < 2 ^ 32) (hpi : pidx < 2 ^ 32)
    (hr2p : tx.RealToPseudo s (Sprintf rt ridx) = .ok (Sprintf pt pidx))
    (hp2r : tx.PseudoToReal s (Sprintf pt pidx) = .ok (Sprintf rt ridx)) :
    RevealChanPoint tx s pt pidx = .ok (rt, ridx) ∧
      HideChanPoint tx s rnd rt ridx = (.ok (pt, pidx), s) ∧
      HideChanPointStr tx s rnd (Sprintf rt ridx) = (.ok (Sprintf pt pidx), s) := by
  have hdr := decodeChannelPoint_Sprintf rt ridx hrt hri
  have hdp := decodeChannelPoint_Sprintf pt pidx hpt hpi
  have hhide : HideChanPoint tx s rnd rt ridx = (.ok (pt, pidx), s) := by
    simp only [HideChanPoint, hr2p, hdp]
  refine ⟨?_, hhide, ?_⟩
  · simp only [RevealChanPoint, hp2r, hdr]
  · simp only [HideChanPointStr, hdr, hhide]

/-- The pair of `TestPrivacyMapper` for the channel point with index 0, on the
preloaded store of the test. -/
theorem ChanPoint_preloaded_witness :
    RevealChanPoint mockTx newMockDB
        "097ef666a61919ff3413b3b701eae3a5cbac08f70c0ca567806e1fa6acbfe384" 2161781494
        = .ok ("abcdefabcdefabcdefabcdefabcdefabcdefabcdefabcdefabcdefabcdefabcd", 0) ∧
      HideChanPoint mockTx newMockDB zeroRand
        "abcdefabcdefabcdefabcdefabcdefabcdefabcdefabcdefabcdefabcdefabcd" 0
        = (.ok ("097ef666a61919ff3413b3b701eae3a5cbac08f70c0ca567806e1fa6acbfe384",
            2161781494), newMockDB) ∧
      HideChanPointStr mockTx newMockDB zeroRand
        (Sprintf "abcdefabcdefabcdefabcdefabcdefabcdefabcdefabcdefabcdefabcdefabcd" 0)
        = (.ok (Sprintf "097ef666a61919ff3413b3b701eae3a5cbac08f70c0ca567806e1fa6acbfe384"
            2161781494), newMockDB) :=
  ChanPoint_preloaded mockTx newMockDB zeroRand
    "abcdefabcdefabcdefabcdefabcdefabcdefabcdefabcdefabcdefabcdefabcd"
    "097ef666a61919ff3413b3b701eae3a5cbac08f70c0ca567806e1fa6acbfe384" 0 2161781494
    (by decide) (by decide) (by decide) (by decide) (by decide) (by decide)

/-! ## C12: Reveal passes the zero value through -/

/-- C12. Reveal passes the zero value through, for every implementation of the
transaction interface and every state: `RevealString("")` returns "",
`RevealUint64(0)` returns 0 and `RevealBytes(nil)` returns nil, without error.
The results do not depend on the lookups of the transaction, and the Reveal
functions have no way to write. -/
theorem Reveal_zero {σ : Type} (tx : PrivacyMapTx σ) (s : σ) :
    RevealString tx s "" = .ok "" ∧ RevealUint64 tx s 0 = .ok 0 ∧
      RevealBytes tx s none = .ok none := by
  refine ⟨?_, ?_, ?_⟩
  · simp only [RevealString, if_true]
  · simp only [RevealUint64, if_true]
  · simp only [RevealBytes]

/-! ## C13: Lookup miss -/

/-- C13, as amended. Lookup miss on the bbolt store, in a transaction whose
top-level bucket exists: `RealToPseudo(real)` returns `ErrNoSuchKeyFound` if and
only if the session holds no real-to-pseudo entry for `real` or holds the empty
value for it (a session without buckets holds no entry), and returns every
other stored value; `PseudoToReal` behaves in the same way on pseudo-to-real;
and `RevealString` of a non-empty pseudonym returns `ErrNoSuchKeyFound` when
`PseudoToReal` does. -/
theorem lookup_miss (sid : SessionID) (tx : BoltTx) (k : String)
    (hpriv : tx.privacy.isSome = true) :
    ((privacyMapTx sid).RealToPseudo tx k = .err .ErrNoSuchKeyFound ↔
        (r2pView sid tx k = none ∨ r2pView sid tx k = some "")) ∧
      (∀ v, r2pView sid tx k = some v → v ≠ "" →
        (privacyMapTx sid).RealToPseudo tx k = .ok v) ∧
      ((privacyMapTx sid).PseudoToReal tx k = .err .ErrNoSuchKeyFound ↔
        (p2rView sid tx k = none ∨ p2rView sid tx k = some "")) ∧
      (∀ v, p2rView sid tx k = some v → v ≠ "" →
        (privacyMapTx sid).PseudoToReal tx k = .ok v) ∧
      (∀ priv, tx.privacy = some priv → priv sid = none →
        (privacyMapTx sid).RealToPseudo tx k = .err .ErrNoSuchKeyFound ∧
          (privacyMapTx sid).PseudoToReal tx k = .err .ErrNoSuchKeyFound) ∧
      (k ≠ "" → (p2rView sid tx k = none ∨ p2rView sid tx k = some "") →
        RevealString (privacyMapTx sid) tx k = .err .ErrNoSuchKeyFound) := by
  have hne : ∀ v : String, v ≠ "" → v.utf8ByteSize ≠ 0 :=
    fun v hv h => hv ((utf8ByteSize_eq_zero_iff v).mp h)
  have h1 : (privacyMapTx sid).RealToPseudo tx k = .err .ErrNoSuchKeyFound ↔
      (r2pView sid tx k = none ∨ r2pView sid tx k = some "") := by
    rw [RealToPseudo_eq, lookupRes_miss_iff, hpriv]
    simp
  have h2 : (privacyMapTx sid).PseudoToReal tx k = .err .ErrNoSuchKeyFound ↔
      (p2rView sid tx k = none ∨ p2rView sid tx k = some "") := by
    rw [PseudoToReal_eq, lookupRes_miss_iff, hpriv]
    simp
  refine ⟨h1, ?_, h2, ?_, ?_, ?_⟩
  · intro v hv hv0
    rw [RealToPseudo_eq, hv, hpriv, lookupRes_some (hne v hv0)]
  · intro v hv hv0
    rw [PseudoToReal_eq, hv, hpriv, lookupRes_some (hne v hv0)]
  · intro priv hp hs
    refine ⟨h1.mpr (Or.inl ?_), h2.mpr (Or.inl ?_)⟩
    · simp [r2pView, hp, hs, Bucket.empty]
    · simp [p2rView, hp, hs, Bucket.empty]
  · intro hk hv
    simp only [RevealString, hk, if_false]
    exact h2.mpr hv

/-- The lookups on the store that holds the pair ("xyz", "aaa") in session 7:
the stored pseudonym is returned, another key is a miss. -/
theorem lookup_miss_witness :
    (privacyMapTx 7).RealToPseudo oneEntryTx "xyz" = .ok "aaa" ∧
      (privacyMapTx 7).RealToPseudo oneEntryTx "abc" = .err .ErrNoSuchKeyFound :=
  ⟨(lookup_miss 7 oneEntryTx "xyz" rfl).2.1 "aaa" (by decide) (by decide),
    (lookup_miss 7 oneEntryTx "abc" rfl).1.mpr (Or.inl (by decide))⟩

/-- C13, counterexample. After `NewPair("a", "")` has failed with
`ErrKeyRequired` on its second `Put`, the session holds the real-to-pseudo
entry of "a" (with the empty value), and `RealToPseudo("a")` returns
`ErrNoSuchKeyFound` all the same. -/
theorem RealToPseudo_empty_value_counterexample :
    ((privacyMapTx 7).NewPair emptyTx "a" "").2 = some .ErrKeyRequired ∧
      r2pView 7 emptyValueTx "a" = some "" ∧
      (privacyMapTx 7).RealToPseudo emptyValueTx "a" = .err .ErrNoSuchKeyFound := by
  decide

/-! ## C14: Read-your-writes -/

/-- C14. Read-your-writes: after `NewPair(real, pseudo)` has succeeded in a
transaction on the bbolt store, from whatever state, `RealToPseudo(real)`
returns `pseudo` and `PseudoToReal(pseudo)` returns `real` in the state it left;
the same holds for the store of the tests, whose `NewPair` always succeeds. -/
theorem read_your_writes (sid : SessionID) (tx tx1 : BoltTx) (real pseudo : String)
    (h : (privacyMapTx sid).NewPair tx real pseudo = (tx1, none)) :
    ((privacyMapTx sid).RealToPseudo tx1 real = .ok pseudo ∧
        (privacyMapTx sid).PseudoToReal tx1 pseudo = .ok real) ∧
      ∀ m : mockPrivacyMapDB,
        mockTx.RealToPseudo (mockTx.NewPair m real pseudo).1 real = .ok pseudo ∧
          mockTx.PseudoToReal (mockTx.NewPair m real pseudo).1 pseudo = .ok real := by
  obtain ⟨h1, h2⟩ := NewPair_lookup h
  refine ⟨⟨?_, ?_⟩, fun m => ⟨?_, ?_⟩⟩
  · rw [h1 real]; simp only [if_true]
  · rw [h2 pseudo]; simp only [if_true]
  · simp [mockTx]
  · simp [mockTx]

theorem read_your_writes_witness :
    (privacyMapTx 7).RealToPseudo ((privacyMapTx 7).NewPair oneEntryTx "a" "b").1 "a" = .ok "b" ∧
      (privacyMapTx 7).PseudoToReal ((privacyMapTx 7).NewPair oneEntryTx "a" "b").1 "b"
        = .ok "a" :=
  (read_your_writes 7 oneEntryTx _ "a" "b" (Prod.ext rfl (by decide))).1

/-! ## C15: Update is atomic -/

/-- C15. Update is atomic: when the transaction has begun and `f` returns an
error on it, `Update(f)` returns that same error and the database is as it was
before, whatever `f` wrote in the transaction; when `f` returns no error,
`Update` commits what `f` left in the transaction and returns the result of
`Commit` (on a failed commit the database is as it was before). -/
theorem Update_atomic (db : DB) (bolt : BoltCalls) (f : TxFunc) (hbegin : bolt.Begin = none) :
    (∀ e tx1, f ⟨true, db.privacy⟩ = (.err e, tx1) →
      privacyMapDB.Update db bolt f = (.err e, db)) ∧
    (∀ u tx1, f ⟨true, db.privacy⟩ = (.ok u, tx1) →
      (bolt.Commit = none → privacyMapDB.Update db bolt f = (.ok (), ⟨tx1.privacy⟩)) ∧
      (∀ e, bolt.Commit = some e → privacyMapDB.Update db bolt f = (.err e, db))) := by
  refine ⟨fun e tx1 hf => ?_, fun u tx1 hf => ⟨fun hc => ?_, fun e hc => ?_⟩⟩
  · simp only [privacyMapDB.Update, privacyMapDB.beginTx, hbegin, hf]
  · simp only [privacyMapDB.Update, privacyMapDB.beginTx, hbegin, hf, hc]
  · simp only [privacyMapDB.Update, privacyMapDB.beginTx, hbegin, hf, hc]

/-- An `Update` whose function inserts the pair ("a", "b") and then fails: the
pair is in the transaction, the error is returned and the database is as
before; and an `Update` that inserts the pair and returns no error: the pair is
read back from the committed database. -/
theorem Update_atomic_witness :
    (privacyMapTx 7).RealToPseudo (insertThenFail ⟨true, emptyDB.privacy⟩).2 "a" = .ok "b" ∧
      privacyMapDB.Update emptyDB ⟨none, none, none⟩ insertThenFail
        = (.err .ErrKeyRequired, emptyDB) ∧
      (privacyMapTx 7).RealToPseudo
        ⟨false, (privacyMapDB.Update emptyDB ⟨none, none, none⟩ insertPair).2.privacy⟩ "a"
        = .ok "b" :=
  ⟨by decide,
    (Update_atomic emptyDB ⟨none, none, none⟩ insertThenFail rfl).1 .ErrKeyRequired
      (insertThenFail ⟨true, emptyDB.privacy⟩).2 (Prod.ext (by decide) rfl),
    by decide⟩

/-! ## C16: View is read-only -/

/-- C16. View is read-only: the database after `View(f)` is the database before
it, for every `f` and every answer of bbolt; when the transaction has begun and
`f` returns an error, `View` returns exactly that error, also when `Rollback`
fails; and `NewPair` leaves the read-only transaction of `View` as it was. -/
theorem View_read_only (db : DB) (bolt : BoltCalls) (f : TxFunc) :
    (privacyMapDB.View db bolt f).2 = db ∧
      (bolt.Begin = none → ∀ e tx1, f ⟨false, db.privacy⟩ = (.err e, tx1) →
        (privacyMapDB.View db bolt f).1 = .err e) ∧
      (∀ sid real pseudo,
        ((privacyMapTx sid).NewPair ⟨false, db.privacy⟩ real pseudo).1
          = ⟨false, db.privacy⟩) := by
  refine ⟨?_, fun hbegin e tx1 hf => ?_, fun sid real pseudo => ?_⟩
  · simp only [privacyMapDB.View, privacyMapDB.beginTx]
    cases bolt.Begin with
    | some e => rfl
    | none =>
      dsimp only
      generalize f ⟨false, db.privacy⟩ = r
      rcases r with ⟨_ | _ | _, tx1⟩
      · dsimp only
        cases bolt.Rollback <;> rfl
      · rfl
      · rfl
  · simp only [privacyMapDB.View, privacyMapDB.beginTx, hbegin, hf]
  · simp only [privacyMapTx, privacyMapTx.NewPair, getBucket]
    cases db.privacy <;> rfl

/-- A `View` whose function tries to insert a pair: it gets `ErrTxNotWritable`,
and `View` returns that error although `Rollback` fails with another one. -/
theorem View_read_only_witness :
    (privacyMapDB.View emptyDB ⟨none, none, some .ErrBucketNotFound⟩ insertPair).1
      = .err .ErrTxNotWritable :=
  (View_read_only emptyDB ⟨none, none, some .ErrBucketNotFound⟩ insertPair).2.1 rfl
    .ErrTxNotWritable (insertPair ⟨false, emptyDB.privacy⟩).2 (Prod.ext (by decide) rfl)

/-! ## C17: Session isolation -/

/-- C17. Session isolation on the bbolt store: for two distinct session ids
`sid` and `sid1`, neither `NewPair` nor any Hide call in a transaction of `sid`
changes what `RealToPseudo` and `PseudoToReal` return under `sid1`; and a key
that `NewPair` has stored under `sid`, and that `sid1` does not hold, is found
under `sid` and gives `ErrNoSuchKeyFound` under `sid1`. -/
theorem session_isolation (sid sid1 : SessionID) (hne : sid ≠ sid1) (s : BoltTx) :
    (∀ real pseudo k,
      (privacyMapTx sid1).RealToPseudo ((privacyMapTx sid).NewPair s real pseudo).1 k
          = (privacyMapTx sid1).RealToPseudo s k ∧
        (privacyMapTx sid1).PseudoToReal ((privacyMapTx sid).NewPair s real pseudo).1 k
          = (privacyMapTx sid1).PseudoToReal s k) ∧
    (∀ c rnd k,
      (privacyMapTx sid1).RealToPseudo (runHide (privacyMapTx sid) s rnd c).2 k
          = (privacyMapTx sid1).RealToPseudo s k ∧
        (privacyMapTx sid1).PseudoToReal (runHide (privacyMapTx sid) s rnd c).2 k
          = (privacyMapTx sid1).PseudoToReal s k) ∧
    (∀ real pseudo s1, (privacyMapTx sid).NewPair s real pseudo = (s1, none) →
      r2pView sid1 s real = none →
        (privacyMapTx sid).RealToPseudo s1 real = .ok pseudo ∧
          (privacyMapTx sid1).RealToPseudo s1 real = .err .ErrNoSuchKeyFound) := by
  have hpair : ∀ real pseudo k,
      (privacyMapTx sid1).RealToPseudo ((privacyMapTx sid).NewPair s real pseudo).1 k
          = (privacyMapTx sid1).RealToPseudo s k ∧
        (privacyMapTx sid1).PseudoToReal ((privacyMapTx sid).NewPair s real pseudo).1 k
          = (privacyMapTx sid1).PseudoToReal s k := by
    intro real pseudo k
    obtain ⟨h1, h2, h3⟩ := NewPair_other_session sid sid1 hne s real pseudo
    exact lookups_eq_of_views h1 h2 h3 k
  refine ⟨hpair, ?_, ?_⟩
  · intro c rnd k
    rcases runHide_state (privacyMapTx sid) s rnd c with h | ⟨k1, q, h⟩
    · rw [h]
      exact ⟨rfl, rfl⟩
    · rw [h]
      exact hpair k1 q k
  · intro real pseudo s1 hnew hnone
    refine ⟨?_, ?_⟩
    · rw [(NewPair_lookup hnew).1 real]
      simp only [if_true]
    · have h := (hpair real pseudo real).1
      rw [hnew] at h
      rw [h, RealToPseudo_eq, hnone, NewPair_isSome hnew]
      rfl

/-- A pair stored under session 7 on the empty store: found under session 7, a
miss under session 8. -/
theorem session_isolation_witness :
    (privacyMapTx 7).RealToPseudo ((privacyMapTx 7).NewPair emptyTx "a" "b").1 "a" = .ok "b" ∧
      (privacyMapTx 8).RealToPseudo ((privacyMapTx 7).NewPair emptyTx "a" "b").1 "a"
        = .err .ErrNoSuchKeyFound :=
  (session_isolation 7 8 (by decide) emptyTx).2.2 "a" "b" _ (Prod.ext rfl (by decide))
    (by decide)

/-! ## C18: Integer key encoding -/

/-- C18. Integer key encoding: for a uint64 `i`, `Uint64ToStr(i)` has exactly 16
characters, all lower-case hex digits; they spell the eight bytes of `i` in
big-endian order, so that read as one base-16 number they give `i`;
`StrToUint64(Uint64ToStr(i))` returns `i` without error; and `Uint64ToStr` is
injective on the uint64 values. -/
theorem Uint64ToStr_spec (i : Nat) (hi : i < 2 ^ 64) :
    (Uint64ToStr i).length = 16 ∧ (∀ c ∈ (Uint64ToStr i).data, c ∈ hextable) ∧
      DecodeString (Uint64ToStr i) = .ok (PutUint64 i) ∧ bytesValue (PutUint64 i) 0 = i ∧
      hexValue (Uint64ToStr i).data 0 = i ∧
      StrToUint64 (Uint64ToStr i) = .ok i ∧
      (∀ j, j < 2 ^ 64 → Uint64ToStr i = Uint64ToStr j → i = j) := by
  have hlen : (PutUint64 i).length = 8 := rfl
  have hdec : DecodeString (Uint64ToStr i) = .ok (PutUint64 i) :=
    DecodeString_EncodeToString (PutUint64 i)
  have hval : bytesValue (PutUint64 i) 0 = i := by
    have h1 := Uint64_eight (PutUint64 i) hlen
    rw [Uint64_PutUint64 i hi] at h1
    simp only [Res.ok.injEq] at h1
    exact h1.symm
  refine ⟨?_, ?_, hdec, hval, ?_, StrToUint64_Uint64ToStr i hi, ?_⟩
  · show (hexEncode (PutUint64 i)).length = 16
    rw [hexEncode_length, hlen]
  · exact hexEncode_mem (PutUint64 i)
  · rw [← hexDecode_value _ _ hdec 0, hval]
  · intro j hj h
    have h1 := StrToUint64_Uint64ToStr i hi
    rw [h, StrToUint64_Uint64ToStr j hj] at h1
    simp only [Res.ok.injEq] at h1
    exact h1.symm

/-- The key of the channel id 123 of the tests. -/
theorem Uint64ToStr_spec_witness :
    Uint64ToStr 123 = "000000000000007b" ∧ StrToUint64 (Uint64ToStr 123) = .ok 123 :=
  ⟨by decide, (Uint64ToStr_spec 123 (by decide)).2.2.2.2.2.1⟩

/-! ## C19: HideBytes preserves length -/

/-- C19, as amended. HideBytes preserves length on the bbolt store: in a state
where `hex(b)` is unmapped, every slice that `HideBytes(b)` returns has exactly
`len(b)` bytes, whatever the random source yields; and `HideBytes(b)` does
return a slice when `b` is not empty and has at most `MaxKeySize / 2` bytes,
the transaction is writable and the random source has no read error. -/
theorem HideBytes_length (sid : SessionID) (tx : BoltTx) (rnd : Rand) (b : Slice)
    (hmiss : (privacyMapTx sid).RealToPseudo tx (EncodeToString b.content)
      = .err .ErrNoSuchKeyFound) :
    (∀ q tx1, HideBytes (privacyMapTx sid) tx rnd b = (.ok q, tx1) →
      q.content.length = b.content.length) ∧
    (b.content ≠ [] → 2 * b.content.length ≤ MaxKeySize → tx.writable = true →
      (∀ i, i < 2 * b.content.length → (rnd.Int i).isSome = true) →
      ∃ q tx1, HideBytes (privacyMapTx sid) tx rnd b = (.ok q, tx1)) := by
  have hsize := EncodeToString_size b.content
  have hdecode : ∀ p, NewPseudoStr rnd (EncodeToString b.content).utf8ByteSize = .ok p →
      ∃ bs, DecodeString p = .ok bs ∧ bs.length = b.content.length := by
    intro p hp
    obtain ⟨hlen, hmem, -⟩ := NewPseudoStr_ok hp
    exact hexDecode_ok b.content.length p.data (by rw [← hsize]; exact hlen)
      (fun c hc => (alphabet_facts c (hmem c hc)).2.2.2)
  constructor
  · intro q tx1 h
    obtain ⟨pseudo, bs, hhide, hdec, rfl⟩ := HideBytes_ok h
    rcases HideString_ok hhide with ⟨hhit, -⟩ | ⟨-, hnew, -⟩
    · rw [hmiss] at hhit; cases hhit
    · obtain ⟨bs1, hbs1, hl⟩ := hdecode pseudo hnew
      rw [hdec] at hbs1
      cases hbs1
      exact hl
  · intro hb0 hb1 hw hrnd
    have hlen0 : b.content.length ≠ 0 := fun h => hb0 (List.length_eq_zero.mp h)
    obtain ⟨p, tx1, hhide, hnew⟩ := HideString_miss_ok sid tx rnd (EncodeToString b.content)
      hmiss (by omega) (by omega) hw (fun i hi => hrnd i (by omega))
    obtain ⟨bs, hdec, -⟩ := hdecode p hnew
    exact ⟨some bs, tx1, by simp only [HideBytes, hhide, hdec]⟩

/-- The two bytes 1, 2 on the empty store, with every draw the index 0: they
are hidden as the two bytes 0xaa, 0xaa. -/
theorem HideBytes_length_witness :
    (HideBytes (privacyMapTx 7) emptyTx zeroRand (some [1, 2])).1 = .ok (some [0xaa, 0xaa]) ∧
      Slice.content (some [0xaa, 0xaa]) = [0xaa, 0xaa] ∧
      (Slice.content (some [0xaa, 0xaa])).length = (Slice.content (some [1, 2])).length :=
  ⟨by decide, rfl,
    (HideBytes_length 7 emptyTx zeroRand (some [1, 2]) (by decide)).1 (some [0xaa, 0xaa]) _
      (Prod.ext (by decide) rfl)⟩

/-- C19, counterexample. On the empty store `hex(b)` is unmapped for the empty
slice `b`, and `HideBytes(b)` does not succeed: the hex string is blank and
bbolt refuses it as a key with `ErrKeyRequired`. -/
theorem HideBytes_empty_counterexample :
    (privacyMapTx 7).RealToPseudo emptyTx (EncodeToString (Slice.content (some [])))
        = .err .ErrNoSuchKeyFound ∧
      (HideBytes (privacyMapTx 7) emptyTx zeroRand (some [])).1 = .err .ErrKeyRequired := by
  decide

/-! ## C20: Pseudo channel point shape -/

/-- C20. Pseudo channel point shape, amended: for every outcome of the random
source in which none of the 64 draws fails with a read error,
`NewPseudoChanPoint` returns a string; every string that it returns is 64
characters of the alphabet "abcdef0123456789", one ':' and the decimal form
of a uint32 (the one `NewPseudoUint32` reads), and `decodeChannelPoint` of it
returns exactly that txid and that index; and when one of the 64 draws fails,
`NewPseudoChanPoint` returns the read error and no string. -/
theorem NewPseudoChanPoint_shape (rnd : Rand) :
    (∀ newCp, NewPseudoChanPoint rnd = .ok newCp →
      ∃ txid index, newCp = txid ++ ":" ++ Nat.repr index ∧
        txid.length = 64 ∧ (∀ c ∈ txid.data, c ∈ pseudoStrAlphabet) ∧
        newCp.data.count ':' = 1 ∧
        index = NewPseudoUint32 rnd ∧ index < 2 ^ 32 ∧
        (∀ c ∈ (Nat.repr index).data, c ∈ decDigits) ∧
        decVal (Nat.repr index).data 0 = index ∧
        decodeChannelPoint newCp = .ok (txid, index)) ∧
    ((∀ i, i < 64 → (rnd.Int i).isSome = true) →
      ∃ newCp, NewPseudoChanPoint rnd = .ok newCp) ∧
    ((∃ i, i < 64 ∧ rnd.Int i = none) → NewPseudoChanPoint rnd = .err .ErrRandRead) := by
  refine ⟨?_, ?_, ?_⟩
  rotate_left 2
  · intro hfail
    obtain ⟨i, hi, hn⟩ := hfail
    have hf := fill_fail rnd 64 0 ⟨i, hi, by rw [Nat.zero_add]; exact hn⟩
    simp only [NewPseudoChanPoint, NewPseudoStr, txidStringLen, hf]
  · intro newCp h
    obtain ⟨p, hp, hcp, hdec⟩ := NewPseudoChanPoint_ok h
    obtain ⟨hlen, hmem, -⟩ := NewPseudoStr_ok hp
    have hc : ':' ∉ p.data := fun hm => (alphabet_facts _ (hmem _ hm)).2.2.1 rfl
    refine ⟨p, NewPseudoUint32 rnd, hcp, hlen, hmem, ?_, rfl, NewPseudoUint32_lt rnd,
      repr_data_mem _, repr_decVal _, hdec⟩
    rw [hcp]
    exact Sprintf_count p _ hc
  · intro hrnd
    obtain ⟨l, hl⟩ := fill_total rnd 64 0 (fun j hj => by simpa using hrnd j hj)
    exact ⟨Sprintf (String.mk l) (NewPseudoUint32 rnd),
      by simp only [NewPseudoChanPoint, NewPseudoStr, txidStringLen, hl]⟩

/-- The pseudo channel point for draws of the index 0 and bytes 0, and the read
error for draws that fail. -/
theorem NewPseudoChanPoint_shape_witness :
    NewPseudoChanPoint zeroRand
        = .ok "aaaaaaaaaaaaaaaaaaaaaaaaaaaaaaaaaaaaaaaaaaaaaaaaaaaaaaaaaaaaaaaa:0" ∧
      (∃ newCp, NewPseudoChanPoint zeroRand = .ok newCp) ∧
      NewPseudoChanPoint failingRand = .err .ErrRandRead :=
  ⟨by decide, (NewPseudoChanPoint_shape zeroRand).2.1 (fun _ _ => rfl),
    (NewPseudoChanPoint_shape failingRand).2.2 ⟨0, by decide, rfl⟩⟩

/-- C20, counterexample. For the random source whose every draw fails with a
read error, `NewPseudoChanPoint` returns that error and no string. -/
theorem NewPseudoChanPoint_read_error_counterexample :
    NewPseudoChanPoint failingRand = .err .ErrRandRead ∧
      ¬ ∃ newCp, NewPseudoChanPoint failingRand = .ok newCp := by
  have h : NewPseudoChanPoint failingRand = .err .ErrRandRead := by decide
  refine ⟨h, ?_⟩
  rintro ⟨newCp, hc⟩
  rw [h] at hc
  cases hc

end Firewalldb

namespace Accounts

/-! ## C21: CheckBalance -/

/-- C21: for an account of the store and an amount, `CheckBalance` succeeds exactly
when the amount is at most the current balance less the sum of `FullAmount`
over the payments whose status is Unknown or InFlight, and otherwise it
returns `ErrAccBalanceInsufficient`. -/
theorem CheckBalance_available (s : InterceptorService) (id : AccountID)
    (account : OffChainBalanceAccount) (amt : Nat) (ha : s.accounts id = some account) :
    (CheckBalance s id amt = none ↔
      (amt : Int) ≤ account.CurrentBalance -
        (((account.Payments.filter
          (fun p => decide (p.2.Status = .Unknown ∨ p.2.Status = .InFlight))).map
          (fun p => p.2.FullAmount)).sum : Nat)) ∧
    (CheckBalance s id amt ≠ none →
      CheckBalance s id amt = some .ErrAccBalanceInsufficient) := by
  have hc : CheckBalance s id amt =
      if availableAmount account < (amt : Int) then some .ErrAccBalanceInsufficient
      else none := by
    simp only [CheckBalance, ha]
  rw [hc, availableAmount, inFlightAmt_sum]
  constructor
  · constructor
    · intro h
      by_contra hn
      rw [if_pos (by omega)] at h
      cases h
    · intro h
      rw [if_neg (by omega)]
  · intro h
    split_ifs at h ⊢
    · rfl
    · exact absurd rfl h

theorem CheckBalance_available_witness :
    CheckBalance (Start [inFlightAccount] (0, 0)) testID 2000 = none ∧
    CheckBalance (Start [inFlightAccount] (0, 0)) testID 2001 =
      some .ErrAccBalanceInsufficient ∧
    CheckBalance (paymentUpdate (Start [inFlightAccount] (0, 0)) testHash ⟨.Failed, 0, 0⟩)
      testID 4000 = none :=
  ⟨(CheckBalance_available (Start [inFlightAccount] (0, 0)) testID inFlightAccount 2000
      rfl).1.mpr (by decide),
    (CheckBalance_available (Start [inFlightAccount] (0, 0)) testID inFlightAccount 2001
      rfl).2 (by decide),
    by decide⟩

/-! ## C22: Payment state machine debit -/

/-- C22: for an account with a pending payment entry for a hash, a Succeeded
update with a fee and a value lowers the current balance by exactly value
plus fee, whatever amount was reserved, sets the status of the entry to
Succeeded, keeps the hash in the payments and removes it from the pending
payments; a Failed update leaves the balance as it was, sets the status to
Failed and removes the hash from the pending payments. -/
theorem paymentUpdate_terminal (s : InterceptorService) (hash : Hash)
    (account : OffChainBalanceAccount) (entry : PaymentEntry) (fee value : Nat)
    (hp : s.pendingPayments hash = some account.ID)
    (ha : s.accounts account.ID = some account)
    (he : account.Payments.lookup hash = some entry)
    (hs : entry.Status = .Unknown ∨ entry.Status = .InFlight) :
    (∃ a1 e1, (paymentUpdate s hash ⟨.Succeeded, fee, value⟩).accounts account.ID = some a1 ∧
      a1.CurrentBalance = account.CurrentBalance - ((value + fee : Nat) : Int) ∧
      a1.Payments.lookup hash = some e1 ∧ e1.Status = .Succeeded ∧
      (paymentUpdate s hash ⟨.Succeeded, fee, value⟩).pendingPayments hash = none) ∧
    (∃ a2 e2, (paymentUpdate s hash ⟨.Failed, fee, value⟩).accounts account.ID = some a2 ∧
      a2.CurrentBalance = account.CurrentBalance ∧
      a2.Payments.lookup hash = some e2 ∧ e2.Status = .Failed ∧
      (paymentUpdate s hash ⟨.Failed, fee, value⟩).pendingPayments hash = none) := by
  have hi : inflightState entry.Status = true := inflightState_of hs
  constructor
  · refine ⟨⟨account.ID, account.CurrentBalance - ((value + fee : Nat) : Int), account.Invoices,
      setPayment hash ⟨.Succeeded, entry.FullAmount⟩ account.Payments⟩,
      ⟨.Succeeded, entry.FullAmount⟩, ?_, ?_, ?_, rfl, ?_⟩
    · simp [paymentUpdate, hp, ha, he, hi, UpdateAccount]
    · rfl
    · exact lookup_setPayment hash _ _
    · simp [paymentUpdate, hp, ha, he, hi, deleteKey]
  · refine ⟨⟨account.ID, account.CurrentBalance, account.Invoices,
      setPayment hash ⟨.Failed, entry.FullAmount⟩ account.Payments⟩,
      ⟨.Failed, entry.FullAmount⟩, ?_, ?_, ?_, rfl, ?_⟩
    · simp [paymentUpdate, hp, ha, he, hi, UpdateAccount]
    · rfl
    · exact lookup_setPayment hash _ _
    · simp [paymentUpdate, hp, ha, he, hi, deleteKey]

theorem paymentUpdate_terminal_witness :
    (∃ a1 e1, (paymentUpdate (Start [trackedAccount] (0, 0)) testHash
        ⟨.Succeeded, 234, 1000⟩).accounts testID = some a1 ∧
      a1.CurrentBalance = 0 ∧
      a1.Payments.lookup testHash = some e1 ∧ e1.Status = .Succeeded ∧
      (paymentUpdate (Start [trackedAccount] (0, 0)) testHash
        ⟨.Succeeded, 234, 1000⟩).pendingPayments testHash = none) ∧
    (∃ a2 e2, (paymentUpdate (Start [trackedAccount] (0, 0)) testHash2
        ⟨.Failed, 234, 1000⟩).accounts testID = some a2 ∧
      a2.CurrentBalance = 1234 ∧
      a2.Payments.lookup testHash2 = some e2 ∧ e2.Status = .Failed ∧
      (paymentUpdate (Start [trackedAccount] (0, 0)) testHash2
        ⟨.Failed, 234, 1000⟩).pendingPayments testHash2 = none) :=
  ⟨(paymentUpdate_terminal (Start [trackedAccount] (0, 0)) testHash trackedAccount
      ⟨.InFlight, 1234⟩ 234 1000 rfl rfl rfl (Or.inr rfl)).1,
    (paymentUpdate_terminal (Start [trackedAccount] (0, 0)) testHash2 trackedAccount
      ⟨.Unknown, 3456⟩ 234 1000 rfl rfl rfl (Or.inl rfl)).2⟩

/-! ## C23: Invoice credit -/

/-- C24: for a stored cursor and an invoice event with the indexes `(a, s)`, the
cursor stored after the event is the greater of the two add indexes and the
greater of the two settle indexes. -/
theorem invoiceUpdate_lastIndexes (s : InterceptorService) (invoice : Invoice) :
    (invoiceUpdate s invoice).lastIndexes =
      (max s.lastIndexes.1 invoice.AddIndex, max s.lastIndexes.2 invoice.SettleIndex) := by
  have h : (invoiceUpdate s invoice).lastIndexes = advanceIndexes s.lastIndexes invoice := by
    unfold invoiceUpdate
    dsimp only
    split_ifs
    · rfl
    · split
      · rfl
      · split <;> rfl
  rw [h, advanceIndexes]
  refine Prod.ext ?_ ?_
  · show (if invoice.AddIndex > s.lastIndexes.1 then invoice.AddIndex else s.lastIndexes.1) =
      max s.lastIndexes.1 invoice.AddIndex
    split_ifs <;> omega
  · show (if invoice.SettleIndex > s.lastIndexes.2 then invoice.SettleIndex
      else s.lastIndexes.2) = max s.lastIndexes.2 invoice.SettleIndex
    split_ifs <;> omega

theorem invoiceUpdate_lastIndexes_witness :
    (invoiceUpdate (Start [] (987654, 555555)) ⟨123, 666666, 0, 0, .Open⟩).lastIndexes =
      (987654, 666666) ∧
    (invoiceUpdate (invoiceUpdate (Start [] (987654, 555555)) ⟨123, 666666, 0, 0, .Open⟩)
      ⟨1000000, 666666, 0, 0, .Open⟩).lastIndexes = (1000000, 666666) :=
  ⟨invoiceUpdate_lastIndexes (Start [] (987654, 555555)) ⟨123, 666666, 0, 0, .Open⟩,
    invoiceUpdate_lastIndexes
      (invoiceUpdate (Start [] (987654, 555555)) ⟨123, 666666, 0, 0, .Open⟩)
      ⟨1000000, 666666, 0, 0, .Open⟩⟩

end Accounts

namespace Firewall

/-! ## C25: hideAmount -/

/-- C25: for an amount, a relative variation `r` strictly between 0 and 1 and a
random function that answers `k` with `k` at most `2 * floor (r * amt)`,
`hideAmount` returns `amt - floor (r * amt) + k` and no error, a number
between `amt * (1 - r)` and `amt * (1 + r)`; the amount 0 gives 0 and an
amount below `floor (1 / r)` is returned as it is, whatever the random
function answers. -/
theorem hideAmount_range (randIntn : Nat → Firewalldb.Res Nat) (r : ℚ) (amt k : Nat)
    (hr0 : 0 < r) (hr1 : r < 1)
    (hk : randIntn (2 * ⌊r * amt⌋₊) = .ok k) (hle : k ≤ 2 * ⌊r * amt⌋₊) :
    hideAmount randIntn r amt = .ok (amt - ⌊r * amt⌋₊ + k) ∧
    (amt : ℚ) * (1 - r) ≤ ((amt - ⌊r * amt⌋₊ + k : Nat) : ℚ) ∧
    ((amt - ⌊r * amt⌋₊ + k : Nat) : ℚ) ≤ (amt : ℚ) * (1 + r) ∧
    (∀ rnd : Nat → Firewalldb.Res Nat, hideAmount rnd r 0 = .ok 0) ∧
    (∀ rnd : Nat → Firewalldb.Res Nat, amt < ⌊1 / r⌋₊ → hideAmount rnd r amt = .ok amt) := by
  obtain ⟨hf1, hf2⟩ := floor_le_amount r amt hr0 hr1
  have hlow : ∀ rnd : Nat → Firewalldb.Res Nat, amt < ⌊1 / r⌋₊ →
      hideAmount rnd r amt = .ok amt := by
    intro rnd h
    unfold hideAmount
    by_cases h0 : amt = 0
    · rw [if_pos h0, h0]
    · rw [if_neg h0, if_pos h]
  refine ⟨?_, ?_, ?_, fun rnd => by simp [hideAmount], hlow⟩
  · by_cases h0 : amt = 0
    · subst h0
      have hz : ⌊r * ((0 : Nat) : ℚ)⌋₊ = 0 := by simp
      rw [hz] at hle ⊢
      have hk0 : k = 0 := by omega
      subst hk0
      simp [hideAmount]
    · by_cases h1 : amt < ⌊1 / r⌋₊
      · have hz := floor_zero_of_small r amt hr0 h1
        rw [hz] at hle ⊢
        have hk0 : k = 0 := by omega
        subst hk0
        exact hlow randIntn h1
      · unfold hideAmount
        rw [if_neg h0, if_neg h1]
        dsimp only
        rw [hk]
  · have hc : ((amt - ⌊r * amt⌋₊ + k : Nat) : ℚ) =
        (amt : ℚ) - ((⌊r * amt⌋₊ : Nat) : ℚ) + (k : ℚ) := by
      push_cast [Nat.cast_sub hf2]
      ring
    rw [hc]
    have hk0 : (0 : ℚ) ≤ k := Nat.cast_nonneg k
    nlinarith
  · have hc : ((amt - ⌊r * amt⌋₊ + k : Nat) : ℚ) =
        (amt : ℚ) - ((⌊r * amt⌋₊ : Nat) : ℚ) + (k : ℚ) := by
      push_cast [Nat.cast_sub hf2]
      ring
    rw [hc]
    have hk1 : (k : ℚ) ≤ 2 * ((⌊r * amt⌋₊ : Nat) : ℚ) := by exact_mod_cast hle
    nlinarith

theorem hideAmount_range_witness :
    hideAmount (fun _ => .ok 0) (1 / 20) 10000 = .ok 9500 ∧
    hideAmount (fun _ => .ok 1000) (1 / 20) 10000 = .ok 10500 ∧
    hideAmount (fun _ => .ok 123) (1 / 20) 10000 = .ok 9623 ∧
    hideAmount (fun _ => .ok 0) (1 / 20) 1 = .ok 1 := by
  have hf : ⌊(1 / 20 : ℚ) * ((10000 : Nat) : ℚ)⌋₊ = 500 := by
    rw [Nat.floor_eq_iff (by norm_num)]
    norm_num
  have hs : (1 : Nat) < ⌊1 / (1 / 20 : ℚ)⌋₊ := by
    have : ⌊1 / (1 / 20 : ℚ)⌋₊ = 20 := by
      rw [Nat.floor_eq_iff (by norm_num)]
      norm_num
    omega
  have h1 := (hideAmount_range (fun _ => .ok 0) (1 / 20) 10000 0 (by norm_num) (by norm_num)
    rfl (Nat.zero_le _)).1
  have h2 := (hideAmount_range (fun _ => .ok 1000) (1 / 20) 10000 1000 (by norm_num)
    (by norm_num) rfl (by rw [hf])).1
  have h3 := (hideAmount_range (fun _ => .ok 123) (1 / 20) 10000 123 (by norm_num)
    (by norm_num) rfl (by rw [hf]; decide)).1
  have h4 := (hideAmount_range (fun _ => .ok 0) (1 / 20) 1 0 (by norm_num) (by norm_num)
    rfl (Nat.zero_le _)).2.2.2.2 (fun _ => .ok 0) hs
  rw [hf] at h1 h2 h3
  exact ⟨h1, h2, h3, h4⟩

/-! ## C26: hideTimestamp -/

/-- C26: for a timestamp other than the zero timestamp, an absolute variation `d`
and a random function that answers `k` with `k` at most `2 * d` nanoseconds,
`hideTimestamp` returns the instant `t - d + k` nanoseconds, which lies
between `t - d` and `t + d`; the zero timestamp is returned as it is. -/
theorem hideTimestamp_range (randIntn : Nat → Firewalldb.Res Nat) (d k : Nat) (t : Int)
    (hk : randIntn (2 * d) = .ok k) (hle : k ≤ 2 * d) :
    hideTimestamp randIntn d (.unixNano t) = .ok (.unixNano (t - (d : Int) + (k : Int))) ∧
    t - (d : Int) ≤ t - (d : Int) + (k : Int) ∧
    t - (d : Int) + (k : Int) ≤ t + (d : Int) ∧
    (∀ rnd : Nat → Firewalldb.Res Nat, hideTimestamp rnd d .zero = .ok .zero) := by
  refine ⟨?_, by omega, by omega, fun rnd => rfl⟩
  simp only [hideTimestamp, hk]

theorem hideTimestamp_range_witness :
    hideTimestamp (fun _ => .ok 0) 600000000000 (.unixNano 1000000000000000) =
      .ok (.unixNano 999400000000000) ∧
    hideTimestamp (fun _ => .ok 1200000000000) 600000000000 (.unixNano 1000000000000000) =
      .ok (.unixNano 1000600000000000) ∧
    hideTimestamp (fun _ => .ok 123) 600000000000 (.unixNano 1000000000000000) =
      .ok (.unixNano 999400000000123) ∧
    hideTimestamp (fun _ => .ok 123) 600000000000 .zero = .ok .zero :=
  ⟨(hideTimestamp_range (fun _ => .ok 0) 600000000000 0 1000000000000000 rfl
      (by decide)).1,
    (hideTimestamp_range (fun _ => .ok 1200000000000) 600000000000 1200000000000
      1000000000000000 rfl (by decide)).1,
    (hideTimestamp_range (fun _ => .ok 123) 600000000000 123 1000000000000000 rfl
      (by decide)).1,
    (hideTimestamp_range (fun _ => .ok 123) 600000000000 123 1000000000000000 rfl
      (by decide)).2.2.2 (fun _ => .ok 123)⟩

end Firewall

namespace Firewalldb

/-! ## C27: Channel point parsing -/

/-- C27: a colon-free txid, a colon and the decimal digits of a uint32 index are
decoded by `decodeChannelPoint` to that txid and index. A string that
`strings.Split` does not cut into exactly two parts at the colon, or whose
second part is not the text of a base-10 integer, makes `decodeChannelPoint`
return an error; `HideChanPointStr` then returns that error and the store as
it was. -/
theorem decodeChannelPoint_parsing :
    (∀ (txid : String) (index : Nat), ':' ∉ txid.data → index < 2 ^ 32 →
      decodeChannelPoint (txid ++ ":" ++ Nat.repr index) = .ok (txid, index)) ∧
    (∀ cp : String,
      (Split cp).length ≠ 2 ∨ isIntText ((Split cp).getD 1 "").data = false →
      ∃ e, decodeChannelPoint cp = .err e ∧
        ∀ (σ : Type) (tx : PrivacyMapTx σ) (s : σ) (rnd : Rand),
          HideChanPointStr tx s rnd cp = (.err e, s)) := by
  refine ⟨fun txid index ht hi => decodeChannelPoint_Sprintf txid index ht hi, ?_⟩
  intro cp h
  have hd : ∃ e, decodeChannelPoint cp = .err e := by
    unfold decodeChannelPoint
    split
    · rename_i part0 part1 hs
      rw [hs] at h
      rcases h with h | h
      · exact absurd rfl h
      · have h1 : isIntText part1.data = false := h
        cases hp : ParseInt part1 with
        | panic => exact absurd hp (ParseInt_no_panic part1)
        | err e => exact ⟨e, rfl⟩
        | ok v =>
          rw [(ParseInt_ok hp).1] at h1
          cases h1
    · exact ⟨_, rfl⟩
  obtain ⟨e, he⟩ := hd
  refine ⟨e, he, ?_⟩
  intro σ tx s rnd
  simp only [HideChanPointStr, he]

theorem decodeChannelPoint_parsing_witness :
    decodeChannelPoint ("abc" ++ ":" ++ Nat.repr 7) = .ok ("abc", 7) ∧
    (∃ e, decodeChannelPoint "a:b:1" = .err e ∧
      ∀ (σ : Type) (tx : PrivacyMapTx σ) (s : σ) (rnd : Rand),
        HideChanPointStr tx s rnd "a:b:1" = (.err e, s)) ∧
    (∃ e, decodeChannelPoint "abc:x1" = .err e ∧
      ∀ (σ : Type) (tx : PrivacyMapTx σ) (s : σ) (rnd : Rand),
        HideChanPointStr tx s rnd "abc:x1" = (.err e, s)) :=
  ⟨decodeChannelPoint_parsing.1 "abc" 7 (by decide) (by decide),
    decodeChannelPoint_parsing.2 "a:b:1" (Or.inl (by decide)),
    decodeChannelPoint_parsing.2 "abc:x1" (Or.inr (by decide))⟩

/-! ## C28: Index range of decodeChannelPoint -/

/-- C28: for a colon-free txid and the base-10 text `n` of a signed 64-bit
integer, `decodeChannelPoint` of `txid:n` succeeds and returns the integer
reduced modulo 2^32, also when the written index lies outside the uint32
range; `HideChanPointStr` then does on `txid:n` what it does on the channel
point written with the reduced index. -/
theorem decodeChannelPoint_index_range (txid : String) (n : List Char)
    (ht : ':' ∉ txid.data) (hn : isIntText n = true)
    (hlo : -(2 : Int) ^ 63 ≤ intVal n) (hhi : intVal n < (2 : Int) ^ 63) :
    decodeChannelPoint (txid ++ ":" ++ String.mk n) = .ok (txid, toUint32 (intVal n)) ∧
    (toUint32 (intVal n) : Int) = intVal n % 2 ^ 32 ∧
    ∀ (σ : Type) (tx : PrivacyMapTx σ) (s : σ) (rnd : Rand),
      HideChanPointStr tx s rnd (txid ++ ":" ++ String.mk n) =
        HideChanPointStr tx s rnd (txid ++ ":" ++ Nat.repr (toUint32 (intVal n))) := by
  have h1 := decodeChannelPoint_intText txid n ht hn hlo hhi
  have h2 := decodeChannelPoint_Sprintf txid (toUint32 (intVal n)) ht (toUint32_lt _)
  refine ⟨h1, ?_, ?_⟩
  · unfold toUint32
    omega
  · intro σ tx s rnd
    have h3 : decodeChannelPoint (txid ++ ":" ++ Nat.repr (toUint32 (intVal n))) =
        .ok (txid, toUint32 (intVal n)) := h2
    simp only [HideChanPointStr, h1, h3]

theorem decodeChannelPoint_index_range_witness :
    decodeChannelPoint "a:4294967296" = .ok ("a", 0) ∧
    decodeChannelPoint "a:-1" = .ok ("a", 4294967295) ∧
    ∀ (σ : Type) (tx : PrivacyMapTx σ) (s : σ) (rnd : Rand),
      HideChanPointStr tx s rnd "a:-1" = HideChanPointStr tx s rnd "a:4294967295" :=
  ⟨(decodeChannelPoint_index_range "a" "4294967296".data (by decide) (by decide)
      (by decide) (by decide)).1,
    (decodeChannelPoint_index_range "a" "-1".data (by decide) (by decide)
      (by decide) (by decide)).1,
    (decodeChannelPoint_index_range "a" "-1".data (by decide) (by decide)
      (by decide) (by decide)).2.2⟩

/-! ## C29: StrToUint64 on short input -/

/-- C29: `StrToUint64` is not total. On the valid hex strings "" and "00", which
decode to fewer than eight bytes, `binary.BigEndian.Uint64` reads past the
decoded bytes and the call panics instead of returning an error; `HideUint64`
and `RevealUint64` panic likewise on a store that holds the string "00" for
the key they look up. -/
theorem StrToUint64_short_input :
    StrToUint64 "" = .panic ∧ StrToUint64 "00" = .panic ∧
    DecodeString "" = .ok [] ∧ DecodeString "00" = .ok [0] ∧
    (privacyMapTx 7).RealToPseudo shortPseudoTx (Uint64ToStr 123) = .ok "00" ∧
    (HideUint64 (privacyMapTx 7) shortPseudoTx zeroRand 123).1 = .panic ∧
    (privacyMapTx 7).PseudoToReal shortRealTx (Uint64ToStr 123) = .ok "00" ∧
    RevealUint64 (privacyMapTx 7) shortRealTx 123 = .panic := by
  decide

/-! ## C30: Channel points with a colon in the txid -/

/-- C30: `HideChanPoint` can store a real channel point that `RevealChanPoint`
cannot decode. On the blank store, `HideChanPoint` with the txid "a:b" and the
index 1 succeeds and stores the real point "a:b:1"; `RevealChanPoint` on the
resulting store with the returned pseudonym finds "a:b:1" and fails to decode
it. -/
theorem HideChanPoint_colon_txid :
    (HideChanPoint (privacyMapTx 7) emptyTx zeroRand "a:b" 1).1 =
      .ok (String.mk (List.replicate 64 'a'), 0) ∧
    (privacyMapTx 7).PseudoToReal colonTxidTx
      (Sprintf (String.mk (List.replicate 64 'a')) 0) = .ok "a:b:1" ∧
    RevealChanPoint (privacyMapTx 7) colonTxidTx (String.mk (List.replicate 64 'a')) 0 =
      .err .ErrBadChanPoint := by
  decide

end Firewalldb
